import Mathlib

/-!
# ThemeManager: theme chains, merged metrics, class fallback and path lookup

A shallow embedding of `src/ThemeManager.cpp` (StepMania).  The process-wide
state of the C++ file (the members of `ThemeManager` and the file-level
globals `g_vThemes`, `g_pLoadedThemeData`, `g_ThemePathCache`) is one record
that every operation receives and returns.  Collaborators that live outside
the file (file system, ini parser, Lua, dialogs, preferences, the constants of
`SpecialFiles`) are the fields of `Env`.

Build flavour embedded: the game build (`SMPACKAGE` undefined), release
(`DEBUG` undefined).
-/

set_option autoImplicit false

namespace StepMania

/-! ## Strings -/

/-- Modelled from the spec: `RString::MakeLower` (the string class is not among the
sources), used wherever the spec compares "case-insensitively"; lower-cases the
ASCII letters. -/
def MakeLower (s : String) : String := ⟨s.data.map Char.toLower⟩

/-- Modelled from the spec: `RString::EqualsNoCase`, that is `CompareNoCase(..) == 0`
(the string class is not among the sources): equality that ignores case. -/
def EqualsNoCase (a b : String) : Bool := MakeLower a == MakeLower b

/-! ## Ini files (`IniFile` is an `XNode` whose children are the sections) -/

/-- Modelled from the spec: how the ini store (`IniFile.h`, `XmlFile.h`, not among
the sources) compares names.  The spec describes "an ordered mapping of
section→(key→value) with case-insensitive key lookup"; two names are the same
section, or the same key, when their forms are equal: lower-casing for a lookup
that ignores case, the identity for an exact one. -/
structure NameForms where
  sectionForm : String → String
  keyForm : String → String

/-- Modelled from the spec: the attributes `XAttrs` of one section (`XmlFile.h` is
not among the sources), "(key→value)": the keys of the section with their values. -/
abbrev XAttrs := List (String × String)

/-- Modelled from the spec: `XAttrs::find`, the "key lookup": the value stored under
a key, keys compared by their form. -/
def XAttrs.find (a : XAttrs) (form : String → String) (k : String) : Option String :=
  match a with
  | [] => none
  | (k', v) :: rest => if form k' = form k then some v else XAttrs.find rest form k

/-- Modelled from the spec: `XAttrs::insert`, "only keys ... absent in the accumulator
are copied in": adds the pair unless the key is already present ("map::insert
will not overwrite existing nodes"). -/
def XAttrs.insert (a : XAttrs) (form : String → String) (kv : String × String) : XAttrs :=
  match a.find form kv.1 with
  | some _ => a
  | none => a ++ [kv]

/-- Modelled from the spec: assignment to a key of a section, as `SetValue` does it:
overwrites the value of a present key, adds an absent one. -/
def XAttrs.set (a : XAttrs) (form : String → String) (k v : String) : XAttrs :=
  match a with
  | [] => [(k, v)]
  | (k', v') :: rest =>
    if form k' = form k then (k', v) :: rest else (k', v') :: XAttrs.set rest form k v

/-- Modelled from the spec: `IniFile` (`IniFile.h` is not among the sources), the
"mapping of section→(key→value)": the children `m_childs` of the root node, each
a section name with the attributes of the section. -/
abbrev IniFile := List (String × XAttrs)

/-- Modelled from the spec: `XNode::GetChild`, the first child with the given name,
if any. -/
def IniFile.GetChild (ini : IniFile) (nf : NameForms) (sName : String) : Option XAttrs :=
  match ini with
  | [] => none
  | (n, a) :: rest =>
    if nf.sectionForm n = nf.sectionForm sName then some a else IniFile.GetChild rest nf sName

/-- Modelled from the spec: `IniFile::GetValue( section, key, out )`, the lookup
`store[section][key]`; `some v` when it returns true. -/
def IniFile.GetValue (ini : IniFile) (nf : NameForms) (sSection sKey : String) :
    Option String :=
  match ini.GetChild nf sSection with
  | none => none
  | some a => a.find nf.keyForm sKey

/-- Modelled from the spec: the update of the attributes of the first child named
`sName`. -/
def IniFile.setChild (ini : IniFile) (nf : NameForms) (sName : String) (a : XAttrs) :
    IniFile :=
  match ini with
  | [] => []
  | (n, a') :: rest =>
    if nf.sectionForm n = nf.sectionForm sName then (n, a) :: rest
    else (n, a') :: IniFile.setChild rest nf sName a

/-- Modelled from the spec: `IniFile::SetValue( section, key, value )`, which applies
an override "directly into the metrics store": creates the section when it is
missing and overwrites the key. -/
def IniFile.SetValue (ini : IniFile) (nf : NameForms) (sSection sKey sValue : String) :
    IniFile :=
  match ini.GetChild nf sSection with
  | none => ini ++ [(sSection, [(sKey, sValue)])]
  | some a => ini.setChild nf sSection (a.set nf.keyForm sKey sValue)

/-- The function `MergeIniUnder( pFrom, pTo )`: "Move nodes from pFrom into pTo which
don't already exist in pTo."  Returns the new `pTo`. -/
def MergeIniUnder (nf : NameForms) (pFrom pTo : IniFile) : IniFile :=
  match pFrom with
  | [] => pTo
  | (sName, attrs) :: next =>
    match pTo.GetChild nf sName with
    | none => MergeIniUnder nf next (pTo ++ [(sName, attrs)])
    | some pChildNode =>
      MergeIniUnder nf next
        (pTo.setChild nf sName (attrs.foldl (fun a kv => a.insert nf.keyForm kv) pChildNode))

/-- A `map<RString,RString>` of the file itself (the path cache): keys are compared
exactly. -/
abbrev PathMap := List (String × String)

/-- The lookup `map::find`. -/
def PathMap.find (m : PathMap) (k : String) : Option String :=
  match m with
  | [] => none
  | (k', v) :: rest => if k' = k then some v else PathMap.find rest k

/-- The assignment `m[k] = v`: overwrites or adds. -/
def PathMap.set (m : PathMap) (k v : String) : PathMap :=
  match m with
  | [] => [(k, v)]
  | (k', v') :: rest => if k' = k then (k, v) :: rest else (k', v') :: PathMap.set rest k v

/-! ## Session state -/

/-- Source: `struct Theme`. -/
structure Theme where
  sThemeName : String
deriving DecidableEq, Repr

/-- Source: `class LoadedThemeData`. -/
structure LoadedThemeData where
  iniMetrics : IniFile
  iniStrings : IniFile
deriving DecidableEq, Repr

/-- Source: `enum ElementCategory`, in the order of `ElementCategoryNames`. -/
inductive ElementCategory where
  | EC_BGANIMATIONS
  | EC_FONTS
  | EC_GRAPHICS
  | EC_SOUNDS
  | EC_OTHER
deriving DecidableEq, Repr

/-- Source: `ElementCategoryToString`. -/
def ElementCategoryToString : ElementCategory → String
  | .EC_BGANIMATIONS => "BGAnimations"
  | .EC_FONTS => "Fonts"
  | .EC_GRAPHICS => "Graphics"
  | .EC_SOUNDS => "Sounds"
  | .EC_OTHER => "Other"

/-- Source: `g_ThemePathCache[NUM_ElementCategory]`: one `map<RString,RString>` per category. -/
structure ThemePathCache where
  bgAnimations : PathMap
  fonts : PathMap
  graphics : PathMap
  sounds : PathMap
  other : PathMap
deriving DecidableEq, Repr

/-- Source: `g_ThemePathCache[category]`. -/
def ThemePathCache.get (c : ThemePathCache) : ElementCategory → PathMap
  | .EC_BGANIMATIONS => c.bgAnimations
  | .EC_FONTS => c.fonts
  | .EC_GRAPHICS => c.graphics
  | .EC_SOUNDS => c.sounds
  | .EC_OTHER => c.other

/-- Assignment to `g_ThemePathCache[category]`. -/
def ThemePathCache.put (c : ThemePathCache) (category : ElementCategory) (m : PathMap) :
    ThemePathCache :=
  match category with
  | .EC_BGANIMATIONS => { c with bgAnimations := m }
  | .EC_FONTS => { c with fonts := m }
  | .EC_GRAPHICS => { c with graphics := m }
  | .EC_SOUNDS => { c with sounds := m }
  | .EC_OTHER => { c with other := m }

/-- All five maps empty. -/
def ThemePathCache.empty : ThemePathCache := ⟨[], [], [], [], []⟩

/-- The mutable state of the file: the members of `ThemeManager`, the file
globals, and three counters that record what was asked of the collaborators. -/
structure ThemeManager where
  m_sCurThemeName : String
  m_sCurLanguage : String
  m_bPseudoLocalize : Bool
  g_vThemes : List Theme
  g_pLoadedThemeData : Option LoadedThemeData
  g_ThemePathCache : ThemePathCache
  /-- Number of `GetDirListing` calls made so far. -/
  nDirListings : Nat
  /-- Number of dialogs shown so far. -/
  nDialogs : Nat
  /-- Number of `IThemeMetric::Read` calls made on subscribers so far. -/
  nSubscriberReads : Nat
deriving DecidableEq, Repr

/-- The state the constructor leaves: "We don't have any theme loaded until
SwitchThemeAndLanguage is called." -/
def ThemeManager.init : ThemeManager :=
  { m_sCurThemeName := "", m_sCurLanguage := "", m_bPseudoLocalize := false,
    g_vThemes := [], g_pLoadedThemeData := none, g_ThemePathCache := ThemePathCache.empty,
    nDirListings := 0, nDialogs := 0, nSubscriberReads := 0 }

/-- Source: `g_pLoadedThemeData->iniMetrics` (the empty store stands for the null pointer,
which every reader guards with `ASSERT( g_pLoadedThemeData )`). -/
def ThemeManager.iniMetrics (st : ThemeManager) : IniFile :=
  match st.g_pLoadedThemeData with
  | some d => d.iniMetrics
  | none => []

/-- Source: `g_pLoadedThemeData->iniStrings`. -/
def ThemeManager.iniStrings (st : ThemeManager) : IniFile :=
  match st.g_pLoadedThemeData with
  | some d => d.iniStrings
  | none => []

/-- The names of the chain `g_vThemes`, most-derived first. -/
def ThemeManager.chain (st : ThemeManager) : List String :=
  st.g_vThemes.map Theme.sThemeName

/-- Source: `Dialog::Result`. -/
inductive DialogResult where
  | abort
  | retry
  | ignore
deriving DecidableEq, Repr

/-- The fatal ways out: failed assertions and `RageException::Throw`. -/
inductive Failure where
  /-- Source: `ASSERT_M( theme.size() < 20, "Circular theme fallback references detected." )`. -/
  | circularThemeFallback
  /-- Source: `Invalid argument "--metric=%s".` -/
  | invalidArgument (sMetric : String)
  /-- Source: `Infinite recursion looking up theme element "%s"`. -/
  | infiniteRecursionElement (sFileName : String)
  /-- Source: `Infinite recursion looking up theme metric "%s::%s".` -/
  | infiniteRecursionMetric (sClassName sValueName : String)
  /-- The message thrown after a dialog was answered with Abort. -/
  | aborted (sMessage : String)
  /-- Source: `"_missing" isn't present in ...`. -/
  | missingPlaceholder (sCategory : String)
  /-- Any other failed `ASSERT` / `DEFAULT_FAIL`. -/
  | assertion (sWhat : String)
  /-- Not a failure of the program: the embedding's recursion budget ran out,
  the program is still running. -/
  | outOfFuel
deriving DecidableEq, Repr

/-- Outcome of a state-changing operation: a value or a fatal failure, with the state. -/
inductive Result (α : Type) where
  | ok (a : α) (st : ThemeManager)
  | fail (e : Failure) (st : ThemeManager)
deriving DecidableEq, Repr

/-- What the file needs from outside. -/
structure Env where
  /-- Source: `SpecialFiles::THEMES_DIR`. -/
  THEMES_DIR : String
  /-- Source: `SpecialFiles::BASE_THEME_NAME`. -/
  BASE_THEME_NAME : String
  /-- Source: `SpecialFiles::BASE_LANGUAGE`. -/
  BASE_LANGUAGE : String
  /-- Source: `SpecialFiles::METRICS_FILE`. -/
  METRICS_FILE : String
  /-- Source: `SpecialFiles::LANGUAGES_SUBDIR`. -/
  LANGUAGES_SUBDIR : String
  /-- How the ini store compares section names and keys. -/
  forms : NameForms
  /-- Source: `IniFile::ReadFile( path )` applied to an ini object with the given content. -/
  ReadFile : String → IniFile → IniFile
  /-- Conversion of an ini value to `bool` in `GetValue( .., .., bool& )`. -/
  ValueToBool : String → Bool
  /-- The values of the `--metric=` command line arguments, in order. -/
  metricArguments : List String
  /-- Source: `GetDirListing( sPath, out, bOnlyDirs, bReturnPathToo )`. -/
  GetDirListing : String → Bool → Bool → List String
  /-- Source: `StripCvs`. -/
  StripCvs : List String → List String
  /-- Source: `IsADirectory`. -/
  IsADirectory : String → Bool
  /-- Source: `GetFileContents( sPath, out, true )`. -/
  GetFileContents : String → String
  /-- Source: `GetExtension`. -/
  GetExtension : String → String
  /-- Source: `LuaHelpers::RunExpressionS`. -/
  RunExpressionS : String → String
  /-- Source: `FontCharAliases::ReplaceMarkers`. -/
  ReplaceMarkers : String → String
  /-- Source: `Dialog::AbortRetryIgnore`: the answer to the n-th dialog of the run. -/
  AbortRetryIgnore : Nat → String → DialogResult
  /-- Source: `Dialog::AbortRetry`. -/
  AbortRetry : Nat → String → DialogResult
  /-- Source: `PREFSMAN->m_sTheme.GetDefault()`. -/
  defaultTheme : String
  /-- Source: `HOOKS->GetPreferredLanguage()`. -/
  GetPreferredLanguage : String
  /-- Source: `std::partition` on a vector: the rearranged vector and the distance of
  the returned iterator from `begin()`. -/
  partition : (String → Bool) → List String → List String × Nat
  /-- Number of subscribed `IThemeMetric`s. -/
  numSubscribers : Nat
  /-- Width in bits of `size_t` on the platform (`unsigned` and `int` have 32). -/
  sizeBits : Nat

/-- Source: `ThemeManager::GetThemeDirFromName`. -/
def GetThemeDirFromName (env : Env) (sThemeName : String) : String :=
  env.THEMES_DIR ++ sThemeName ++ "/"

/-- Source: `ThemeManager::GetMetricsIniPath`. -/
def GetMetricsIniPath (env : Env) (sThemeName : String) : String :=
  GetThemeDirFromName env sThemeName ++ env.METRICS_FILE

/-- Source: `ThemeManager::GetLanguageIniPath`. -/
def GetLanguageIniPath (env : Env) (sThemeName sLanguage : String) : String :=
  GetThemeDirFromName env sThemeName ++ env.LANGUAGES_SUBDIR ++ sLanguage ++ ".ini"

/-! ## Building the theme chain and the merged stores -/

/-- One match of the override pattern `^([^=]+)::([^=]+)=(.*)$` on the text
before the first `=`: every way to write it as `A ++ "::" ++ B`, shortest `A` first. -/
def colonSplits : List Char → List (List Char × List Char)
  | [] => []
  | c :: rest =>
    let here : List (List Char × List Char) :=
      match c, rest with
      | ':', ':' :: b => [([], b)]
      | _, _ => []
    here ++ (colonSplits rest).map (fun ab => (c :: ab.1, ab.2))

/-- The text before the first `=` and the text after it. -/
def splitAtEquals : List Char → Option (List Char × List Char)
  | [] => none
  | c :: rest =>
    if c = '=' then some ([], rest)
    else match splitAtEquals rest with
      | none => none
      | some (a, b) => some (c :: a, b)

/-- Modelled from the spec: the match of `Regex( "^([^=]+)::([^=]+)=(.*)$" )` (the
class `Regex` is not among the sources) against an override of the
"`ClassName::Key=Value` syntax": the three captured groups.  The first group is
greedy, so among several places of `::` the last one with text on both sides is
taken ("foo" and "bar" never contain "=", "baz" is everything after the first
"="). -/
def matchMetricArgument (sMetric : String) : Option (String × String × String) :=
  match splitAtEquals sMetric.data with
  | none => none
  | some (head, baz) =>
    match ((colonSplits head).filter (fun ab => ab.1 ≠ [] ∧ ab.2 ≠ [])).getLast? with
    | none => none
    | some (foo, bar) => some (⟨foo⟩, ⟨bar⟩, ⟨baz⟩)

/-- The variables that live across iterations of the `while(1)` loop of
`LoadThemeMetrics`. -/
structure LoadLoop where
  sThemeName : String
  bLoadedBase : Bool
deriving DecidableEq, Repr

/-- The metrics of a theme as the loop reads them:
`iniMetrics.ReadFile( GetMetricsIniPath(sThemeName) )` on a fresh `IniFile`. -/
def themeMetrics (env : Env) (sThemeName : String) : IniFile :=
  env.ReadFile (GetMetricsIniPath env sThemeName) []

/-- The strings of a theme as the loop reads them: the base language file, then
the file of `sLanguage` when that is another language. -/
def themeStrings (env : Env) (sThemeName sLanguage : String) : IniFile :=
  let iniStrings := env.ReadFile (GetLanguageIniPath env sThemeName env.BASE_LANGUAGE) []
  if !EqualsNoCase sLanguage env.BASE_LANGUAGE then
    env.ReadFile (GetLanguageIniPath env sThemeName sLanguage) iniStrings
  else iniStrings

/-- The flag `bIsBaseTheme` of one iteration: the name is the base theme's, unless
the theme's `Global::IsBaseTheme` says otherwise. -/
def isBaseTheme (env : Env) (sThemeName : String) : Bool :=
  match (themeMetrics env sThemeName).GetValue env.forms "Global" "IsBaseTheme" with
  | some s => env.ValueToBool s
  | none => EqualsNoCase sThemeName env.BASE_THEME_NAME

/-- The value of `sFallback` of one iteration, `bLoadedBase` being the flag after
this theme was looked at. -/
def fallbackTheme (env : Env) (sThemeName : String) (bLoadedBase : Bool) : String :=
  match (themeMetrics env sThemeName).GetValue env.forms "Global" "FallbackTheme" with
  | some sFallback => sFallback
  | none =>
    if !EqualsNoCase sThemeName env.BASE_THEME_NAME && !bLoadedBase then env.BASE_THEME_NAME
    else ""

/-- The loop variables after one iteration: the flag `bLoadedBase` as updated for
this theme, and `sFallback` as the next theme name. -/
def LoadThemeMetrics.next (env : Env) (v : LoadLoop) : LoadLoop :=
  let bLoadedBase := if isBaseTheme env v.sThemeName then true else v.bLoadedBase
  { sThemeName := fallbackTheme env v.sThemeName bLoadedBase, bLoadedBase := bLoadedBase }

/-- The state after one iteration: the theme pushed onto `g_vThemes`, its metrics
and strings merged under the stores loaded so far. -/
def LoadThemeMetrics.merged (env : Env) (sLanguage sThemeName : String) (st : ThemeManager) :
    ThemeManager :=
  let data : LoadedThemeData :=
    { iniMetrics := MergeIniUnder env.forms (themeMetrics env sThemeName) st.iniMetrics,
      iniStrings := MergeIniUnder env.forms (themeStrings env sThemeName sLanguage) st.iniStrings }
  { st with g_vThemes := st.g_vThemes ++ [⟨sThemeName⟩], g_pLoadedThemeData := some data }

/-- One iteration of the `while(1)` loop of `LoadThemeMetrics`; `none` is `break`.
The parameter `theme` of the C++ function is `g_vThemes` at both call sites, so
the guard reads the length of the chain under construction. -/
def LoadThemeMetrics.body (env : Env) (sLanguage : String) (v : LoadLoop)
    (st : ThemeManager) : Result (Option LoadLoop) :=
  if ¬ (st.g_vThemes.length < 20) then .fail .circularThemeFallback st
  else
    let st' := LoadThemeMetrics.merged env sLanguage v.sThemeName st
    let v' := LoadThemeMetrics.next env v
    if v'.sThemeName = "" then .ok none st' else .ok (some v') st'

/-- The `while(1)` loop of `LoadThemeMetrics`, at most `fuel` iterations. -/
def LoadThemeMetrics.loop (env : Env) (sLanguage : String) :
    Nat → LoadLoop → ThemeManager → Result Unit
  | 0, _, st => .fail .outOfFuel st
  | fuel + 1, v, st =>
    match LoadThemeMetrics.body env sLanguage v st with
    | .fail e st' => .fail e st'
    | .ok none st' => .ok () st'
    | .ok (some v') st' => LoadThemeMetrics.loop env sLanguage fuel v' st'

/-- The loop "Overlay metrics from the command line." -/
def LoadThemeMetrics.overlay (nf : NameForms) : List String → ThemeManager → Result Unit
  | [], st => .ok () st
  | sMetric :: rest, st =>
    match matchMetricArgument sMetric with
    | none => .fail (.invalidArgument sMetric) st
    | some (foo, bar, baz) =>
      let data : LoadedThemeData :=
        { iniMetrics := st.iniMetrics.SetValue nf foo bar baz, iniStrings := st.iniStrings }
      LoadThemeMetrics.overlay nf rest { st with g_pLoadedThemeData := some data }

/-- The state after the first lines of `LoadThemeMetrics`: stores cleared, chain
cleared, current theme and language set. -/
def LoadThemeMetrics.start (sThemeName sLanguage : String) (st : ThemeManager) : ThemeManager :=
  { st with g_pLoadedThemeData := some ⟨[], []⟩,
            g_vThemes := [],
            m_sCurThemeName := sThemeName,
            m_sCurLanguage := sLanguage }

/-- Source: `ThemeManager::LoadThemeMetrics( g_vThemes, sThemeName_, sLanguage_ )`.  The
guard lets the loop body run at most 21 times, which is the budget given. -/
def LoadThemeMetrics (env : Env) (sThemeName sLanguage : String) (st : ThemeManager) :
    Result Unit :=
  match LoadThemeMetrics.loop env sLanguage 21 { sThemeName := sThemeName, bLoadedBase := false }
      (LoadThemeMetrics.start sThemeName sLanguage st) with
  | .fail e st' => .fail e st'
  | .ok () st' => LoadThemeMetrics.overlay env.forms env.metricArguments st'

/-! ## Class fallback and the recursive metric lookup -/

deriving instance DecidableEq for Except

/-- The `while( n-- )` loop of `GetMetricRawRecursive`, `n` iterations left;
`GetClassFallback` is the call `GetClassFallback( sClassName )`. -/
def GetMetricRawRecursive.loop (nf : NameForms) (ini : IniFile)
    (GetClassFallback : String → Except Failure String) (sValueName : String) :
    Nat → String → Except Failure (Option String)
  | 0, sClassName => .error (.infiniteRecursionMetric sClassName sValueName)
  | n + 1, sClassName =>
    match ini.GetValue nf sClassName sValueName with
    | some sOut => .ok (some sOut)
    | none =>
      if sValueName = "Fallback" then .ok none
      else
        match GetClassFallback sClassName with
        | .error e => .error e
        | .ok sFallback =>
          if sFallback = "" then .ok none
          else GetMetricRawRecursive.loop nf ini GetClassFallback sValueName n sFallback

/-- The body of `GetMetricRawRecursive`: the two assertions, then the loop with
`n = 100`.  `some v` is "returns true with sOut = v", `none` is "returns false". -/
def GetMetricRawRecursive.guarded (nf : NameForms) (st : ThemeManager)
    (GetClassFallback : String → Except Failure String)
    (ini : IniFile) (sClassName sValueName : String) : Except Failure (Option String) :=
  if sValueName = "" then .error (.assertion "sValueName")
  else if st.g_pLoadedThemeData.isNone then .error (.assertion "g_pLoadedThemeData")
  else GetMetricRawRecursive.loop nf ini GetClassFallback sValueName 100 sClassName

/-- The function `GetClassFallback` with a budget for the nesting of
`GetClassFallback` inside `GetMetricRawRecursive` inside `GetClassFallback`:
"always look in iniMetrics for Fallback". -/
def GetClassFallback.nested (env : Env) (st : ThemeManager) : Nat → String → Except Failure String
  | 0, _ => .error .outOfFuel
  | depth + 1, sClassName =>
    match GetMetricRawRecursive.guarded env.forms st (GetClassFallback.nested env st depth)
        st.iniMetrics sClassName "Fallback" with
    | .error e => .error e
    | .ok none => .ok ""
    | .ok (some sFallback) => .ok (env.RunExpressionS sFallback)

/-- Source: `ThemeManager::GetClassFallback`.  The lookup of the key "Fallback" returns in
its first iteration, so one level of nesting is all there is. -/
def GetClassFallback (env : Env) (st : ThemeManager) (sClassName : String) :
    Except Failure String :=
  GetClassFallback.nested env st 1 sClassName

/-- Source: `ThemeManager::GetMetricRawRecursive( ini, sClassName_, sValueName, sOut )`. -/
def GetMetricRawRecursive (env : Env) (st : ThemeManager) (ini : IniFile)
    (sClassName sValueName : String) : Except Failure (Option String) :=
  GetMetricRawRecursive.guarded env.forms st (GetClassFallback env st) ini sClassName sValueName

/-! ## File names -/

/-- Source: `string::npos` for a `size_t` of `bits` bits. -/
def npos (bits : Nat) : Nat := 2 ^ bits - 1

/-- Conversion of an integer value to `int` (32 bits, two's complement). -/
def toInt32 (n : Nat) : Int :=
  if n % 2 ^ 32 < 2 ^ 31 then (n % 2 ^ 32 : Nat) else ((n % 2 ^ 32 : Nat) : Int) - 2 ^ 32

/-- Index of the first occurrence of a character, if any. -/
def indexOfChar (c : Char) : List Char → Option Nat
  | [] => none
  | x :: rest => if x = c then some 0 else (indexOfChar c rest).map (· + 1)

/-- Modelled from the spec: `RString::Left( int nCount )` (the string class is not among
the sources), the text before a position: the first `nCount` characters, the count
clamped to `0 .. size()`. -/
def Left (s : String) (nCount : Int) : String :=
  ⟨s.data.take (max 0 (min nCount s.data.length)).toNat⟩

/-- Modelled from the spec: `RString::Right( int nCount )` (the string class is not
among the sources), the text after a position: the last `nCount` characters, the
count clamped to `0 .. size()`. -/
def Right (s : String) (nCount : Int) : String :=
  ⟨s.data.drop (s.data.length - (max 0 (min nCount s.data.length)).toNat)⟩

/-- Source: `FileNameToClassAndElement( sFileName, sClassNameOut, sElementOut )`.  The
result of `find` is stored in an `unsigned` and then compared with `string::npos`. -/
def FileNameToClassAndElement (sizeBits : Nat) (sFileName : String) : String × String :=
  let found : Nat :=
    match indexOfChar ' ' sFileName.data with
    | some i => i
    | none => npos sizeBits
  let iIndexOfFirstSpace : Nat := found % 2 ^ 32
  if iIndexOfFirstSpace = npos sizeBits then ("", sFileName)
  else
    (Left sFileName (toInt32 iIndexOfFirstSpace),
     Right sFileName
       (toInt32 ((sFileName.data.length + 2 * 2 ^ sizeBits - iIndexOfFirstSpace - 1) % 2 ^ sizeBits)))

/-- Source: `ClassAndElementToFileName( sClassName, sElement )`. -/
def ClassAndElementToFileName (sClassName sElement : String) : String :=
  if sClassName = "" then sElement else sClassName ++ " " ++ sElement

/-- Whether `needle` occurs in `hay` (`find( needle ) != npos`). -/
def containsSubstring (needle : List Char) : List Char → Bool
  | [] => needle.isEmpty
  | c :: rest => needle.isPrefixOf (c :: rest) || containsSubstring needle rest

/-- Source: `CompareLanguageTag( sLang )( sFile )`. -/
def CompareLanguageTag (sLang : String) (sFile : String) : Bool :=
  containsSubstring (MakeLower ("(lang " ++ sLang ++ ")")).data (MakeLower sFile).data

/-- Source: `ThemeManager::FilterFileLanguages( asPaths )`, with `m_sCurLanguage` passed in. -/
def FilterFileLanguages (env : Env) (m_sCurLanguage : String) (asPaths : List String) :
    List String :=
  if asPaths.length ≤ 1 then asPaths
  else
    let r := env.partition (CompareLanguageTag m_sCurLanguage) asPaths
    let r := if r.2 = 0 then env.partition (CompareLanguageTag env.BASE_LANGUAGE) r.1 else r
    if r.2 = 1 then r.1.take r.2 else r.1

/-- The table `masks[NUM_ElementCategory][14]` of `GetPathToRaw`. -/
def masks : ElementCategory → List String
  | .EC_BGANIMATIONS => ["redir", "xml", "png", "jpg", "bmp", "gif", "avi", "mpg", "mpeg", "txt", ""]
  | .EC_FONTS => ["redir", "ini"]
  | .EC_GRAPHICS => ["redir", "xml", "png", "jpg", "bmp", "gif", "avi", "mpg", "mpeg", "txt", ""]
  | .EC_SOUNDS => ["redir", "mp3", "ogg", "wav"]
  | .EC_OTHER => ["*"]

/-- One turn of the inner `for` over `asset_masks`: whether this mask accepts the path. -/
def maskAccepts (env : Env) (sPath : String) (mask : String) : Bool :=
  if mask = "" ∧ ¬ env.IsADirectory sPath then false
  else env.GetExtension sPath = mask || mask = "*"

/-- The files `asElementPaths` that `GetPathToRaw` collects from one theme. -/
def elementPaths (env : Env) (sThemeName : String) (category : ElementCategory)
    (sClassName sElement : String) : List String :=
  let sThemeDir := GetThemeDirFromName env sThemeName
  let sCategory := ElementCategoryToString category
  let bLookingForSpecificFile := sElement.data.contains '.'
  if bLookingForSpecificFile then
    env.GetDirListing
      (sThemeDir ++ sCategory ++ "/" ++ ClassAndElementToFileName sClassName sElement) false true
  else
    let asPaths := env.GetDirListing
      (sThemeDir ++ sCategory ++ "/" ++ ClassAndElementToFileName sClassName sElement ++ "*")
      false true
    asPaths.filter (fun sPath => (masks category).any (maskAccepts env sPath))

/-! ## Reloading and path lookup -/

/-- Source: `ThemeManager::ClearThemePathCache`. -/
def ClearThemePathCache (st : ThemeManager) : ThemeManager :=
  { st with g_ThemePathCache := ThemePathCache.empty }

/-- Source: `ThemeManager::ReloadMetrics`. -/
def ReloadMetrics (env : Env) (st : ThemeManager) : Result Unit :=
  match LoadThemeMetrics env st.m_sCurThemeName st.m_sCurLanguage st with
  | .fail e st' => .fail e st'
  | .ok () st' => .ok () (ClearThemePathCache st')

/-- The effect of `Cache[sFileName] = sPath` on `g_ThemePathCache[category]`. -/
def cacheStore (st : ThemeManager) (category : ElementCategory) (sFileName sPath : String) :
    ThemeManager :=
  { st with g_ThemePathCache :=
      st.g_ThemePathCache.put category ((st.g_ThemePathCache.get category).set sFileName sPath) }

/-- The type of `ThemeManager::GetPath( category, sClassName, sElement, bOptional )`. -/
abbrev GetPathFn := ElementCategory → String → String → Bool → ThemeManager → Result String

/-- The message of the dialog for several matching files. -/
def ambiguousMessage (sThemeName sCategory sFileName : String) : String :=
  "ThemeManager:  There is more than one theme element that matches '" ++ sThemeName ++ "/"
    ++ sCategory ++ "/" ++ sFileName ++ "'.  Please remove all but one of these matches."

/-- The message of the dialog for a redirect that leads nowhere. -/
def redirectMessage (sPath sNewFileName : String) : String :=
  "ThemeManager:  The redirect '" ++ sPath ++ "' points to the file '" ++ sNewFileName
    ++ "', which does not exist. Verify that this redirect is correct."

/-- The tail of `GetPathToRaw` from `RString sPath = asElementPaths[0]` on;
`again` is `goto try_element_again` taken after `ReloadMetrics`. -/
def GetPathToRaw.redirect (env : Env) (GetPath : GetPathFn)
    (again : ThemeManager → Result String) (category : ElementCategory)
    (sPath : String) (st : ThemeManager) : Result String :=
  let bIsARedirect := EqualsNoCase (env.GetExtension sPath) "redir"
  if !bIsARedirect then .ok sPath st
  else
    let sNewFileName := env.GetFileContents sPath
    let ce := FileNameToClassAndElement env.sizeBits sNewFileName
    match GetPath category ce.1 ce.2 true st with
    | .fail e st1 => .fail e st1
    | .ok sNewPath st1 =>
      if sNewPath ≠ "" then .ok sNewPath st1
      else
        let sMessage := redirectMessage sPath sNewFileName
        let st2 := { st1 with nDialogs := st1.nDialogs + 1 }
        match env.AbortRetryIgnore st1.nDialogs sMessage with
        | .retry =>
          match ReloadMetrics env st2 with
          | .fail e st3 => .fail e st3
          | .ok () st3 => again st3
        | .ignore => GetPath category "" "_missing" false st2
        | .abort => .fail (.aborted sMessage) st2

/-- Source: `ThemeManager::GetPathToRaw( sThemeName_, category, sClassName_, sElement_ )`;
`fuel` bounds the number of passes through `try_element_again`. -/
def GetPathToRaw (env : Env) (GetPath : GetPathFn) :
    Nat → String → ElementCategory → String → String → ThemeManager → Result String
  | 0, _, _, _, _, st => .fail .outOfFuel st
  | fuel + 1, sThemeName, category, sClassName, sElement, st =>
    let again := GetPathToRaw env GetPath fuel sThemeName category sClassName sElement
    let asElementPaths := elementPaths env sThemeName category sClassName sElement
    let st1 := { st with nDirListings := st.nDirListings + 1 }
    if asElementPaths.length = 0 then .ok "" st1
    else
      let asElementPaths := FilterFileLanguages env st1.m_sCurLanguage asElementPaths
      if asElementPaths.length > 1 then
        let st2 := { st1 with
          g_ThemePathCache := st1.g_ThemePathCache.put category [],
          nDialogs := st1.nDialogs + 1 }
        let message := ambiguousMessage sThemeName (ElementCategoryToString category)
          (ClassAndElementToFileName sClassName sElement)
        match env.AbortRetryIgnore st1.nDialogs message with
        | .abort => .fail (.aborted message) st2
        | .retry =>
          match ReloadMetrics env st2 with
          | .fail e st3 => .fail e st3
          | .ok () st3 => again st3
        | .ignore =>
          GetPathToRaw.redirect env GetPath again category (asElementPaths.headD "") st2
      else
        GetPathToRaw.redirect env GetPath again category (asElementPaths.headD "") st1

/-- The loop `FOREACHD_CONST( Theme, g_vThemes, iter )` of `GetPathToAndFallback`:
the first non-empty result, or the empty string when the loop runs to its end.
`raw sThemeName` is `GetPathToRaw( sThemeName, category, sClassName, sElement )`. -/
def GetPathToAndFallback.themes (raw : String → ThemeManager → Result String) :
    List Theme → ThemeManager → Result String
  | [], st => .ok "" st
  | iter :: rest, st =>
    match raw iter.sThemeName st with
    | .fail e st1 => .fail e st1
    | .ok sRet st1 =>
      if sRet ≠ "" then .ok sRet st1 else GetPathToAndFallback.themes raw rest st1

/-- The loop `while( n-- )` of `GetPathToAndFallback`, `n` iterations left.  The inner
loop runs over the chain `g_vThemes` as it is when the inner loop starts. -/
def GetPathToAndFallback.loop (env : Env)
    (raw : String → ElementCategory → String → String → ThemeManager → Result String)
    (category : ElementCategory) (sElement : String) :
    Nat → String → ThemeManager → Result String
  | 0, sClassName, st =>
    .fail (.infiniteRecursionElement (ClassAndElementToFileName sClassName sElement)) st
  | n + 1, sClassName, st =>
    match GetPathToAndFallback.themes (fun sThemeName => raw sThemeName category sClassName sElement)
        st.g_vThemes st with
    | .fail e st1 => .fail e st1
    | .ok sRet st1 =>
      if sRet ≠ "" then .ok sRet st1
      else if sClassName = "" then .ok "" st1
      else
        match GetClassFallback env st1 sClassName with
        | .error e => .fail e st1
        | .ok sFallback =>
          if sFallback = "" then .ok "" st1
          else GetPathToAndFallback.loop env raw category sElement n sFallback st1

/-- Source: `ThemeManager::GetPathToAndFallback( category, sClassName_, sElement )`; `raw` is
`GetPathToRaw`. -/
def GetPathToAndFallback (env : Env)
    (raw : String → ElementCategory → String → String → ThemeManager → Result String)
    (category : ElementCategory) (sClassName sElement : String) (st : ThemeManager) :
    Result String :=
  GetPathToAndFallback.loop env raw category sElement 100 sClassName st

/-- The head of `GetPath`: the cache lookup, and on a miss the code from
`try_element_again` on, passed as `search`. -/
def GetPath.cached (search : GetPathFn) : GetPathFn :=
  fun category sClassName sElement bOptional st =>
    match (st.g_ThemePathCache.get category).find (ClassAndElementToFileName sClassName sElement) with
    | some sPath => .ok sPath st
    | none => search category sClassName sElement bOptional st

/-- The message of the dialog for a missing element. -/
def missingMessage (sCategory sFileName : String) : String :=
  "The theme element \"" ++ sCategory ++ "/" ++ sFileName ++ "\" is missing."

/-- The message thrown when the dialog for a missing element is answered with Abort. -/
def missingFailure (env : Env) (st : ThemeManager) (sCategory sFileName : String) : String :=
  "Theme element \"" ++ sCategory ++ "/" ++ sFileName ++ "\" could not be found in \""
    ++ GetThemeDirFromName env st.m_sCurThemeName ++ "\" or \""
    ++ GetThemeDirFromName env env.BASE_THEME_NAME ++ "\"."

/-- The code of `GetPath` from the label `try_element_again` on.  `fuel` bounds the
depth of nested `GetPath` calls and the passes through the labels of `GetPath` and
of the `GetPathToRaw` calls below it. -/
def GetPath.search (env : Env) : Nat → GetPathFn
  | 0, _, _, _, _, st => .fail .outOfFuel st
  | fuel + 1, category, sClassName, sElement, bOptional, st =>
    let GetPath : GetPathFn := GetPath.cached (GetPath.search env fuel)
    let sFileName := ClassAndElementToFileName sClassName sElement
    match GetPathToAndFallback env (GetPathToRaw env GetPath (fuel + 1)) category sClassName
        sElement st with
    | .fail e st1 => .fail e st1
    | .ok ret st1 =>
      if ret ≠ "" then .ok ret (cacheStore st1 category sFileName ret)
      else if bOptional then .ok "" (cacheStore st1 category sFileName "")
      else
        let sMessage := missingMessage (ElementCategoryToString category) sFileName
        let res :=
          if category ≠ .EC_OTHER then env.AbortRetryIgnore st1.nDialogs sMessage
          else env.AbortRetry st1.nDialogs sMessage
        let st2 := { st1 with nDialogs := st1.nDialogs + 1 }
        match res with
        | .retry =>
          match ReloadMetrics env st2 with
          | .fail e st3 => .fail e st3
          | .ok () st3 => GetPath.search env fuel category sClassName sElement bOptional st3
        | .ignore =>
          if sFileName = "_missing" then
            .fail (.missingPlaceholder (ElementCategoryToString category)) st2
          else
            match GetPath category "" "_missing" false st2 with
            | .fail e st3 => .fail e st3
            | .ok sMissing st3 => .ok sMissing (cacheStore st3 category sFileName sMissing)
        | .abort =>
          .fail (.aborted (missingFailure env st2 (ElementCategoryToString category) sFileName))
            st2

/-- Source: `ThemeManager::GetPath( category, sClassName_, sElement_, bOptional )`. -/
def GetPath (env : Env) (fuel : Nat) : GetPathFn :=
  GetPath.cached (GetPath.search env fuel)

/-! ## Switching -/

/-- Source: `ThemeManager::GetThemeNames`. -/
def GetThemeNames (env : Env) : List String :=
  env.StripCvs (env.GetDirListing (env.THEMES_DIR ++ "*") true false)

/-- Source: `ThemeManager::DoesThemeExist`. -/
def DoesThemeExist (env : Env) (sThemeName : String) : Bool :=
  (GetThemeNames env).any (fun s => EqualsNoCase sThemeName s)

/-- Source: `ThemeManager::IsThemeSelectable`. -/
def IsThemeSelectable (env : Env) (sThemeName : String) : Bool :=
  if !DoesThemeExist env sThemeName then false
  else Left sThemeName 1 ≠ "_"

/-- Source: `ThemeManager::SwitchThemeAndLanguage( sThemeName_, sLanguage_, bPseudoLocalize )`.
Each `IsThemeSelectable` lists the themes directory once; `UpdateLuaGlobals` lists the
scripts of every theme of the chain; `ReloadSubscribers` reads every subscriber. -/
def SwitchThemeAndLanguage (env : Env) (sThemeName_ sLanguage_ : String)
    (bPseudoLocalize : Bool) (st : ThemeManager) : Result Unit :=
  let sThemeName := if !IsThemeSelectable env sThemeName_ then env.defaultTheme else sThemeName_
  let sThemeName := if !IsThemeSelectable env sThemeName then env.BASE_THEME_NAME else sThemeName
  let st := { st with nDirListings := st.nDirListings + 3 }
  if !IsThemeSelectable env sThemeName then .fail (.assertion "IsThemeSelectable(sThemeName)") st
  else
    let sLanguage := if sLanguage_ = "" then env.GetPreferredLanguage else sLanguage_
    let bNothingChanging := sThemeName = st.m_sCurThemeName ∧ sLanguage = st.m_sCurLanguage
      ∧ st.m_bPseudoLocalize = bPseudoLocalize
    if bNothingChanging then .ok () st
    else
      let st := { st with m_bPseudoLocalize := bPseudoLocalize }
      let bThemeChanging : Bool := sThemeName ≠ st.m_sCurThemeName
      match LoadThemeMetrics env sThemeName sLanguage st with
      | .fail e st1 => .fail e st1
      | .ok () st1 =>
        let st2 := ClearThemePathCache st1
        let st3 :=
          if bThemeChanging then { st2 with nDirListings := st2.nDirListings + st2.g_vThemes.length }
          else st2
        .ok () { st3 with nSubscriberReads := st3.nSubscriberReads + env.numSubscribers }

/-! ## Reading results -/

/-- The state a result carries. -/
def Result.state {α : Type} : Result α → ThemeManager
  | .ok _ st => st
  | .fail _ st => st

/-- The value returned, if the operation returned normally. -/
def Result.value {α : Type} : Result α → Option α
  | .ok a _ => some a
  | .fail _ _ => none

/-- The fatal failure, if the operation ended in one. -/
def Result.failure {α : Type} : Result α → Option Failure
  | .ok _ _ => none
  | .fail e _ => some e

/-- Whether the operation returned normally. -/
def Result.isOk {α : Type} : Result α → Bool
  | .ok _ _ => true
  | .fail _ _ => false

/-- The name and the flag `bLoadedBase` with which the n-th iteration of the loop of
`LoadThemeMetrics` starts when no iteration before it stops: the fallbacks
followed from the starting theme, implicit base theme included. -/
def followFallbacks (env : Env) (sThemeName : String) : Nat → LoadLoop
  | 0 => { sThemeName := sThemeName, bLoadedBase := false }
  | n + 1 => LoadThemeMetrics.next env (followFallbacks env sThemeName n)

/-! ## Installations used in the examples -/

/-- A stable `std::partition`. -/
def stablePartition (p : String → Bool) (l : List String) : List String × Nat :=
  (l.filter p ++ l.filter (fun x => !p x), (l.filter p).length)

/-- The text after the last dot of a path, empty when there is no dot. -/
def extensionOf (sPath : String) : String :=
  let r := sPath.data.reverse
  if r.contains '.' then ⟨(r.takeWhile (· ≠ '.')).reverse⟩ else ""

/-- An installation given by tables: ini files by path, directory listings by
pattern, file contents by path.  Themes live under "/Themes/", the base theme is
"default", the base language "english"; the ini store ignores case; Lua
expressions evaluate to themselves; no text holds a font marker;
every dialog is answered with `answer`. -/
def tableEnv (inis : List (String × IniFile)) (listings : List (String × List String))
    (contents : List (String × String)) (answer : DialogResult) : Env :=
  { THEMES_DIR := "/Themes/",
    BASE_THEME_NAME := "default",
    BASE_LANGUAGE := "english",
    METRICS_FILE := "metrics.ini",
    LANGUAGES_SUBDIR := "Languages/",
    forms := { sectionForm := MakeLower, keyForm := MakeLower },
    ReadFile := fun sPath ini => (inis.lookup sPath).getD ini,
    ValueToBool := fun s => s = "1",
    metricArguments := [],
    GetDirListing := fun sPath _ _ => (listings.lookup sPath).getD [],
    StripCvs := fun l => l,
    IsADirectory := fun _ => false,
    GetFileContents := fun sPath => (contents.lookup sPath).getD "",
    GetExtension := extensionOf,
    RunExpressionS := fun s => s,
    ReplaceMarkers := fun s => s,
    AbortRetryIgnore := fun _ _ => answer,
    AbortRetry := fun _ _ => answer,
    defaultTheme := "default",
    GetPreferredLanguage := "english",
    partition := stablePartition,
    numSubscribers := 2,
    sizeBits := 64 }

/-- Theme "A" declares no fallback; the base theme "default" declares "A" as its
fallback. -/
def envBack : Env :=
  tableEnv
    [("/Themes/A/metrics.ini", [("Common", [("Width", "640")])]),
     ("/Themes/default/metrics.ini",
        [("Global", [("FallbackTheme", "A")]), ("Common", [("Width", "320"), ("Height", "240")])])]
    [("/Themes/*", ["A", "default"])] [] .abort

/-- Theme "A" overrides `Common::Width` of the base theme "default"; neither
declares a fallback. -/
def envPlain : Env :=
  tableEnv
    [("/Themes/A/metrics.ini", [("Common", [("Width", "640")])]),
     ("/Themes/default/metrics.ini", [("Common", [("Width", "320"), ("Height", "240")])])]
    [("/Themes/*", ["A", "default"])] [] .abort

/-- The session of `envPlain` after loading theme "A". -/
def stPlain : ThemeManager :=
  (LoadThemeMetrics envPlain "A" "english" ThemeManager.init).state

/-- Theme "A" declares itself as its fallback. -/
def envLoop : Env :=
  tableEnv [("/Themes/A/metrics.ini", [("Global", [("FallbackTheme", "A")])])]
    [("/Themes/*", ["A"])] [] .abort

/-- The name of the i-th theme or class of a long chain: i+1 letters `a`. -/
def longName (i : Nat) : String := ⟨List.replicate (i + 1) 'a'⟩

/-- An installation with themes `longName 0`, `longName 1`, ...: each of the first
`n - 1` declares the next as its fallback, the n-th declares an empty fallback. -/
def envThemes (n : Nat) : Env :=
  tableEnv
    ((List.range n).map (fun i =>
      ("/Themes/" ++ longName i ++ "/metrics.ini",
       [("Global", [("FallbackTheme", if i + 1 < n then longName (i + 1) else "")])])))
    [] [] .abort

/-- Chain [D, F]: D holds the redirect "foo.redir" with content "Hello" and no
"Hello" asset, F holds "Hello.ini". -/
def envHello : Env :=
  tableEnv
    [("/Themes/D/metrics.ini", [("Global", [("FallbackTheme", "F")])]),
     ("/Themes/F/metrics.ini", [("Global", [("FallbackTheme", "")])])]
    [("/Themes/D/Fonts/foo*", ["/Themes/D/Fonts/foo.redir"]),
     ("/Themes/F/Fonts/Hello*", ["/Themes/F/Fonts/Hello.ini"])]
    [("/Themes/D/Fonts/foo.redir", "Hello")] .abort

/-- The session of `envHello` after loading theme "D". -/
def stHello : ThemeManager :=
  (LoadThemeMetrics envHello "D" "english" ThemeManager.init).state

/-- A metrics store with the classes `longName 0`, ..., `longName n`: each but the
last declares the next one as its "Fallback", the last one defines "Color". -/
def classChain (n : Nat) : IniFile :=
  (List.range (n + 1)).map (fun i =>
    (longName i, if i < n then [("Fallback", longName (i + 1))] else [("Color", "red")]))

/-- A session with the one theme "T" whose metrics store is `classChain n`. -/
def stClassChain (n : Nat) : ThemeManager :=
  { ThemeManager.init with
    m_sCurThemeName := "T",
    m_sCurLanguage := "english",
    g_vThemes := [⟨"T"⟩],
    g_pLoadedThemeData := some ⟨classChain n, []⟩ }

/-- An installation without files. -/
def envEmpty : Env := tableEnv [] [] [] .abort

/-- A session whose metrics store sends class "A" to "B" and class "B" to "A". -/
def stTwoClasses : ThemeManager :=
  { ThemeManager.init with
    m_sCurThemeName := "T",
    m_sCurLanguage := "english",
    g_vThemes := [⟨"T"⟩],
    g_pLoadedThemeData :=
      some ⟨[("A", [("Fallback", "B")]), ("B", [("Fallback", "A")])], []⟩ }

/-- The session of `envPlain` after the first switch, to theme "A" with the
preferred language. -/
def stSwitched : ThemeManager :=
  (SwitchThemeAndLanguage envPlain "A" "" false ThemeManager.init).state

/-- The state in which `GetPathToRaw` looks at its first candidate: one more
directory listing made and, after an ambiguous match, the cache of the category
cleared and one more dialog shown. -/
def GetPathToRaw.searched (st : ThemeManager) (category : ElementCategory)
    (bAmbiguous : Bool) : ThemeManager :=
  if bAmbiguous then
    { st with
      nDirListings := st.nDirListings + 1,
      g_ThemePathCache := st.g_ThemePathCache.put category [],
      nDialogs := st.nDialogs + 1 }
  else { st with nDirListings := st.nDirListings + 1 }

/-! ## The search order of the specification -/

/-- The classes a path search goes through, at most `n` of them: the requested
class, its fallback, the fallback of that, and so on while the class and its
fallback are non-empty (fallbacks read from the metrics store of `st`). -/
def classSequence (env : Env) (st : ThemeManager) : Nat → String → List String
  | 0, _ => []
  | n + 1, sClassName =>
    sClassName ::
      (if sClassName = "" then []
       else
        match GetClassFallback env st sClassName with
        | .ok sFallback => if sFallback = "" then [] else classSequence env st n sFallback
        | .error _ => [])

/-- The order of the raw searches, as (class, theme): the first class against every
theme of the chain from most-derived to deepest fallback, then the second class
against every theme, and so on. -/
def searchOrder (classes : List String) (themes : List Theme) : List (String × String) :=
  match classes with
  | [] => []
  | sClassName :: rest =>
    themes.map (fun t => (sClassName, t.sThemeName)) ++ searchOrder rest themes

/-- The first non-empty result of the raw searches made in the given order, each
in the state the one before it left; the empty string when all are empty.
`raw sThemeName sClassName` is one raw search. -/
def firstNonEmpty (raw : String → String → ThemeManager → Result String) :
    List (String × String) → ThemeManager → Result String
  | [], st => .ok "" st
  | (sClassName, sThemeName) :: rest, st =>
    match raw sThemeName sClassName st with
    | .fail e st1 => .fail e st1
    | .ok sRet st1 => if sRet ≠ "" then .ok sRet st1 else firstNonEmpty raw rest st1

/-- Chain [D, F]; class "C" falls back to class "B"; the file for "C icon" is found
only in F, the file for "B icon" in D. -/
def envOrder : Env :=
  tableEnv
    [("/Themes/D/metrics.ini",
        [("Global", [("FallbackTheme", "F")]), ("C", [("Fallback", "B")])]),
     ("/Themes/F/metrics.ini", [("Global", [("FallbackTheme", "")])])]
    [("/Themes/F/Graphics/C icon*", ["/Themes/F/Graphics/C icon.png"]),
     ("/Themes/D/Graphics/B icon*", ["/Themes/D/Graphics/B icon.png"])]
    [] .abort

/-- The session of `envOrder` after loading theme "D". -/
def stOrder : ThemeManager :=
  (LoadThemeMetrics envOrder "D" "english" ThemeManager.init).state

/-- Theme "T" holds a file for the element "icon" of class `longName 100` only. -/
def envIcon : Env :=
  tableEnv []
    [("/Themes/T/Graphics/" ++ longName 100 ++ " icon*",
      ["/Themes/T/Graphics/" ++ longName 100 ++ " icon.png"])]
    [] .abort

/-- What the search over the first `n` classes comes to, `r` being the first
non-empty result among them: that result; else the empty string when the class
sequence has ended, and the infinite-recursion failure when there is a further
class. -/
def boundedSearch (env : Env) (st : ThemeManager) (n : Nat) (sClassName sElement : String)
    (r : Result String) : Result String :=
  match r with
  | .fail e s => .fail e s
  | .ok sRet s =>
    if sRet ≠ "" then .ok sRet s
    else if (classSequence env st (n + 1) sClassName).length = n + 1 then
      .fail (.infiniteRecursionElement (ClassAndElementToFileName
        ((classSequence env st (n + 1) sClassName).getLastD "") sElement)) s
    else .ok "" s

/-- The chain and the loaded stores of `s'` are those of `s`. -/
def ThemeManager.sameThemes (s s' : ThemeManager) : Prop :=
  s'.g_vThemes = s.g_vThemes ∧ s'.g_pLoadedThemeData = s.g_pLoadedThemeData

/-- An operation that, when it returns, leaves the chain and the stores as they were. -/
def KeepsThemes {α : Type} (f : ThemeManager → Result α) : Prop :=
  ∀ s r s', f s = .ok r s' → s.sameThemes s'

/-- No dialog is ever answered with Retry. -/
def NoRetry (env : Env) : Prop :=
  (∀ n sMessage, env.AbortRetryIgnore n sMessage ≠ .retry)
    ∧ (∀ n sMessage, env.AbortRetry n sMessage ≠ .retry)



/-! ## Language filter, whitelist and recovery: what the statements need -/

/-- The contract of `std::partition`: the result is a rearrangement of the input,
the returned iterator stands after as many elements as satisfy the predicate,
the elements before it satisfy the predicate and the elements from it on do not. -/
def PartitionSpec (partition : (String → Bool) → List String → List String × Nat) : Prop :=
  ∀ p l, (partition p l).1.Perm l
    ∧ (partition p l).2 = (l.filter p).length
    ∧ (∀ x, x ∈ (partition p l).1.take (partition p l).2 → p x = true)
    ∧ (∀ x, x ∈ (partition p l).1.drop (partition p l).2 → p x = false)

/-- The whitelist of a category in the words of the specification: whether a listed
entry is accepted as a candidate. -/
def accepted (env : Env) (category : ElementCategory) (sPath : String) : Bool :=
  match category with
  | .EC_BGANIMATIONS | .EC_GRAPHICS =>
    decide (env.GetExtension sPath ∈
        ["redir", "xml", "png", "jpg", "bmp", "gif", "avi", "mpg", "mpeg", "txt"])
      || (decide (env.GetExtension sPath = "") && env.IsADirectory sPath)
  | .EC_FONTS => decide (env.GetExtension sPath ∈ ["redir", "ini"])
  | .EC_SOUNDS => decide (env.GetExtension sPath ∈ ["redir", "mp3", "ogg", "wav"])
  | .EC_OTHER => true

/-- The theme name of `SwitchThemeAndLanguage` after the two substitutions at its head. -/
def SwitchThemeAndLanguage.sThemeName (env : Env) (sThemeName_ : String) : String :=
  let sThemeName := if !IsThemeSelectable env sThemeName_ then env.defaultTheme else sThemeName_
  if !IsThemeSelectable env sThemeName then env.BASE_THEME_NAME else sThemeName

/-- The language of `SwitchThemeAndLanguage` after the substitution for the empty one. -/
def SwitchThemeAndLanguage.sLanguage (env : Env) (sLanguage_ : String) : String :=
  if sLanguage_ = "" then env.GetPreferredLanguage else sLanguage_

/-- The flag `bNothingChanging` of `SwitchThemeAndLanguage`. -/
def SwitchThemeAndLanguage.bNothingChanging (env : Env) (sThemeName_ sLanguage_ : String)
    (bPseudoLocalize : Bool) (st : ThemeManager) : Bool :=
  decide (SwitchThemeAndLanguage.sThemeName env sThemeName_ = st.m_sCurThemeName
    ∧ SwitchThemeAndLanguage.sLanguage env sLanguage_ = st.m_sCurLanguage
    ∧ st.m_bPseudoLocalize = bPseudoLocalize)

/-- A session with the one theme "T" and empty stores. -/
def stOneTheme : ThemeManager :=
  { ThemeManager.init with
    m_sCurThemeName := "T",
    m_sCurLanguage := "english",
    g_vThemes := [⟨"T"⟩],
    g_pLoadedThemeData := some ⟨[], []⟩ }

/-- Theme "T" holds the placeholder "_missing.png" and nothing else; every dialog is
answered with Ignore. -/
def envMissing : Env :=
  tableEnv [] [("/Themes/T/Graphics/_missing*", ["/Themes/T/Graphics/_missing.png"])] []
    .ignore

/-- No theme holds any file; every dialog is answered with Ignore. -/
def envIgnore : Env := tableEnv [] [] [] .ignore

/-- Two candidates that differ in their language tag. -/
def twoLanguages : List String :=
  ["/Themes/T/Graphics/X (lang English).png", "/Themes/T/Graphics/X (lang French).png"]

/-- The installation `envPlain` started with two overrides of the same metric. -/
def envOverrides : Env :=
  { envPlain with metricArguments := ["Common::Width=1", "Common::Width=2"] }

/-- The installation `envPlain` started with an override that holds "::" twice. -/
def envGreedy : Env :=
  { envPlain with metricArguments := ["a::b::c=v"] }

/-- The installation `envPlain` started with an override that lacks "::". -/
def envMalformed : Env :=
  { envPlain with metricArguments := ["Common::Width=1", "Width=2"] }

/-- The installation `envLoop`, whose theme falls back on itself, started with an
override that lacks "::". -/
def envLoopMalformed : Env :=
  { envLoop with metricArguments := ["Width=2"] }

/-- The form of an override in the words of the specification: Class, "::", Key,
"=", Value, where Class and Key are not empty and hold no "=". -/
def IsOverride (sMetric : String) : Prop :=
  ∃ sClass sKey sValue : String, sMetric = sClass ++ "::" ++ sKey ++ "=" ++ sValue
    ∧ sClass ≠ "" ∧ sKey ≠ "" ∧ '=' ∉ sClass.data ∧ '=' ∉ sKey.data

/-! ## The languages of the themes -/

/-- The body of the loop "strip out metrics.ini" of `GetLanguagesForTheme` at index `i`:
the `erase` without a `continue`, then the assignment to `as[i]`.  The argument of
`Left` is `as[i].size()-4`, computed in `size_t` and passed as `int`.  The result is
`none` when `as[i]` names an element outside the vector, where the program has no
defined result. -/
def GetLanguagesForTheme.body (env : Env) (as : List String) (i : Nat) : Option (List String) :=
  match as.get? i with
  | none => none
  | some s =>
    let as1 := if EqualsNoCase s env.METRICS_FILE then as.eraseIdx i else as
    match as1.get? i with
    | none => none
    | some s1 =>
      some (as1.set i
        (Left s1 (toInt32 ((s1.data.length + 2 ^ env.sizeBits - 4) % 2 ^ env.sizeBits))))

/-- The loop `for( int i=as.size()-1; i>=0; i-- )` of `GetLanguagesForTheme`, with `n`
indices left to visit. -/
def GetLanguagesForTheme.loop (env : Env) : Nat → List String → Option (List String)
  | 0, as => some as
  | n + 1, as =>
    match GetLanguagesForTheme.body env as n with
    | none => none
    | some as1 => GetLanguagesForTheme.loop env n as1

/-- Source: `ThemeManager::GetLanguagesForTheme( sThemeName, asLanguagesOut )`; returns the
new `asLanguagesOut`. -/
def GetLanguagesForTheme (env : Env) (sThemeName : String) (asLanguagesOut : List String) :
    Option (List String) :=
  let sLanguageDir := GetThemeDirFromName env sThemeName ++ env.LANGUAGES_SUBDIR
  let as := env.GetDirListing (sLanguageDir ++ "*.ini") false false
  match GetLanguagesForTheme.loop env as.length as with
  | none => none
  | some as1 => some (asLanguagesOut ++ as1)

/-- The algorithm `std::unique( first, last, pred )` after the element `kept` was
written: an element is dropped when `pred( kept, element )` holds. -/
def unique.go (pred : String → String → Bool) : String → List String → List String
  | _, [] => []
  | kept, x :: rest =>
    if pred kept x then unique.go pred kept rest else x :: unique.go pred x rest

/-- The algorithm `std::unique( first, last, pred )` followed by the `erase` of the
tail: of every run of neighbours that `pred` holds equal, the first is kept. -/
def unique (pred : String → String → Bool) : List String → List String
  | [] => []
  | a :: rest => a :: unique.go pred a rest

/-- The loop over `g_vThemes` in `GetLanguages`. -/
def GetLanguages.collect (env : Env) : List Theme → List String → Option (List String)
  | [], AddTo => some AddTo
  | theme :: rest, AddTo =>
    match GetLanguagesForTheme env theme.sThemeName AddTo with
    | none => none
    | some AddTo1 => GetLanguages.collect env rest AddTo1

/-- Source: `ThemeManager::GetLanguages( AddTo )`.  `sort` orders by `operator<` of the
string class, which compares the characters by their codes, so capital letters
stand before small ones. -/
def GetLanguages (env : Env) (st : ThemeManager) : Option (List String) :=
  match GetLanguages.collect env st.g_vThemes [] with
  | none => none
  | some AddTo =>
    some (unique EqualsNoCase (AddTo.insertionSort (fun a b : String => ¬ b < a)))

/-- Whether a list holds two entries, at different places, that are equal when case
is ignored. -/
def hasCaseDuplicate : List String → Bool
  | [] => false
  | a :: rest => rest.any (EqualsNoCase a) || hasCaseDuplicate rest

/-- Theme "A" has the language files "English.ini" and "French.ini", the base theme
"default" has "english.ini". -/
def envLanguages : Env :=
  tableEnv []
    [("/Themes/A/Languages/*.ini", ["English.ini", "French.ini"]),
     ("/Themes/default/Languages/*.ini", ["english.ini"])] [] .abort

/-- A session whose chain is theme "A" and the base theme. -/
def stLanguages : ThemeManager :=
  { ThemeManager.init with
    m_sCurThemeName := "A",
    m_sCurLanguage := "english",
    g_vThemes := [⟨"A"⟩, ⟨"default"⟩],
    g_pLoadedThemeData := some ⟨[], []⟩ }

/-- The language directory of theme "T" lists "metrics.ini" between two languages. -/
def envMetricsListed : Env :=
  tableEnv [] [("/Themes/T/Languages/*.ini", ["english.ini", "metrics.ini", "spanish.ini"])] []
    .abort

/-- The language directory of theme "T" lists "metrics.ini" last. -/
def envMetricsLast : Env :=
  tableEnv [] [("/Themes/T/Languages/*.ini", ["english.ini", "metrics.ini"])] [] .abort

/-! ## Strings of the theme and pseudo-localization -/

/-- The scan of `RString::Replace`; `skip` characters of an occurrence that was
replaced are still to be passed over. -/
def Replace.go (sOld sNew : List Char) : Nat → List Char → List Char
  | _, [] => []
  | skip + 1, _ :: rest => Replace.go sOld sNew skip rest
  | 0, c :: rest =>
    if sOld.isPrefixOf (c :: rest) then sNew ++ Replace.go sOld sNew (sOld.length - 1) rest
    else c :: Replace.go sOld sNew 0 rest

/-- Modelled from the spec: `RString::Replace( sOld, sNew )` (the string class is not
among the sources), with which `GetString` "substitutes accented characters" and
"applies newline-escaping normalization": every occurrence of `sOld`, from left
to right, becomes `sNew`; the text put in is not searched again, and an empty
`sOld` changes nothing. -/
def Replace (s sOld sNew : String) : String :=
  if sOld = "" then s else ⟨Replace.go sOld.data sNew.data 0 s.data⟩

/-- Source: `PseudoLocalize( s )`. -/
def PseudoLocalize (s : String) : String :=
  let s := Replace s "a" "àá"
  let s := Replace s "A" "ÀÀ"
  let s := Replace s "e" "éé"
  let s := Replace s "E" "ÉÉ"
  let s := Replace s "i" "íí"
  let s := Replace s "I" "ÍÍ"
  let s := Replace s "o" "óó"
  let s := Replace s "O" "ÓÓ"
  let s := Replace s "u" "üü"
  let s := Replace s "U" "ÜÜ"
  let s := Replace s "n" "ñ"
  let s := Replace s "N" "Ñ"
  let s := Replace s "c" "ç"
  let s := Replace s "C" "Ç"
  let s := Replace s "?" " ?"
  let s := Replace s "!" " !"
  s

/-- Modelled from the spec: `RString::find( needle )` (the string class is not among the
sources), with which `GetString` finds the "placeholder spans": the position of
the first occurrence, `none` for `npos`. -/
def findSubstring (needle : List Char) : List Char → Option Nat
  | [] => if needle.isEmpty then some 0 else none
  | c :: rest =>
    if needle.isPrefixOf (c :: rest) then some 0 else (findSubstring needle rest).map (· + 1)

/-- The two stores that `GetMetricRaw` is called with. -/
inductive Store where
  | iniMetrics
  | iniStrings
deriving DecidableEq, Repr

/-- The store a reference `const IniFile &ini` stands for: "Don't delete and recreate
LoadedThemeData.  There are references iniMetrics and iniStrings on the stack". -/
def ThemeManager.store (st : ThemeManager) : Store → IniFile
  | .iniMetrics => st.iniMetrics
  | .iniStrings => st.iniStrings

/-- The message of the dialog for a missing metric. -/
def missingMetricMessage (sClassName sValueName : String) : String :=
  "The theme metric \"" ++ sClassName ++ "::" ++ sValueName
    ++ "\" is missing.  Correct this and click Retry, or Cancel to break."

/-- The message thrown when the dialog for a missing metric is answered with Abort. -/
def missingMetricFailure (env : Env) (st : ThemeManager) (sClassName sValueName : String) :
    String :=
  "Theme metric \"" ++ sClassName ++ "::" ++ sValueName ++ "\" could not be found in \""
    ++ GetMetricsIniPath env st.m_sCurThemeName ++ "\"' or \""
    ++ GetMetricsIniPath env env.BASE_THEME_NAME ++ "\"."

/-- Source: `ThemeManager::GetMetricRaw( ini, sClassName_, sValueName_ )`; `fuel` bounds the
passes through `while( true )`, one for each Retry. -/
def GetMetricRaw (env : Env) :
    Nat → Store → String → String → ThemeManager → Result String
  | 0, _, _, _, st => .fail .outOfFuel st
  | fuel + 1, ini, sClassName, sValueName, st =>
    match GetMetricRawRecursive env st (st.store ini) sClassName sValueName with
    | .error e => .fail e st
    | .ok (some ret) => .ok ret st
    | .ok none =>
      let st1 := { st with nDialogs := st.nDialogs + 1 }
      match env.AbortRetryIgnore st.nDialogs (missingMetricMessage sClassName sValueName) with
      | .abort => .fail (.aborted (missingMetricFailure env st sClassName sValueName)) st1
      | .retry =>
        match ReloadMetrics env st1 with
        | .fail e st2 => .fail e st2
        | .ok () st2 => GetMetricRaw env fuel ini sClassName sValueName st2
      | .ignore => .ok "" st1

/-- The loop `for( ; true; )` of `GetString`, at most `fuel` iterations; `none` when
the budget runs out.  When no "}" is found, `pos+1` is `npos+1`, which is 0 in
`size_t`: nothing is appended and nothing erased. -/
def GetString.translate : Nat → List Char → List Char → Option (List Char)
  | 0, _, _ => none
  | fuel + 1, s, sTranslated =>
    match findSubstring ['%', '\x7b'] s with
    | none => some (sTranslated ++ (PseudoLocalize ⟨s⟩).data)
    | some pos =>
      let sTranslated := sTranslated ++ (PseudoLocalize ⟨s.take pos⟩).data
      let s := s.drop pos
      let n :=
        match findSubstring ['\x7d'] s with
        | none => 0
        | some pos => pos + 1
      GetString.translate fuel (s.drop n) (sTranslated ++ s.take n)

/-- Source: `ThemeManager::GetString( sClassName, sValueName_ )`; `fuel` bounds the Retry
passes of `GetMetricRaw` and the iterations of the translation loop. -/
def GetString (env : Env) (fuel : Nat) (sClassName sValueName_ : String)
    (st : ThemeManager) : Result String :=
  let sValueName := Replace (Replace sValueName_ "\r\n" "\\n") "\n" "\\n"
  match GetMetricRaw env fuel .iniStrings sClassName sValueName st with
  | .fail e st1 => .fail e st1
  | .ok s st1 =>
    let s := Replace (env.ReplaceMarkers s) "\\n" "\n"
    if st1.m_bPseudoLocalize then
      match GetString.translate fuel s.data [] with
      | none => .fail .outOfFuel st1
      | some sTranslated => .ok ⟨sTranslated⟩ st1
    else .ok s st1

/-- The text of a string in the words of the specification: the stretches "outside
`%{...}` placeholder spans" (marked `false`) and the spans, each from "%{" to the
next "}" (marked `true`), in their order.  `inSpan` tells where the scan is and
`acc` holds the stretch read so far. -/
def segments : Bool → List Char → List Char → List (Bool × List Char)
  | inSpan, acc, [] => [(inSpan, acc)]
  | false, acc, c :: rest =>
    if ['%', '\x7b'].isPrefixOf (c :: rest) then (false, acc) :: segments true [c] rest
    else segments false (acc ++ [c]) rest
  | true, acc, c :: rest =>
    if c = '\x7d' then (true, acc ++ [c]) :: segments false [] rest
    else segments true (acc ++ [c]) rest

/-- The text that the specification asks of `GetString`: the stretches outside the
spans pseudo-localized, the spans copied. -/
def renderSegments : List (Bool × List Char) → List Char
  | [] => []
  | (true, span) :: rest => span ++ renderSegments rest
  | (false, outside) :: rest => (PseudoLocalize ⟨outside⟩).data ++ renderSegments rest

/-- Whether each "%{" of a text is followed later by a "}". -/
def placeholdersClosed : List Char → Bool
  | [] => true
  | c :: rest =>
    (!(['%', '\x7b'].isPrefixOf (c :: rest)) || rest.contains '\x7d') && placeholdersClosed rest

/-- A session with pseudo-localization on whose strings store holds the string
"%{n} apples" of the specification. -/
def stApples : ThemeManager :=
  { ThemeManager.init with
    m_sCurThemeName := "T",
    m_sCurLanguage := "english",
    m_bPseudoLocalize := true,
    g_vThemes := [⟨"T"⟩],
    g_pLoadedThemeData := some ⟨[], [("Screen", [("Apples", "%\x7bn\x7d apples")])]⟩ }



/-! ## Base themes, stores and file names: what the statements need -/

/-- Theme "A" declares itself a base theme and declares no fallback. -/
def envFlagged : Env :=
  tableEnv [("/Themes/A/metrics.ini", [("Global", [("IsBaseTheme", "1")])])]
    [("/Themes/*", ["A", "default"])] [] .abort

/-- A session whose strings store declares "B" as the fallback of class "A" and
holds the title in "B"; the metrics store declares nothing. -/
def stStringsFallback : ThemeManager :=
  { ThemeManager.init with
    m_sCurThemeName := "T",
    m_sCurLanguage := "english",
    g_vThemes := [⟨"T"⟩],
    g_pLoadedThemeData :=
      some ⟨[], [("A", [("Fallback", "B")]), ("B", [("Title", "hello")])]⟩ }

/-- A session whose metrics store declares "B" as the fallback of class "A"; the
strings store holds the title in "B" and declares nothing. -/
def stMetricsFallback : ThemeManager :=
  { ThemeManager.init with
    m_sCurThemeName := "T",
    m_sCurLanguage := "english",
    g_vThemes := [⟨"T"⟩],
    g_pLoadedThemeData :=
      some ⟨[("A", [("Fallback", "B")])], [("B", [("Title", "hello")])]⟩ }

/-- A session with pseudo-localization on whose strings store holds a string with a
placeholder that is not closed. -/
def stOpenPlaceholder : ThemeManager :=
  { ThemeManager.init with
    m_sCurThemeName := "T",
    m_sCurLanguage := "english",
    m_bPseudoLocalize := true,
    g_vThemes := [⟨"T"⟩],
    g_pLoadedThemeData := some ⟨[], [("Screen", [("Steps", "%\x7bn steps")])]⟩ }

/-- Theme "T" holds the one file "foo.redir", a redirect whose content names its own
element "foo". -/
def envSelfRedirect : Env :=
  tableEnv [] [("/Themes/T/Graphics/foo*", ["/Themes/T/Graphics/foo.redir"])]
    [("/Themes/T/Graphics/foo.redir", "foo")] .abort

/-- Theme "T" holds the one file "Base B.png". -/
def envCollide : Env :=
  tableEnv [] [("/Themes/T/Graphics/Base B*", ["/Themes/T/Graphics/Base B.png"])] [] .abort

/-- A session of theme "T" whose metrics declare "Base" as the fallback of class "A". -/
def stCollide : ThemeManager :=
  { ThemeManager.init with
    m_sCurThemeName := "T",
    m_sCurLanguage := "english",
    g_vThemes := [⟨"T"⟩],
    g_pLoadedThemeData := some ⟨[("A", [("Fallback", "Base")])], []⟩ }

/-! ## The metrics that begin with a prefix -/

/-- Modelled from the spec: the order in which the attributes `m_attrs` of a section
are iterated (`XmlFile.h` is not among the sources): the store is "an ordered
mapping", a `std::map` that holds its keys in the order in which it compares
them, here the order of the forms of the keys by character codes. -/
def XAttrs.ordered (a : XAttrs) (form : String → String) : List (String × String) :=
  a.insertionSort (fun x y => ¬ form y.1 < form x.1)

/-- Modelled from the spec: `m_attrs.lower_bound( k )` (`XmlFile.h` is not among the
sources), the attributes of the "ordered mapping" from the first key on that is
not less than `k`. -/
def XAttrs.lower_bound (a : XAttrs) (form : String → String) (k : String) :
    List (String × String) :=
  (a.ordered form).dropWhile (fun x => form x.1 < form k)

/-- The effect of `vsValueNamesOut.insert( sv )` on a `set<RString>`, the set held as
a list of its members. -/
def setInsert (out : List String) (sv : String) : List String :=
  if sv ∈ out then out else out ++ [sv]

/-- The loop "Iterate over all metrics that match" of `GetMetricsThatBeginWith`, from
the iterator `j` on: a key that begins with `sValueName` is inserted, the first key
that does not ends the loop. -/
def GetMetricsThatBeginWith.scan (sValueName : String) :
    List (String × String) → List String → List String
  | [], out => out
  | j :: rest, out =>
    if Left j.1 (toInt32 sValueName.data.length) = sValueName then
      GetMetricsThatBeginWith.scan sValueName rest (setInsert out j.1)
    else out

/-- Source: `ThemeManager::GetMetricsThatBeginWith( sClassName_, sValueName, vsValueNamesOut )`;
returns the new `vsValueNamesOut`.  `fuel` bounds the passes through
`while( !sClassName.empty() )`. -/
def GetMetricsThatBeginWith (env : Env) (st : ThemeManager) :
    Nat → String → String → List String → Except Failure (List String)
  | 0, _, _, _ => .error .outOfFuel
  | fuel + 1, sClassName, sValueName, vsValueNamesOut =>
    if sClassName = "" then .ok vsValueNamesOut
    else
      let out1 :=
        match st.iniMetrics.GetChild env.forms sClassName with
        | some cur =>
          GetMetricsThatBeginWith.scan sValueName
            (cur.lower_bound env.forms.keyForm sValueName) vsValueNamesOut
        | none => vsValueNamesOut
      match GetClassFallback env st sClassName with
      | .error e => .error e
      | .ok sFallback => GetMetricsThatBeginWith env st fuel sFallback sValueName out1

/-- A session of theme "T" in the language "French". -/
def stFrench : ThemeManager :=
  { ThemeManager.init with
    m_sCurThemeName := "T",
    m_sCurLanguage := "French",
    g_vThemes := [⟨"T"⟩],
    g_pLoadedThemeData := some ⟨[], []⟩ }

/-- Theme "T" holds two files for the element "X", both with the French marker; every
dialog is answered with Ignore. -/
def envTwoFrench : Env :=
  tableEnv []
    [("/Themes/T/Graphics/X*",
      ["/Themes/T/Graphics/X (lang French).png", "/Themes/T/Graphics/X (lang French).jpg"])]
    [] .ignore

/-- Theme "T" holds two files for the element "X", both with the French marker, the
first of them a redirect to the element "Y", and the file "Y.png"; every dialog is
answered with Ignore. -/
def envFrenchRedirect : Env :=
  tableEnv []
    [("/Themes/T/Graphics/X*",
      ["/Themes/T/Graphics/X (lang French).redir", "/Themes/T/Graphics/X (lang French).png"]),
     ("/Themes/T/Graphics/Y*", ["/Themes/T/Graphics/Y.png"])]
    [("/Themes/T/Graphics/X (lang French).redir", "Y")] .ignore

theorem XAttrs.find_append (form : String → String) (a b : XAttrs) (k : String) :
    XAttrs.find (a ++ b) form k = (XAttrs.find a form k).or (XAttrs.find b form k) := by
  induction a with
  | nil => simp [XAttrs.find]
  | cons kv rest ih =>
    obtain ⟨k', v⟩ := kv
    by_cases h : form k' = form k <;> simp [XAttrs.find, h, ih]

/-- The lookup depends on the key through its form only. -/
theorem XAttrs.find_congr (form : String → String) (a : XAttrs) (k k' : String)
    (h : form k = form k') : XAttrs.find a form k = XAttrs.find a form k' := by
  induction a with
  | nil => rfl
  | cons kv rest ih =>
    obtain ⟨k0, v⟩ := kv
    simp only [XAttrs.find, h, ih]

theorem XAttrs.find_insert (form : String → String) (a : XAttrs) (kv : String × String)
    (k : String) :
    XAttrs.find (XAttrs.insert a form kv) form k
      = (XAttrs.find a form k).or (if form kv.1 = form k then some kv.2 else none) := by
  unfold XAttrs.insert
  cases hf : XAttrs.find a form kv.1 with
  | some v =>
    by_cases h : form kv.1 = form k
    · rw [← XAttrs.find_congr form a kv.1 k h, hf]; simp
    · simp [h]
  | none =>
    obtain ⟨k', v⟩ := kv
    simp [XAttrs.find_append, XAttrs.find]

theorem XAttrs.find_foldl_insert (form : String → String) (attrs child : XAttrs)
    (k : String) :
    XAttrs.find (attrs.foldl (fun a kv => a.insert form kv) child) form k
      = (XAttrs.find child form k).or (XAttrs.find attrs form k) := by
  induction attrs generalizing child with
  | nil => simp [XAttrs.find]
  | cons kv rest ih =>
    obtain ⟨k', v⟩ := kv
    rw [List.foldl_cons, ih, XAttrs.find_insert, Option.or_assoc]
    by_cases h : form k' = form k <;> simp [XAttrs.find, h]

/-- The child found depends on the name through its form only. -/
theorem IniFile.GetChild_congr (nf : NameForms) (ini : IniFile) (s s' : String)
    (h : nf.sectionForm s = nf.sectionForm s') :
    IniFile.GetChild ini nf s = IniFile.GetChild ini nf s' := by
  induction ini with
  | nil => rfl
  | cons na rest ih =>
    obtain ⟨n, x⟩ := na
    simp only [IniFile.GetChild, h, ih]

theorem IniFile.GetChild_append (nf : NameForms) (a b : IniFile) (s : String) :
    IniFile.GetChild (a ++ b) nf s = (IniFile.GetChild a nf s).or (IniFile.GetChild b nf s) := by
  induction a with
  | nil => simp [IniFile.GetChild]
  | cons na rest ih =>
    obtain ⟨n, x⟩ := na
    by_cases h : nf.sectionForm n = nf.sectionForm s <;> simp [IniFile.GetChild, h, ih]

theorem IniFile.GetChild_setChild (nf : NameForms) (ini : IniFile) (n s : String)
    (a : XAttrs) :
    IniFile.GetChild (IniFile.setChild ini nf n a) nf s
      = if nf.sectionForm n = nf.sectionForm s then (IniFile.GetChild ini nf s).map (fun _ => a)
        else IniFile.GetChild ini nf s := by
  induction ini with
  | nil => simp [IniFile.GetChild, IniFile.setChild]
  | cons na rest ih =>
    obtain ⟨n', x⟩ := na
    by_cases h1 : nf.sectionForm n' = nf.sectionForm n
    · by_cases h2 : nf.sectionForm n' = nf.sectionForm s
      · have h3 : nf.sectionForm n = nf.sectionForm s := h1.symm.trans h2
        simp [IniFile.GetChild, IniFile.setChild, h1, h2, h3]
      · have h3 : ¬ nf.sectionForm n = nf.sectionForm s := fun h => h2 (h1.trans h)
        simp [IniFile.GetChild, IniFile.setChild, h1, h2, h3]
    · by_cases h2 : nf.sectionForm n' = nf.sectionForm s
      · have h3 : ¬ nf.sectionForm n = nf.sectionForm s := fun h => h1 (h2.trans h.symm)
        have h4 : ¬ nf.sectionForm s = nf.sectionForm n := fun h => h3 h.symm
        simp [IniFile.GetChild, IniFile.setChild, h1, h2, h3, h4]
      · simp [IniFile.GetChild, IniFile.setChild, h1, h2, ih]

theorem IniFile.GetChild_eq_none_of_not_mem (nf : NameForms) (ini : IniFile) (s : String)
    (h : nf.sectionForm s ∉ ini.map (fun p => nf.sectionForm p.1)) :
    IniFile.GetChild ini nf s = none := by
  induction ini with
  | nil => simp [IniFile.GetChild]
  | cons na rest ih =>
    obtain ⟨n, x⟩ := na
    simp only [List.map_cons, List.mem_cons, not_or] at h
    have h1 : ¬ nf.sectionForm n = nf.sectionForm s := fun e => h.1 e.symm
    simp [IniFile.GetChild, h1, ih h.2]

/-- What `MergeIniUnder` does to a lookup: the value of `pTo` when it has one, else
the value of `pFrom` (the sections of `pFrom` bear distinct names). -/
theorem MergeIniUnder_GetValue (nf : NameForms) (pFrom pTo : IniFile)
    (hwf : (pFrom.map (fun p => nf.sectionForm p.1)).Nodup) (s k : String) :
    (MergeIniUnder nf pFrom pTo).GetValue nf s k
      = (pTo.GetValue nf s k).or (pFrom.GetValue nf s k) := by
  induction pFrom generalizing pTo with
  | nil => simp [MergeIniUnder, IniFile.GetValue, IniFile.GetChild]
  | cons na next ih =>
    obtain ⟨n, attrs⟩ := na
    simp only [List.map_cons, List.nodup_cons] at hwf
    have hnext : IniFile.GetChild next nf n = none :=
      IniFile.GetChild_eq_none_of_not_mem nf next n hwf.1
    unfold MergeIniUnder
    cases hc : IniFile.GetChild pTo nf n with
    | none =>
      simp only
      rw [ih _ hwf.2]
      by_cases h : nf.sectionForm n = nf.sectionForm s
      · have hnext' : IniFile.GetChild next nf s = none :=
          IniFile.GetChild_eq_none_of_not_mem nf next s (by rw [← h]; exact hwf.1)
        have hc' : IniFile.GetChild pTo nf s = none := by
          rw [← IniFile.GetChild_congr nf pTo n s h]; exact hc
        simp [IniFile.GetValue, IniFile.GetChild_append, IniFile.GetChild, hc', hnext', h]
      · simp [IniFile.GetValue, IniFile.GetChild_append, IniFile.GetChild, h]
    | some child =>
      simp only
      rw [ih _ hwf.2]
      by_cases h : nf.sectionForm n = nf.sectionForm s
      · have hnext' : IniFile.GetChild next nf s = none :=
          IniFile.GetChild_eq_none_of_not_mem nf next s (by rw [← h]; exact hwf.1)
        have hc' : IniFile.GetChild pTo nf s = some child := by
          rw [← IniFile.GetChild_congr nf pTo n s h]; exact hc
        simp [IniFile.GetValue, IniFile.GetChild_setChild, IniFile.GetChild, hc', hnext', h,
          XAttrs.find_foldl_insert]
      · simp [IniFile.GetValue, IniFile.GetChild_setChild, IniFile.GetChild, h]



/-! ## The loop of `LoadThemeMetrics` -/

theorem LoadThemeMetrics.body_ok (env : Env) (sLanguage : String) (v : LoadLoop)
    (st st' : ThemeManager) (o : Option LoadLoop)
    (h : LoadThemeMetrics.body env sLanguage v st = .ok o st') :
    st.g_vThemes.length < 20 ∧ st' = LoadThemeMetrics.merged env sLanguage v.sThemeName st
      ∧ o = (if (LoadThemeMetrics.next env v).sThemeName = "" then none
              else some (LoadThemeMetrics.next env v)) := by
  unfold LoadThemeMetrics.body at h
  by_cases hlen : st.g_vThemes.length < 20
  · simp only [hlen, not_true_eq_false, if_false] at h
    by_cases hn : (LoadThemeMetrics.next env v).sThemeName = ""
    · simp only [hn, if_true, Result.ok.injEq] at h
      exact ⟨hlen, h.2.symm, by simp [hn, h.1]⟩
    · simp only [hn, if_false, Result.ok.injEq] at h
      exact ⟨hlen, h.2.symm, by simp [hn, h.1]⟩
  · simp [hlen] at h

theorem LoadThemeMetrics.body_fail (env : Env) (sLanguage : String) (v : LoadLoop)
    (st st' : ThemeManager) (e : Failure)
    (h : LoadThemeMetrics.body env sLanguage v st = .fail e st') :
    20 ≤ st.g_vThemes.length ∧ st' = st ∧ e = .circularThemeFallback := by
  unfold LoadThemeMetrics.body at h
  by_cases hlen : st.g_vThemes.length < 20
  · simp only [hlen, not_true_eq_false, if_false] at h
    by_cases hn : (LoadThemeMetrics.next env v).sThemeName = "" <;> simp [hn] at h
  · simp only [hlen, not_false_eq_true, if_true, Result.fail.injEq] at h
    exact ⟨Nat.le_of_not_lt hlen, h.2.symm, h.1.symm⟩

/-- Induction over the iterations of the loop, for runs that end with `break`. -/
theorem LoadThemeMetrics.loop_ok_induction (env : Env) (sLanguage : String)
    (P : LoadLoop → ThemeManager → Prop) (Q : ThemeManager → Prop)
    (hbreak : ∀ v st st', P v st →
      LoadThemeMetrics.body env sLanguage v st = .ok none st' → Q st')
    (hcont : ∀ v st v' st', P v st →
      LoadThemeMetrics.body env sLanguage v st = .ok (some v') st' → P v' st') :
    ∀ (fuel : Nat) (v : LoadLoop) (st st' : ThemeManager), P v st →
      LoadThemeMetrics.loop env sLanguage fuel v st = .ok () st' → Q st' := by
  intro fuel
  induction fuel with
  | zero => intro v st st' _ h; simp [LoadThemeMetrics.loop] at h
  | succ fuel ih =>
    intro v st st' hP h
    unfold LoadThemeMetrics.loop at h
    cases hb : LoadThemeMetrics.body env sLanguage v st with
    | fail e s => simp [hb] at h
    | ok o s =>
      cases o with
      | none =>
        simp only [hb, Result.ok.injEq, true_and] at h
        subst h
        exact hbreak v st s hP hb
      | some v' =>
        simp only [hb] at h
        exact ih v' s st' (hcont v st v' s hP hb) h

theorem LoadThemeMetrics.merged_length (env : Env) (sLanguage sThemeName : String)
    (st : ThemeManager) :
    (LoadThemeMetrics.merged env sLanguage sThemeName st).g_vThemes.length
      = st.g_vThemes.length + 1 := by
  simp [LoadThemeMetrics.merged]

/-- The chain never holds more than 20 themes, however far the loop has run. -/
theorem LoadThemeMetrics.loop_length_le (env : Env) (sLanguage : String) :
    ∀ (fuel : Nat) (v : LoadLoop) (st : ThemeManager), st.g_vThemes.length ≤ 20 →
      (LoadThemeMetrics.loop env sLanguage fuel v st).state.g_vThemes.length ≤ 20 := by
  intro fuel
  induction fuel with
  | zero => intro v st h; simpa [LoadThemeMetrics.loop, Result.state] using h
  | succ fuel ih =>
    intro v st hlen
    unfold LoadThemeMetrics.loop
    cases hb : LoadThemeMetrics.body env sLanguage v st with
    | fail e s =>
      obtain ⟨_, hs, _⟩ := LoadThemeMetrics.body_fail env sLanguage v st s e hb
      subst hs
      simpa [Result.state] using hlen
    | ok o s =>
      obtain ⟨hlt, hs, _⟩ := LoadThemeMetrics.body_ok env sLanguage v st s o hb
      have hs' : s.g_vThemes.length ≤ 20 := by
        rw [hs, LoadThemeMetrics.merged_length]; omega
      cases o with
      | none => simpa [Result.state] using hs'
      | some v' => exact ih v' s hs'

/-- The budget of 21 iterations is never used up. -/
theorem LoadThemeMetrics.loop_fuel (env : Env) (sLanguage : String) :
    ∀ (fuel : Nat) (v : LoadLoop) (st s : ThemeManager), st.g_vThemes.length ≤ 20 →
      20 < st.g_vThemes.length + fuel →
      LoadThemeMetrics.loop env sLanguage fuel v st ≠ .fail .outOfFuel s := by
  intro fuel
  induction fuel with
  | zero => intro v st s h1 h2; omega
  | succ fuel ih =>
    intro v st s h1 h2
    unfold LoadThemeMetrics.loop
    cases hb : LoadThemeMetrics.body env sLanguage v st with
    | fail e s' =>
      obtain ⟨_, _, he⟩ := LoadThemeMetrics.body_fail env sLanguage v st s' e hb
      subst he
      simp
    | ok o s' =>
      obtain ⟨hlt, hs, _⟩ := LoadThemeMetrics.body_ok env sLanguage v st s' o hb
      cases o with
      | none => simp
      | some v' =>
        have hl : s'.g_vThemes.length = st.g_vThemes.length + 1 := by
          rw [hs, LoadThemeMetrics.merged_length]
        exact ih v' s' s (by omega) (by omega)

theorem LoadThemeMetrics.overlay_g_vThemes (nf : NameForms) :
    ∀ (l : List String) (st : ThemeManager),
      (LoadThemeMetrics.overlay nf l st).state.g_vThemes = st.g_vThemes := by
  intro l
  induction l with
  | nil => intro st; rfl
  | cons sMetric rest ih =>
    intro st
    unfold LoadThemeMetrics.overlay
    cases hm : matchMetricArgument sMetric with
    | none => rfl
    | some r =>
      obtain ⟨foo, bar, baz⟩ := r
      simp only
      rw [ih]

theorem LoadThemeMetrics.overlay_ne_outOfFuel (nf : NameForms) :
    ∀ (l : List String) (st s : ThemeManager),
      LoadThemeMetrics.overlay nf l st ≠ .fail .outOfFuel s := by
  intro l
  induction l with
  | nil => intro st s; simp [LoadThemeMetrics.overlay]
  | cons sMetric rest ih =>
    intro st s
    unfold LoadThemeMetrics.overlay
    cases hm : matchMetricArgument sMetric with
    | none => simp
    | some r =>
      obtain ⟨foo, bar, baz⟩ := r
      exact ih _ s

/-- Totality: `LoadThemeMetrics` always ends: with a state or with one of its fatal failures. -/
theorem LoadThemeMetrics_total (env : Env) (sThemeName sLanguage : String)
    (st s : ThemeManager) :
    LoadThemeMetrics env sThemeName sLanguage st ≠ .fail .outOfFuel s := by
  unfold LoadThemeMetrics
  cases h : LoadThemeMetrics.loop env sLanguage 21
      { sThemeName := sThemeName, bLoadedBase := false }
      (LoadThemeMetrics.start sThemeName sLanguage st) with
  | fail e s' =>
    intro heq
    simp only [Result.fail.injEq] at heq
    obtain ⟨he, hs⟩ := heq
    subst he
    exact LoadThemeMetrics.loop_fuel env sLanguage 21 _ _ s'
      (by simp [LoadThemeMetrics.start]) (by simp [LoadThemeMetrics.start]) h
  | ok u s' =>
    cases u
    exact LoadThemeMetrics.overlay_ne_outOfFuel _ _ _ _



theorem ThemeManager.chain_merged (env : Env) (sLanguage sThemeName : String)
    (st : ThemeManager) :
    (LoadThemeMetrics.merged env sLanguage sThemeName st).chain = st.chain ++ [sThemeName] := by
  simp [LoadThemeMetrics.merged, ThemeManager.chain]

theorem ThemeManager.iniMetrics_merged (env : Env) (sLanguage sThemeName : String)
    (st : ThemeManager) :
    (LoadThemeMetrics.merged env sLanguage sThemeName st).iniMetrics
      = MergeIniUnder env.forms (themeMetrics env sThemeName) st.iniMetrics := by
  simp [LoadThemeMetrics.merged, ThemeManager.iniMetrics]

/-- The chain that a successful `LoadThemeMetrics` leaves is the sequence of
fallbacks followed from the starting theme up to the first empty fallback. -/
theorem LoadThemeMetrics_chain (env : Env) (sThemeName sLanguage : String)
    (st st' : ThemeManager) (h : LoadThemeMetrics env sThemeName sLanguage st = .ok () st') :
    ∃ k, k < 20
      ∧ st'.chain = (List.range (k + 1)).map (fun n => (followFallbacks env sThemeName n).sThemeName)
      ∧ (∀ n, n < k → (followFallbacks env sThemeName (n + 1)).sThemeName ≠ "")
      ∧ (followFallbacks env sThemeName (k + 1)).sThemeName = "" := by
  unfold LoadThemeMetrics at h
  cases hl : LoadThemeMetrics.loop env sLanguage 21
      { sThemeName := sThemeName, bLoadedBase := false }
      (LoadThemeMetrics.start sThemeName sLanguage st) with
  | fail e s => simp [hl] at h
  | ok u s =>
    cases u
    simp only [hl] at h
    have hchain : st'.chain = s.chain := by
      have := LoadThemeMetrics.overlay_g_vThemes env.forms env.metricArguments s
      rw [h] at this
      simpa [ThemeManager.chain, Result.state] using congrArg (List.map Theme.sThemeName) this
    rw [hchain]
    refine LoadThemeMetrics.loop_ok_induction env sLanguage
      (fun v t => ∃ n, v = followFallbacks env sThemeName n ∧ t.g_vThemes.length = n
        ∧ t.chain = (List.range n).map (fun i => (followFallbacks env sThemeName i).sThemeName)
        ∧ (∀ i, i < n → (followFallbacks env sThemeName (i + 1)).sThemeName ≠ ""))
      (fun t => ∃ k, k < 20
        ∧ t.chain = (List.range (k + 1)).map (fun n => (followFallbacks env sThemeName n).sThemeName)
        ∧ (∀ n, n < k → (followFallbacks env sThemeName (n + 1)).sThemeName ≠ "")
        ∧ (followFallbacks env sThemeName (k + 1)).sThemeName = "")
      ?_ ?_ 21 _ _ s ?_ hl
    · rintro v t t' ⟨n, hv, hlen, hch, hne⟩ hb
      obtain ⟨hlt, ht', ho⟩ := LoadThemeMetrics.body_ok env sLanguage v t t' none hb
      have hnext : (LoadThemeMetrics.next env v).sThemeName = "" := by
        by_contra hc
        simp [hc] at ho
      refine ⟨n, by omega, ?_, hne, ?_⟩
      · rw [ht', ThemeManager.chain_merged, hch, List.range_succ, List.map_append, hv]
        rfl
      · rw [followFallbacks, ← hv]; exact hnext
    · rintro v t v' t' ⟨n, hv, hlen, hch, hne⟩ hb
      obtain ⟨hlt, ht', ho⟩ := LoadThemeMetrics.body_ok env sLanguage v t t' (some v') hb
      have hnext : (LoadThemeMetrics.next env v).sThemeName ≠ "" := by
        intro hc
        simp [hc] at ho
      have hv' : v' = LoadThemeMetrics.next env v := by
        simp only [hnext, if_false, Option.some.injEq] at ho
        exact ho
      refine ⟨n + 1, ?_, ?_, ?_, ?_⟩
      · rw [hv', hv, followFallbacks]
      · rw [ht', LoadThemeMetrics.merged_length, hlen]
      · rw [ht', ThemeManager.chain_merged, hch, List.range_succ, List.map_append, hv]
        rfl
      · intro i hi
        rcases Nat.lt_succ_iff_lt_or_eq.mp hi with h1 | h1
        · exact hne i h1
        · subst h1
          rw [followFallbacks, ← hv]; exact hnext
    · exact ⟨0, rfl, by simp [LoadThemeMetrics.start], by simp [LoadThemeMetrics.start, ThemeManager.chain],
        by intro i hi; omega⟩

/-- The invariant of the merge loop. -/
theorem LoadThemeMetrics.merged_lookup (env : Env)
    (hwf : ∀ t, ((themeMetrics env t).map (fun p => env.forms.sectionForm p.1)).Nodup)
    (sLanguage sThemeName : String) (st : ThemeManager) (sSection sKey : String)
    (hinv : st.iniMetrics.GetValue env.forms sSection sKey
      = st.chain.findSome? (fun t => (themeMetrics env t).GetValue env.forms sSection sKey)) :
    (LoadThemeMetrics.merged env sLanguage sThemeName st).iniMetrics.GetValue env.forms sSection sKey
      = (LoadThemeMetrics.merged env sLanguage sThemeName st).chain.findSome?
          (fun t => (themeMetrics env t).GetValue env.forms sSection sKey) := by
  rw [ThemeManager.iniMetrics_merged, ThemeManager.chain_merged,
    MergeIniUnder_GetValue _ _ _ (hwf sThemeName), List.findSome?_append, hinv]
  congr 1
  cases hx : (themeMetrics env sThemeName).GetValue env.forms sSection sKey <;> simp [List.findSome?, hx]



/-! ## Following the fallbacks -/

/-- While every fallback is non-empty the loop runs on; from a chain of `n` themes
it fails with the circular-fallback assertion after `20 - n` more themes. -/
theorem LoadThemeMetrics.loop_reject (env : Env) (sThemeName sLanguage : String)
    (hne : ∀ i, i < 20 → (followFallbacks env sThemeName (i + 1)).sThemeName ≠ "") :
    ∀ (m n : Nat) (st : ThemeManager), st.g_vThemes.length = n → n + m = 20 →
      ∃ st', LoadThemeMetrics.loop env sLanguage (m + 1) (followFallbacks env sThemeName n) st
          = .fail .circularThemeFallback st' ∧ st'.g_vThemes.length = 20 := by
  intro m
  induction m with
  | zero =>
    intro n st hlen hn
    refine ⟨st, ?_, by omega⟩
    have : ¬ st.g_vThemes.length < 20 := by omega
    simp [LoadThemeMetrics.loop, LoadThemeMetrics.body, this]
  | succ m ih =>
    intro n st hlen hn
    have hlt : st.g_vThemes.length < 20 := by omega
    have hnext : (LoadThemeMetrics.next env (followFallbacks env sThemeName n)).sThemeName ≠ "" :=
      hne n (by omega)
    obtain ⟨st', h1, h2⟩ := ih (n + 1)
      (LoadThemeMetrics.merged env sLanguage (followFallbacks env sThemeName n).sThemeName st)
      (by rw [LoadThemeMetrics.merged_length, hlen]) (by omega)
    refine ⟨st', ?_, h2⟩
    rw [LoadThemeMetrics.loop]
    simp only [LoadThemeMetrics.body, hlt, not_true_eq_false, if_false, hnext]
    exact h1

/-- When the fallbacks end with the (k+1)-th theme, k < 20, the loop ends there. -/
theorem LoadThemeMetrics.loop_accept (env : Env) (sThemeName sLanguage : String) (k : Nat)
    (hk : k < 20)
    (hne : ∀ i, i < k → (followFallbacks env sThemeName (i + 1)).sThemeName ≠ "")
    (hend : (followFallbacks env sThemeName (k + 1)).sThemeName = "") :
    ∀ (m n : Nat) (st : ThemeManager) (extra : Nat), st.g_vThemes.length = n → n + m = k →
      ∃ st', LoadThemeMetrics.loop env sLanguage (m + 1 + extra)
          (followFallbacks env sThemeName n) st = .ok () st'
        ∧ st'.g_vThemes.length = k + 1 := by
  intro m
  induction m with
  | zero =>
    intro n st extra hlen hn
    have hlt : st.g_vThemes.length < 20 := by omega
    have hnk : n = k := by omega
    subst hnk
    have hnext : (LoadThemeMetrics.next env (followFallbacks env sThemeName n)).sThemeName = "" :=
      hend
    refine ⟨LoadThemeMetrics.merged env sLanguage (followFallbacks env sThemeName n).sThemeName st,
      ?_, by rw [LoadThemeMetrics.merged_length, hlen]⟩
    rw [show 0 + 1 + extra = extra + 1 by omega, LoadThemeMetrics.loop]
    simp [LoadThemeMetrics.body, hlt, hnext]
  | succ m ih =>
    intro n st extra hlen hn
    have hlt : st.g_vThemes.length < 20 := by omega
    have hnext : (LoadThemeMetrics.next env (followFallbacks env sThemeName n)).sThemeName ≠ "" :=
      hne n (by omega)
    obtain ⟨st', h1, h2⟩ := ih (n + 1)
      (LoadThemeMetrics.merged env sLanguage (followFallbacks env sThemeName n).sThemeName st)
      extra (by rw [LoadThemeMetrics.merged_length, hlen]) (by omega)
    refine ⟨st', ?_, h2⟩
    rw [show m + 1 + 1 + extra = (m + 1 + extra) + 1 by omega, LoadThemeMetrics.loop]
    simp only [LoadThemeMetrics.body, hlt, not_true_eq_false, if_false, hnext]
    exact h1

theorem followFallbacks_flag_succ (env : Env) (s : String) (n : Nat) :
    (followFallbacks env s (n + 1)).bLoadedBase
      = (isBaseTheme env (followFallbacks env s n).sThemeName
          || (followFallbacks env s n).bLoadedBase) := by
  simp only [followFallbacks, LoadThemeMetrics.next]
  cases isBaseTheme env (followFallbacks env s n).sThemeName <;> simp

theorem followFallbacks_name_succ (env : Env) (s : String) (n : Nat) :
    (followFallbacks env s (n + 1)).sThemeName
      = fallbackTheme env (followFallbacks env s n).sThemeName
          (followFallbacks env s (n + 1)).bLoadedBase := by
  simp only [followFallbacks, LoadThemeMetrics.next]

/-- The flag stays set once it is set. -/
theorem followFallbacks_flag_mono (env : Env) (s : String) (i : Nat) :
    ∀ d, (followFallbacks env s i).bLoadedBase = true →
      (followFallbacks env s (i + d)).bLoadedBase = true := by
  intro d
  induction d with
  | zero => intro h; exact h
  | succ d ih =>
    intro h
    rw [← Nat.add_assoc, followFallbacks_flag_succ, ih h]
    simp

/-- The flag is unset only when no theme so far was a base theme. -/
theorem followFallbacks_flag_false (env : Env) (s : String) :
    ∀ n, (followFallbacks env s (n + 1)).bLoadedBase = false →
      ∀ q, q ≤ n → isBaseTheme env (followFallbacks env s q).sThemeName = false := by
  intro n
  induction n with
  | zero =>
    intro h q hq
    have hq0 : q = 0 := by omega
    subst hq0
    rw [followFallbacks_flag_succ] at h
    simp only [Bool.or_eq_false_iff] at h
    exact h.1
  | succ n ih =>
    intro h q hq
    rw [followFallbacks_flag_succ] at h
    simp only [Bool.or_eq_false_iff] at h
    rcases Nat.lt_succ_iff_lt_or_eq.mp (Nat.lt_succ_of_le hq) with h1 | h1
    · exact ih h.2 q (by omega)
    · subst h1; exact h.1

/-- The flag is set only after some theme was a base theme. -/
theorem followFallbacks_flag_true (env : Env) (s : String) :
    ∀ n, (followFallbacks env s (n + 1)).bLoadedBase = true →
      ∃ p, p ≤ n ∧ isBaseTheme env (followFallbacks env s p).sThemeName = true := by
  intro n
  induction n with
  | zero =>
    intro h
    rw [followFallbacks_flag_succ] at h
    simp only [followFallbacks, Bool.or_false] at h
    exact ⟨0, Nat.le_refl 0, h⟩
  | succ n ih =>
    intro h
    rw [followFallbacks_flag_succ] at h
    simp only [Bool.or_eq_true] at h
    rcases h with h | h
    · exact ⟨n + 1, Nat.le_refl _, h⟩
    · obtain ⟨p, hp, hb⟩ := ih h
      exact ⟨p, by omega, hb⟩

/-- Two positions with the same name and the same flag are followed by the same
themes for ever. -/
theorem followFallbacks_repeat (env : Env) (s : String) (i j : Nat)
    (hname : (followFallbacks env s i).sThemeName = (followFallbacks env s j).sThemeName)
    (hflag : (followFallbacks env s (i + 1)).bLoadedBase
      = (followFallbacks env s (j + 1)).bLoadedBase) :
    ∀ d, followFallbacks env s (i + 1 + d) = followFallbacks env s (j + 1 + d) := by
  intro d
  induction d with
  | zero =>
    have h1 := followFallbacks_name_succ env s i
    have h2 := followFallbacks_name_succ env s j
    rw [hname, hflag] at h1
    have hn : (followFallbacks env s (i + 1)).sThemeName
        = (followFallbacks env s (j + 1)).sThemeName := by rw [h1, h2]
    cases hx : followFallbacks env s (i + 1) with
    | mk a b =>
      cases hy : followFallbacks env s (j + 1) with
      | mk a' b' =>
        rw [hx, hy] at hn hflag
        simp only at hn hflag
        simp [hn, hflag]
  | succ d ih =>
    rw [← Nat.add_assoc, ← Nat.add_assoc, followFallbacks, followFallbacks, ih]



/-! ## Facts about the example installations -/

theorem tableEnv_sections_nodup (inis : List (String × IniFile))
    (listings : List (String × List String)) (contents : List (String × String))
    (answer : DialogResult)
    (h : ∀ e, e ∈ inis → (e.2.map (fun p => MakeLower p.1)).Nodup) (t : String) :
    ((themeMetrics (tableEnv inis listings contents answer) t).map
      (fun p => (tableEnv inis listings contents answer).forms.sectionForm p.1)).Nodup := by
  unfold themeMetrics
  simp only [tableEnv]
  generalize GetMetricsIniPath _ t = p
  induction inis with
  | nil => simp [List.lookup]
  | cons e rest ih =>
    obtain ⟨q, ini⟩ := e
    simp only [List.lookup]
    cases hq : (p == q) with
    | true => simpa using h (q, ini) (List.mem_cons_self _ _)
    | false => exact ih (fun e he => h e (List.mem_cons_of_mem _ he))

/-! ## The claims about `LoadThemeMetrics` -/

/-- C1: with no command-line override, the merged metrics store that
`LoadThemeMetrics` leaves maps every (section, key) to the value of the first
theme of the chain, most-derived first, whose own metrics file defines it, and to
nothing when no theme of the chain defines it. -/
theorem LoadThemeMetrics_first_definition_wins (env : Env)
    (hargs : env.metricArguments = [])
    (hwf : ∀ t, ((themeMetrics env t).map (fun p => env.forms.sectionForm p.1)).Nodup)
    (sThemeName sLanguage : String) (st st' : ThemeManager)
    (h : LoadThemeMetrics env sThemeName sLanguage st = .ok () st')
    (sSection sKey : String) :
    st'.iniMetrics.GetValue env.forms sSection sKey
      = st'.chain.findSome? (fun t => (themeMetrics env t).GetValue env.forms sSection sKey) := by
  unfold LoadThemeMetrics at h
  cases hl : LoadThemeMetrics.loop env sLanguage 21
      { sThemeName := sThemeName, bLoadedBase := false }
      (LoadThemeMetrics.start sThemeName sLanguage st) with
  | fail e s => simp [hl] at h
  | ok u s =>
    cases u
    simp only [hl, hargs, LoadThemeMetrics.overlay, Result.ok.injEq, true_and] at h
    subst h
    refine LoadThemeMetrics.loop_ok_induction env sLanguage
      (fun _ t => t.iniMetrics.GetValue env.forms sSection sKey
        = t.chain.findSome? (fun x => (themeMetrics env x).GetValue env.forms sSection sKey))
      (fun t => t.iniMetrics.GetValue env.forms sSection sKey
        = t.chain.findSome? (fun x => (themeMetrics env x).GetValue env.forms sSection sKey))
      ?_ ?_ 21 _ _ s ?_ hl
    · intro v t t' hinv hb
      obtain ⟨_, ht', _⟩ := LoadThemeMetrics.body_ok env sLanguage v t t' none hb
      rw [ht']
      exact LoadThemeMetrics.merged_lookup env hwf sLanguage v.sThemeName t sSection sKey hinv
    · intro v t v' t' hinv hb
      obtain ⟨_, ht', _⟩ := LoadThemeMetrics.body_ok env sLanguage v t t' (some v') hb
      rw [ht']
      exact LoadThemeMetrics.merged_lookup env hwf sLanguage v.sThemeName t sSection sKey hinv
    · simp [LoadThemeMetrics.start, ThemeManager.iniMetrics, ThemeManager.chain,
        IniFile.GetValue, IniFile.GetChild]

theorem LoadThemeMetrics_first_definition_wins_witness :
    LoadThemeMetrics envPlain "A" "english" ThemeManager.init = .ok () stPlain
      ∧ stPlain.chain = ["A", "default"]
      ∧ (themeMetrics envPlain "default").GetValue envPlain.forms "Common" "Width" = some "320"
      ∧ stPlain.iniMetrics.GetValue envPlain.forms "Common" "Width" = some "640"
      ∧ stPlain.iniMetrics.GetValue envPlain.forms "Common" "Width"
          = stPlain.chain.findSome? (fun t => (themeMetrics envPlain t).GetValue envPlain.forms "Common" "Width") :=
  ⟨by decide!, by decide!, by decide!, by decide!,
    LoadThemeMetrics_first_definition_wins envPlain rfl
      (tableEnv_sections_nodup _ _ _ _ (by decide!)) "A" "english" ThemeManager.init stPlain
      (by decide!) "Common" "Width"⟩

/-- C6: when following the fallbacks from the starting theme (implicit base theme
included) never reaches an empty fallback, `LoadThemeMetrics` ends in the
circular-fallback failure, with 20 themes in the chain, and however far the loop
has run the chain holds at most 20 themes. -/
theorem LoadThemeMetrics_endless_fallbacks_fail (env : Env) (sThemeName sLanguage : String)
    (st : ThemeManager)
    (hloop : ∀ n, (followFallbacks env sThemeName (n + 1)).sThemeName ≠ "") :
    (∃ st', LoadThemeMetrics env sThemeName sLanguage st = .fail .circularThemeFallback st'
        ∧ st'.g_vThemes.length = 20)
      ∧ ∀ fuel, (LoadThemeMetrics.loop env sLanguage fuel
            { sThemeName := sThemeName, bLoadedBase := false }
            (LoadThemeMetrics.start sThemeName sLanguage st)).state.g_vThemes.length ≤ 20 := by
  constructor
  · obtain ⟨st', h1, h2⟩ := LoadThemeMetrics.loop_reject env sThemeName sLanguage
      (fun i _ => hloop i) 20 0 (LoadThemeMetrics.start sThemeName sLanguage st)
      (by simp [LoadThemeMetrics.start]) (by omega)
    refine ⟨st', ?_, h2⟩
    unfold LoadThemeMetrics
    simp only [followFallbacks] at h1
    rw [h1]
  · intro fuel
    exact LoadThemeMetrics.loop_length_le env sLanguage fuel _ _ (by simp [LoadThemeMetrics.start])

theorem followFallbacks_envLoop : ∀ n, followFallbacks envLoop "A" n = ⟨"A", false⟩ := by
  intro n
  induction n with
  | zero => rfl
  | succ n ih =>
    rw [followFallbacks, ih]
    decide!

theorem LoadThemeMetrics_endless_fallbacks_fail_witness :
    (∀ n, (followFallbacks envLoop "A" (n + 1)).sThemeName ≠ "")
      ∧ (LoadThemeMetrics envLoop "A" "english" ThemeManager.init).isOk = false
      ∧ ∃ st', LoadThemeMetrics envLoop "A" "english" ThemeManager.init
          = .fail .circularThemeFallback st' ∧ st'.g_vThemes.length = 20 :=
  ⟨fun n => by rw [followFallbacks_envLoop]; decide!, by decide!,
    (LoadThemeMetrics_endless_fallbacks_fail envLoop "A" "english" ThemeManager.init
      (fun n => by rw [followFallbacks_envLoop]; decide!)).1⟩

/-- C7 as stated fails: a non-cyclic chain of exactly 20 themes is built without
a fatal failure and holds 20 themes, not fewer. -/
theorem LoadThemeMetrics_twenty_themes_accepted :
    (LoadThemeMetrics (envThemes 20) (longName 0) "english" ThemeManager.init).isOk = true
      ∧ (LoadThemeMetrics (envThemes 20) (longName 0) "english"
          ThemeManager.init).state.chain = (List.range 20).map longName
      ∧ ((List.range 20).map longName).Nodup
      ∧ ¬ ((LoadThemeMetrics (envThemes 20) (longName 0) "english"
          ThemeManager.init).state.g_vThemes.length < 20) := by
  decide!

/-- C7, amended: every chain that `LoadThemeMetrics` builds without a fatal failure
holds at most 20 themes; fallbacks that end with the (k+1)-th theme, k < 20, give
(without command-line overrides) a chain of exactly k+1 themes, 20 included; and
fallbacks that go on beyond the 20th theme are rejected with the circular-fallback
failure. -/
theorem LoadThemeMetrics_chain_at_most_twenty (env : Env) (sThemeName sLanguage : String)
    (st : ThemeManager) :
    (∀ st', LoadThemeMetrics env sThemeName sLanguage st = .ok () st' →
        st'.g_vThemes.length ≤ 20)
      ∧ (∀ k, k < 20 → env.metricArguments = [] →
          (∀ i, i < k → (followFallbacks env sThemeName (i + 1)).sThemeName ≠ "") →
          (followFallbacks env sThemeName (k + 1)).sThemeName = "" →
          ∃ st', LoadThemeMetrics env sThemeName sLanguage st = .ok () st'
            ∧ st'.g_vThemes.length = k + 1)
      ∧ ((∀ i, i < 20 → (followFallbacks env sThemeName (i + 1)).sThemeName ≠ "") →
          ∃ st', LoadThemeMetrics env sThemeName sLanguage st
            = .fail .circularThemeFallback st') := by
  refine ⟨?_, ?_, ?_⟩
  · intro st' h
    obtain ⟨k, hk, hch, _, _⟩ := LoadThemeMetrics_chain env sThemeName sLanguage st st' h
    have : st'.chain.length = k + 1 := by rw [hch]; simp
    simp only [ThemeManager.chain, List.length_map] at this
    omega
  · intro k hk hargs hne hend
    obtain ⟨st', h1, h2⟩ := LoadThemeMetrics.loop_accept env sThemeName sLanguage k hk hne hend
      k 0 (LoadThemeMetrics.start sThemeName sLanguage st) (20 - k)
      (by simp [LoadThemeMetrics.start]) (by omega)
    refine ⟨st', ?_, h2⟩
    unfold LoadThemeMetrics
    rw [show k + 1 + (20 - k) = 21 by omega] at h1
    simp only [followFallbacks] at h1
    rw [h1, hargs]
    rfl
  · intro hne
    obtain ⟨st', h1, _⟩ := LoadThemeMetrics.loop_reject env sThemeName sLanguage hne 20 0
      (LoadThemeMetrics.start sThemeName sLanguage st) (by simp [LoadThemeMetrics.start])
      (by omega)
    refine ⟨st', ?_⟩
    unfold LoadThemeMetrics
    simp only [followFallbacks] at h1
    rw [h1]

theorem LoadThemeMetrics_chain_at_most_twenty_witness :
    (LoadThemeMetrics envPlain "A" "english" ThemeManager.init = .ok () stPlain
        ∧ stPlain.g_vThemes.length ≤ 20)
      ∧ (∃ st', LoadThemeMetrics (envThemes 20) (longName 0) "english" ThemeManager.init
          = .ok () st' ∧ st'.g_vThemes.length = 19 + 1)
      ∧ (∃ st', LoadThemeMetrics (envThemes 21) (longName 0) "english" ThemeManager.init
          = .fail .circularThemeFallback st') :=
  ⟨⟨by decide!, (LoadThemeMetrics_chain_at_most_twenty envPlain "A" "english"
        ThemeManager.init).1 stPlain (by decide!)⟩,
    (LoadThemeMetrics_chain_at_most_twenty (envThemes 20) (longName 0) "english"
        ThemeManager.init).2.1 19 (by decide) rfl (by decide!) (by decide!),
    (LoadThemeMetrics_chain_at_most_twenty (envThemes 21) (longName 0) "english"
        ThemeManager.init).2.2 (by decide!)⟩



/-- C8 as stated fails: theme "A" declares no fallback and the base theme declares
"A" as its fallback; the chain is built without failure and holds "A" twice. -/
theorem LoadThemeMetrics_chain_repeats_theme :
    (LoadThemeMetrics envBack "A" "english" ThemeManager.init).isOk = true
      ∧ (LoadThemeMetrics envBack "A" "english" ThemeManager.init).state.chain
          = ["A", "default", "A"] := by
  decide!

/-- C8, amended: in a chain that `LoadThemeMetrics` builds without a fatal failure, a
theme identifier occurs at two positions only when no theme up to the first of
them is a base theme and a base theme (named as the base theme, or declaring
`IsBaseTheme`) stands strictly between the two; so an identifier never occurs
twice before the first base theme, never twice after it, and never three times. -/
theorem LoadThemeMetrics_chain_repeats_only_across_base (env : Env)
    (sThemeName sLanguage : String) (st st' : ThemeManager)
    (h : LoadThemeMetrics env sThemeName sLanguage st = .ok () st')
    (i j : Nat) (hij : i < j) (hj : j < st'.chain.length)
    (heq : st'.chain[i]? = st'.chain[j]?) :
    (∀ q t, q ≤ i → st'.chain[q]? = some t → isBaseTheme env t = false)
      ∧ ∃ p t, i < p ∧ p < j ∧ st'.chain[p]? = some t ∧ isBaseTheme env t = true := by
  obtain ⟨k, hk, hch, hne, hend⟩ := LoadThemeMetrics_chain env sThemeName sLanguage st st' h
  have hlen : st'.chain.length = k + 1 := by rw [hch]; simp
  have hget : ∀ n, n ≤ k → st'.chain[n]? = some (followFallbacks env sThemeName n).sThemeName := by
    intro n hn
    rw [hch, List.getElem?_map, List.getElem?_range (by omega)]
    rfl
  have hjk : j ≤ k := by omega
  have hname : (followFallbacks env sThemeName i).sThemeName
      = (followFallbacks env sThemeName j).sThemeName := by
    rw [hget i (by omega), hget j hjk] at heq
    exact Option.some.inj heq
  -- the flags after the two positions differ, else the chain would never end
  have hflag : (followFallbacks env sThemeName (i + 1)).bLoadedBase
      ≠ (followFallbacks env sThemeName (j + 1)).bLoadedBase := by
    intro hf
    have hrep := followFallbacks_repeat env sThemeName i j hname hf (k - j)
    have h1 : j + 1 + (k - j) = k + 1 := by omega
    have h2 : i + 1 + (k - j) = (i + (k - j)) + 1 := by omega
    rw [h1, h2] at hrep
    exact hne (i + (k - j)) (by omega) (by rw [hrep]; exact hend)
  have hfi : (followFallbacks env sThemeName (i + 1)).bLoadedBase = false := by
    cases hb : (followFallbacks env sThemeName (i + 1)).bLoadedBase with
    | false => rfl
    | true =>
      exfalso
      have hm := followFallbacks_flag_mono env sThemeName (i + 1) (j - i) hb
      rw [show i + 1 + (j - i) = j + 1 by omega] at hm
      exact hflag (by rw [hb, hm])
  have hfj : (followFallbacks env sThemeName (j + 1)).bLoadedBase = true := by
    cases hb : (followFallbacks env sThemeName (j + 1)).bLoadedBase with
    | true => rfl
    | false => exact absurd (by rw [hfi, hb]) hflag
  have hlow := followFallbacks_flag_false env sThemeName i hfi
  constructor
  · intro q t hq hqt
    rw [hget q (by omega)] at hqt
    rw [← Option.some.inj hqt]
    exact hlow q hq
  · obtain ⟨p, hp, hbase⟩ := followFallbacks_flag_true env sThemeName j hfj
    have hpi : i < p := by
      by_contra hc
      have := hlow p (by omega)
      rw [this] at hbase
      exact Bool.noConfusion hbase
    have hpj : p ≠ j := by
      intro hc
      subst hc
      have := hlow i (Nat.le_refl i)
      rw [hname, hbase] at this
      exact Bool.noConfusion this
    exact ⟨p, _, hpi, by omega, hget p (by omega), hbase⟩

theorem LoadThemeMetrics_chain_repeats_only_across_base_witness :
    LoadThemeMetrics envBack "A" "english" ThemeManager.init
        = .ok () (LoadThemeMetrics envBack "A" "english" ThemeManager.init).state
      ∧ (LoadThemeMetrics envBack "A" "english" ThemeManager.init).state.chain[0]?
        = (LoadThemeMetrics envBack "A" "english" ThemeManager.init).state.chain[2]?
      ∧ ∃ p t, 0 < p ∧ p < 2
        ∧ (LoadThemeMetrics envBack "A" "english" ThemeManager.init).state.chain[p]? = some t
        ∧ isBaseTheme envBack t = true :=
  ⟨by decide!, by decide!,
    (LoadThemeMetrics_chain_repeats_only_across_base envBack "A" "english" ThemeManager.init
      (LoadThemeMetrics envBack "A" "english" ThemeManager.init).state (by decide!)
      0 2 (by decide) (by decide!) (by decide!)).2⟩



/-! ## Class fallback and the recursive lookup -/

/-- Looking up the key "Fallback" ends in the first iteration. -/
theorem GetMetricRawRecursive.loop_Fallback (nf : NameForms) (ini : IniFile)
    (gcf : String → Except Failure String) (n : Nat) (sClassName : String) :
    GetMetricRawRecursive.loop nf ini gcf "Fallback" (n + 1) sClassName
      = .ok (ini.GetValue nf sClassName "Fallback") := by
  unfold GetMetricRawRecursive.loop
  cases ini.GetValue nf sClassName "Fallback" <;> simp

/-- The closed form of `GetClassFallback`: the evaluated "Fallback" of the class
section of the metrics store, the empty string when there is none. -/
theorem GetClassFallback_eq (env : Env) (st : ThemeManager) (sClassName : String) :
    GetClassFallback env st sClassName
      = if st.g_pLoadedThemeData.isNone then .error (.assertion "g_pLoadedThemeData")
        else .ok (match st.iniMetrics.GetValue env.forms sClassName "Fallback" with
          | some sFallback => env.RunExpressionS sFallback
          | none => "") := by
  unfold GetClassFallback GetClassFallback.nested GetMetricRawRecursive.guarded
  by_cases hd : st.g_pLoadedThemeData.isNone = true
  · simp [hd]
  · simp only [hd, GetMetricRawRecursive.loop_Fallback]
    cases st.iniMetrics.GetValue env.forms sClassName "Fallback" <;> simp

/-- The nesting budget of `GetClassFallback` is never used up: more budget gives
the same answer. -/
theorem GetClassFallback.nested_total (env : Env) (st : ThemeManager) (depth : Nat)
    (sClassName : String) :
    GetClassFallback.nested env st (depth + 1) sClassName = GetClassFallback env st sClassName := by
  unfold GetClassFallback GetClassFallback.nested GetMetricRawRecursive.guarded
  simp only [GetMetricRawRecursive.loop_Fallback]

theorem GetMetricRawRecursive.loop_step (nf : NameForms) (ini : IniFile) (gcf : String → Except Failure String)
    (sValueName sClassName F : String) (n : Nat) (hkey : sValueName ≠ "Fallback")
    (hmiss : ini.GetValue nf sClassName sValueName = none) (hF : gcf sClassName = .ok F)
    (hne : F ≠ "") :
    GetMetricRawRecursive.loop nf ini gcf sValueName (n + 1) sClassName
      = GetMetricRawRecursive.loop nf ini gcf sValueName n F := by
  rw [GetMetricRawRecursive.loop]
  simp [hmiss, hkey, hF, hne]

/-- A lookup that ends without the infinite-recursion failure ends the same way
when it is given one more iteration. -/
theorem GetMetricRawRecursive.loop_mono (nf : NameForms) (ini : IniFile) (gcf : String → Except Failure String)
    (sValueName : String) :
    ∀ (n : Nat) (sClassName : String) (r : Except Failure (Option String)),
      GetMetricRawRecursive.loop nf ini gcf sValueName n sClassName = r →
      (∀ c, r ≠ .error (.infiniteRecursionMetric c sValueName)) →
      GetMetricRawRecursive.loop nf ini gcf sValueName (n + 1) sClassName = r := by
  intro n
  induction n with
  | zero =>
    intro c r h hr
    simp only [GetMetricRawRecursive.loop] at h
    exact absurd h.symm (hr c)
  | succ n ih =>
    intro c r h hr
    rw [GetMetricRawRecursive.loop] at h ⊢
    cases hv : ini.GetValue nf c sValueName with
    | some v => simpa [hv] using h
    | none =>
      simp only [hv] at h ⊢
      by_cases hk : sValueName = "Fallback"
      · simpa [hk] using h
      · simp only [hk, if_false] at h ⊢
        cases hg : gcf c with
        | error e => simpa [hg] using h
        | ok F =>
          simp only [hg] at h ⊢
          by_cases hF : F = ""
          · simpa [hF] using h
          · simp only [hF, if_false] at h ⊢
            exact ih F r h hr

/-- A lookup that fails with the infinite-recursion failure fails with it also when
it is given one iteration less. -/
theorem GetMetricRawRecursive.loop_pred (nf : NameForms) (ini : IniFile) (gcf : String → Except Failure String)
    (sValueName : String) :
    ∀ (n : Nat) (sClassName c2 : String),
      GetMetricRawRecursive.loop nf ini gcf sValueName (n + 1) sClassName
        = .error (.infiniteRecursionMetric c2 sValueName) →
      ∃ c1, GetMetricRawRecursive.loop nf ini gcf sValueName n sClassName
        = .error (.infiniteRecursionMetric c1 sValueName) := by
  intro n
  induction n with
  | zero => intro c c2 _; exact ⟨c, rfl⟩
  | succ n ih =>
    intro c c2 h
    rw [GetMetricRawRecursive.loop] at h
    rw [GetMetricRawRecursive.loop]
    cases hv : ini.GetValue nf c sValueName with
    | some v => simp [hv] at h
    | none =>
      simp only [hv] at h ⊢
      by_cases hk : sValueName = "Fallback"
      · simp [hk] at h
      · simp only [hk, if_false] at h ⊢
        cases hg : gcf c with
        | error e =>
          simp only [hg] at h ⊢
          exact ⟨c2, h⟩
        | ok F =>
          simp only [hg] at h ⊢
          by_cases hF : F = ""
          · simp [hF] at h
          · simp only [hF, if_false] at h ⊢
            exact ih F c2 h

/-- C2 as stated fails: in a store where class `a` falls back to `aa`, `aa` to
`aaa`, and so on, and only the 101st class defines "Color", the lookup from `aa`
finds the value in its 100th iteration while the lookup from `a` ends in the
infinite-recursion failure. -/
theorem GetMetricRawRecursive_fallback_outcome_differs :
    (stClassChain 100).iniMetrics.GetValue envEmpty.forms (longName 0) "Color" = none
      ∧ GetClassFallback envEmpty (stClassChain 100) (longName 0) = .ok (longName 1)
      ∧ GetMetricRawRecursive envEmpty (stClassChain 100) (stClassChain 100).iniMetrics
          (longName 1) "Color" = .ok (some "red")
      ∧ GetMetricRawRecursive envEmpty (stClassChain 100) (stClassChain 100).iniMetrics
          (longName 0) "Color" = .error (.infiniteRecursionMetric (longName 100) "Color") := by
  decide!

/-- C2, amended: for a key other than "Fallback", a class whose section of the store
does not define the key and whose Fallback evaluates to a non-empty class F:
`GetMetricRawRecursive(class, key)` has the outcome of `GetMetricRawRecursive(F, key)`
whenever it does not end in the infinite-recursion failure, and it ends in that
failure whenever the lookup from F does.  (The lookup from the class has 99
iterations left for F, the lookup from F has 100.) -/
theorem GetMetricRawRecursive_follows_fallback (env : Env) (st : ThemeManager) (ini : IniFile)
    (sClassName sValueName F : String) (hkey : sValueName ≠ "Fallback")
    (hmiss : ini.GetValue env.forms sClassName sValueName = none)
    (hF : GetClassFallback env st sClassName = .ok F) (hne : F ≠ "") :
    ((∀ c, GetMetricRawRecursive env st ini sClassName sValueName
          ≠ .error (.infiniteRecursionMetric c sValueName)) →
        GetMetricRawRecursive env st ini sClassName sValueName
          = GetMetricRawRecursive env st ini F sValueName)
      ∧ (∀ c, GetMetricRawRecursive env st ini F sValueName
            = .error (.infiniteRecursionMetric c sValueName) →
          ∃ c', GetMetricRawRecursive env st ini sClassName sValueName
            = .error (.infiniteRecursionMetric c' sValueName)) := by
  unfold GetMetricRawRecursive GetMetricRawRecursive.guarded
  by_cases hv : sValueName = ""
  · simp [hv]
  · by_cases hd : st.g_pLoadedThemeData.isNone = true
    · simp [hv, hd]
    · simp only [hv, hd, if_false]
      rw [GetMetricRawRecursive.loop_step _ ini _ sValueName sClassName F 99 hkey hmiss hF hne]
      constructor
      · intro hnot
        exact (GetMetricRawRecursive.loop_mono _ ini _ sValueName 99 F _ rfl hnot).symm
      · intro c hc
        exact GetMetricRawRecursive.loop_pred _ ini _ sValueName 99 F c hc

theorem GetMetricRawRecursive_follows_fallback_witness :
    (stClassChain 3).iniMetrics.GetValue envEmpty.forms (longName 0) "Color" = none
      ∧ GetClassFallback envEmpty (stClassChain 3) (longName 0) = .ok (longName 1)
      ∧ GetMetricRawRecursive envEmpty (stClassChain 3) (stClassChain 3).iniMetrics
          (longName 0) "Color" = .ok (some "red")
      ∧ GetMetricRawRecursive envEmpty (stClassChain 3) (stClassChain 3).iniMetrics
          (longName 0) "Color"
        = GetMetricRawRecursive envEmpty (stClassChain 3) (stClassChain 3).iniMetrics
          (longName 1) "Color" :=
  ⟨by decide!, by decide!, by decide!,
    (GetMetricRawRecursive_follows_fallback envEmpty (stClassChain 3)
      (stClassChain 3).iniMetrics (longName 0) "Color" (longName 1) (by decide!) (by decide!)
      (by decide!) (by decide!)).1
      (fun c hc => by
        rw [show GetMetricRawRecursive envEmpty (stClassChain 3) (stClassChain 3).iniMetrics
          (longName 0) "Color" = .ok (some "red") from by decide!] at hc
        cases hc)⟩

/-- With fallbacks that never end and never define the key, `n` iterations use `n`
class-fallback hops and then fail. -/
theorem GetMetricRawRecursive.loop_endless (nf : NameForms) (ini : IniFile)
    (gcf : String → Except Failure String) (sValueName : String) (seq : Nat → String)
    (hkey : sValueName ≠ "Fallback")
    (hstep : ∀ i, gcf (seq i) = .ok (seq (i + 1)))
    (hne : ∀ i, seq (i + 1) ≠ "")
    (hmiss : ∀ i, ini.GetValue nf (seq i) sValueName = none) :
    ∀ n i, GetMetricRawRecursive.loop nf ini gcf sValueName n (seq i)
      = .error (.infiniteRecursionMetric (seq (i + n)) sValueName) := by
  intro n
  induction n with
  | zero => intro i; rfl
  | succ n ih =>
    intro i
    rw [GetMetricRawRecursive.loop_step _ ini gcf sValueName (seq i) (seq (i + 1)) n hkey
      (hmiss i) (hstep i) (hne (i)), ih (i + 1)]
    rw [show i + 1 + n = i + (n + 1) by omega]

/-- C9: when the class-fallback sequence `seq` that starts at the class never ends
(every class in it declares a non-empty Fallback) and no class in it defines the
key (a non-empty key other than "Fallback"), `GetMetricRawRecursive` ends in the
infinite-recursion failure, reported for the class reached after 100 hops; it
neither reports not-found nor runs on. -/
theorem GetMetricRawRecursive_endless_fallback_fails (env : Env) (st : ThemeManager)
    (ini : IniFile) (sValueName : String) (seq : Nat → String)
    (hkey : sValueName ≠ "Fallback") (hkey' : sValueName ≠ "")
    (hstep : ∀ i, GetClassFallback env st (seq i) = .ok (seq (i + 1)))
    (hne : ∀ i, seq (i + 1) ≠ "")
    (hmiss : ∀ i, ini.GetValue env.forms (seq i) sValueName = none) :
    GetMetricRawRecursive env st ini (seq 0) sValueName
      = .error (.infiniteRecursionMetric (seq 100) sValueName) := by
  have hd : st.g_pLoadedThemeData.isNone = false := by
    have h0 := hstep 0
    rw [GetClassFallback_eq] at h0
    by_contra hc
    simp only [Bool.not_eq_false] at hc
    simp [hc] at h0
  unfold GetMetricRawRecursive GetMetricRawRecursive.guarded
  simp only [hkey', hd, if_false, Bool.false_eq_true]
  rw [GetMetricRawRecursive.loop_endless _ ini _ sValueName seq hkey hstep hne hmiss 100 0]

theorem GetMetricRawRecursive_endless_fallback_fails_witness :
    GetMetricRawRecursive envEmpty stTwoClasses stTwoClasses.iniMetrics "A" "Color"
      = .error (.infiniteRecursionMetric "A" "Color") :=
  GetMetricRawRecursive_endless_fallback_fails envEmpty stTwoClasses stTwoClasses.iniMetrics
    "Color" (fun i => if i % 2 = 0 then "A" else "B") (by decide) (by decide)
    (fun i => by
      beta_reduce
      rcases Nat.mod_two_eq_zero_or_one i with h | h
      · rw [if_pos h, if_neg (show ¬ (i + 1) % 2 = 0 by omega)]; decide!
      · rw [if_neg (show ¬ i % 2 = 0 by omega), if_pos (show (i + 1) % 2 = 0 by omega)]; decide!)
    (fun i => by
      beta_reduce
      rcases Nat.mod_two_eq_zero_or_one (i + 1) with h | h
      · rw [if_pos h]; decide
      · rw [if_neg (show ¬ (i + 1) % 2 = 0 by omega)]; decide)
    (fun i => by
      beta_reduce
      rcases Nat.mod_two_eq_zero_or_one i with h | h
      · rw [if_pos h]; decide!
      · rw [if_neg (show ¬ i % 2 = 0 by omega)]; decide!)



/-! ## The path cache -/

theorem PathMap.find_set_self (a : PathMap) (k v : String) :
    PathMap.find (PathMap.set a k v) k = some v := by
  induction a with
  | nil => simp [PathMap.set, PathMap.find]
  | cons kv rest ih =>
    obtain ⟨k', v'⟩ := kv
    by_cases h : k' = k <;> simp [PathMap.set, PathMap.find, h, ih]

theorem ThemePathCache.get_put_self (c : ThemePathCache) (category : ElementCategory)
    (m : PathMap) : (c.put category m).get category = m := by
  cases category <;> rfl

theorem cacheStore_find (st : ThemeManager) (category : ElementCategory)
    (sFileName sPath : String) :
    ((cacheStore st category sFileName sPath).g_ThemePathCache.get category).find sFileName
      = some sPath := by
  simp [cacheStore, ThemePathCache.get_put_self, PathMap.find_set_self]

/-- Whatever `GetPath` returns after a search is in the cache of the category,
under the key of the request. -/
theorem GetPath.search_caches (env : Env) :
    ∀ (fuel : Nat) (category : ElementCategory) (sClassName sElement : String)
      (bOptional : Bool) (st st' : ThemeManager) (sPath : String),
      GetPath.search env fuel category sClassName sElement bOptional st = .ok sPath st' →
      (st'.g_ThemePathCache.get category).find (ClassAndElementToFileName sClassName sElement)
        = some sPath := by
  intro fuel
  induction fuel with
  | zero => intro category c e o st st' p h; simp [GetPath.search] at h
  | succ fuel ih =>
    intro category c e o st st' p h
    rw [GetPath.search] at h
    simp only at h
    split at h
    · simp at h
    · rename_i ret st1 _
      split at h
      · simp only [Result.ok.injEq] at h
        obtain ⟨h1, h2⟩ := h
        rw [← h2, ← h1]
        exact cacheStore_find _ _ _ _
      · split at h
        · simp only [Result.ok.injEq] at h
          obtain ⟨h1, h2⟩ := h
          rw [← h2, ← h1]
          exact cacheStore_find _ _ _ _
        · split at h
          · split at h
            · simp at h
            · exact ih _ _ _ _ _ _ _ h
          · split at h
            · simp at h
            · split at h
              · simp at h
              · simp only [Result.ok.injEq] at h
                obtain ⟨h1, h2⟩ := h
                rw [← h2, ← h1]
                exact cacheStore_find _ _ _ _
          · simp at h

/-- C4: if a `GetPath` call returns normally, a `GetPath` call with the same
arguments made right after it (in the state the first call left) returns the
identical path from the cache of the category and leaves the state as it is: no
directory is listed and no dialog is asked, whatever budget the second call has. -/
theorem GetPath_idempotent (env : Env) (fuel fuel' : Nat) (category : ElementCategory)
    (sClassName sElement : String) (bOptional : Bool) (st st' : ThemeManager) (sPath : String)
    (h : GetPath env fuel category sClassName sElement bOptional st = .ok sPath st') :
    GetPath env fuel' category sClassName sElement bOptional st' = .ok sPath st' := by
  have hc : (st'.g_ThemePathCache.get category).find
      (ClassAndElementToFileName sClassName sElement) = some sPath := by
    unfold GetPath GetPath.cached at h
    cases hf : (st.g_ThemePathCache.get category).find
        (ClassAndElementToFileName sClassName sElement) with
    | some v =>
      simp only [hf, Result.ok.injEq] at h
      rw [← h.2, ← h.1]; exact hf
    | none =>
      simp only [hf] at h
      exact GetPath.search_caches env fuel category sClassName sElement bOptional st st' sPath h
  unfold GetPath GetPath.cached
  simp only [hc]

theorem GetPath_idempotent_witness :
    GetPath envHello 2 .EC_FONTS "" "foo" false stHello
        = .ok "/Themes/F/Fonts/Hello.ini"
            (GetPath envHello 2 .EC_FONTS "" "foo" false stHello).state
      ∧ (GetPath envHello 2 .EC_FONTS "" "foo" false stHello).state.nDirListings = 3
      ∧ GetPath envHello 0 .EC_FONTS "" "foo" false
          (GetPath envHello 2 .EC_FONTS "" "foo" false stHello).state
        = .ok "/Themes/F/Fonts/Hello.ini"
            (GetPath envHello 2 .EC_FONTS "" "foo" false stHello).state :=
  ⟨by decide!, by decide!,
    GetPath_idempotent envHello 2 0 .EC_FONTS "" "foo" false stHello
      (GetPath envHello 2 .EC_FONTS "" "foo" false stHello).state
      "/Themes/F/Fonts/Hello.ini" (by decide!)⟩



/-! ## Switching to the active theme -/

/-- C5 as stated fails: in the state the constructor leaves (no theme loaded, the
active name and language empty), a switch to the active triple loads the default
theme and reads the subscribers. -/
theorem SwitchThemeAndLanguage_same_triple_loads :
    (SwitchThemeAndLanguage envPlain ThemeManager.init.m_sCurThemeName
        ThemeManager.init.m_sCurLanguage ThemeManager.init.m_bPseudoLocalize
        ThemeManager.init).isOk = true
      ∧ ThemeManager.init.chain = []
      ∧ (SwitchThemeAndLanguage envPlain ThemeManager.init.m_sCurThemeName
          ThemeManager.init.m_sCurLanguage ThemeManager.init.m_bPseudoLocalize
          ThemeManager.init).state.chain = ["default"]
      ∧ ThemeManager.init.nSubscriberReads = 0
      ∧ (SwitchThemeAndLanguage envPlain ThemeManager.init.m_sCurThemeName
          ThemeManager.init.m_sCurLanguage ThemeManager.init.m_bPseudoLocalize
          ThemeManager.init).state.nSubscriberReads = 2 := by
  decide!

/-- C5, amended: in a session whose active theme is selectable and whose active
language is non-empty (or the platform's preferred language is empty as well),
`SwitchThemeAndLanguage` called with the active theme name, language and
pseudo-localize flag returns with the chain, both stores, every path cache, the
flag and the subscriber and dialog counts as before; the only trace is the three
listings of the themes directory made by `IsThemeSelectable`. -/
theorem SwitchThemeAndLanguage_same_triple_noop (env : Env) (st : ThemeManager)
    (hsel : IsThemeSelectable env st.m_sCurThemeName = true)
    (hlang : st.m_sCurLanguage = "" → env.GetPreferredLanguage = "") :
    SwitchThemeAndLanguage env st.m_sCurThemeName st.m_sCurLanguage st.m_bPseudoLocalize st
      = .ok () { st with nDirListings := st.nDirListings + 3 } := by
  unfold SwitchThemeAndLanguage
  simp only [hsel, Bool.not_true, Bool.false_eq_true, if_false]
  by_cases hl : st.m_sCurLanguage = ""
  · simp [hl, hlang hl]
  · simp [hl]

theorem SwitchThemeAndLanguage_same_triple_noop_witness :
    stSwitched.chain = ["A", "default"]
      ∧ stSwitched.m_sCurLanguage = "english"
      ∧ IsThemeSelectable envPlain stSwitched.m_sCurThemeName = true
      ∧ SwitchThemeAndLanguage envPlain stSwitched.m_sCurThemeName stSwitched.m_sCurLanguage
          stSwitched.m_bPseudoLocalize stSwitched
        = .ok () { stSwitched with nDirListings := stSwitched.nDirListings + 3 } :=
  ⟨by decide!, by decide!, by decide!,
    SwitchThemeAndLanguage_same_triple_noop envPlain stSwitched (by decide!)
      (fun h => absurd h (by decide!))⟩

/-! ## Redirects -/

/-- C10: when the first candidate of a raw search (the only one, or the first one
after Ignore on an ambiguous match) is a redirect file whose content splits into
class c and element e, and the optional `GetPath( category, c, e )` made from
there returns a non-empty path, `GetPathToRaw` returns that path and state. -/
theorem GetPathToRaw_follows_redirect (env : Env) (GetPath : GetPathFn) (fuel : Nat)
    (sThemeName : String) (category : ElementCategory) (sClassName sElement : String)
    (st st' : ThemeManager) (sPath : String) (rest : List String) (c e sNewPath : String)
    (hcand : FilterFileLanguages env st.m_sCurLanguage
      (elementPaths env sThemeName category sClassName sElement) = sPath :: rest)
    (hignore : rest ≠ [] → env.AbortRetryIgnore st.nDialogs
      (ambiguousMessage sThemeName (ElementCategoryToString category)
        (ClassAndElementToFileName sClassName sElement)) = .ignore)
    (hredir : EqualsNoCase (env.GetExtension sPath) "redir" = true)
    (hsplit : FileNameToClassAndElement env.sizeBits (env.GetFileContents sPath) = (c, e))
    (hget : GetPath category c e true (GetPathToRaw.searched st category (!rest.isEmpty))
      = .ok sNewPath st')
    (hne : sNewPath ≠ "") :
    GetPathToRaw env GetPath (fuel + 1) sThemeName category sClassName sElement st
      = .ok sNewPath st' := by
  have hnonempty : (elementPaths env sThemeName category sClassName sElement).length ≠ 0 := by
    intro h0
    have hnil : elementPaths env sThemeName category sClassName sElement = [] :=
      List.length_eq_zero.mp h0
    rw [hnil] at hcand
    simp [FilterFileLanguages] at hcand
  rw [GetPathToRaw]
  simp only [hnonempty, if_false, hcand, List.headD_cons]
  cases rest with
  | nil =>
    simp only [List.length_singleton, gt_iff_lt, Nat.lt_irrefl, if_false]
    simp only [GetPathToRaw.searched, List.isEmpty_nil, Bool.not_true, Bool.false_eq_true,
      if_false] at hget
    simp [GetPathToRaw.redirect, hredir, hsplit, hget, hne]
  | cons x xs =>
    have hlen : (sPath :: x :: xs).length > 1 := by simp
    simp only [hlen, if_true, hignore (by simp)]
    simp only [GetPathToRaw.searched, List.isEmpty_cons, Bool.not_false, if_true] at hget
    simp [GetPathToRaw.redirect, hredir, hsplit, hget, hne]

theorem GetPathToRaw_follows_redirect_witness :
    stHello.chain = ["D", "F"]
      ∧ envHello.GetFileContents "/Themes/D/Fonts/foo.redir" = "Hello"
      ∧ elementPaths envHello "D" .EC_FONTS "" "Hello" = []
      ∧ elementPaths envHello "F" .EC_FONTS "" "Hello" = ["/Themes/F/Fonts/Hello.ini"]
      ∧ (∃ st, GetPath envHello 2 .EC_FONTS "" "foo" false stHello
          = .ok "/Themes/F/Fonts/Hello.ini" st)
      ∧ GetPathToRaw envHello (GetPath envHello 1) 1 "D" .EC_FONTS "" "foo" stHello
          = .ok "/Themes/F/Fonts/Hello.ini"
              (GetPath envHello 1 .EC_FONTS "" "Hello" true
                (GetPathToRaw.searched stHello .EC_FONTS false)).state :=
  ⟨by decide!, by decide!, by decide!, by decide!,
    ⟨(GetPath envHello 2 .EC_FONTS "" "foo" false stHello).state, by decide!⟩,
    GetPathToRaw_follows_redirect envHello (GetPath envHello 1) 0 "D" .EC_FONTS "" "foo"
      stHello _ "/Themes/D/Fonts/foo.redir" [] "" "Hello" "/Themes/F/Fonts/Hello.ini"
      (by decide!) (fun h => absurd rfl h) (by decide!) (by decide!) (by decide!) (by decide)⟩



/-! ## The order of the path search -/

theorem ThemeManager.sameThemes_refl (s : ThemeManager) : s.sameThemes s := ⟨rfl, rfl⟩

theorem ThemeManager.sameThemes_trans {a b c : ThemeManager} (h1 : a.sameThemes b)
    (h2 : b.sameThemes c) : a.sameThemes c :=
  ⟨h2.1.trans h1.1, h2.2.trans h1.2⟩

theorem cacheStore_sameThemes (st : ThemeManager) (category : ElementCategory)
    (k v : String) : st.sameThemes (cacheStore st category k v) := ⟨rfl, rfl⟩

theorem GetClassFallback_congr (env : Env) (s s' : ThemeManager)
    (h : s'.g_pLoadedThemeData = s.g_pLoadedThemeData) (sClassName : String) :
    GetClassFallback env s' sClassName = GetClassFallback env s sClassName := by
  rw [GetClassFallback_eq, GetClassFallback_eq]
  simp only [ThemeManager.iniMetrics, h]

theorem classSequence_congr (env : Env) (s s' : ThemeManager)
    (h : s'.g_pLoadedThemeData = s.g_pLoadedThemeData) :
    ∀ (n : Nat) (sClassName : String),
      classSequence env s' n sClassName = classSequence env s n sClassName := by
  intro n
  induction n with
  | zero => intro c; rfl
  | succ n ih =>
    intro c
    simp only [classSequence, GetClassFallback_congr env s s' h, ih]

theorem GetPathToAndFallback.themes_keeps (raw : String → ThemeManager → Result String)
    (hraw : ∀ t, KeepsThemes (raw t)) (themes : List Theme) :
    KeepsThemes (GetPathToAndFallback.themes raw themes) := by
  induction themes with
  | nil =>
    intro s r s' h
    simp only [GetPathToAndFallback.themes, Result.ok.injEq] at h
    rw [← h.2]; exact ThemeManager.sameThemes_refl s
  | cons t rest ih =>
    intro s r s' h
    rw [GetPathToAndFallback.themes] at h
    split at h
    · simp at h
    · rename_i sRet s1 hr
      have h1 := hraw _ _ _ _ hr
      split at h
      · simp only [Result.ok.injEq] at h
        rw [← h.2]; exact h1
      · exact ThemeManager.sameThemes_trans h1 (ih _ _ _ h)

theorem GetPathToAndFallback.loop_keeps (env : Env)
    (raw : String → ElementCategory → String → String → ThemeManager → Result String)
    (category : ElementCategory) (sElement : String)
    (hraw : ∀ t c, KeepsThemes (raw t category c sElement)) :
    ∀ (n : Nat) (sClassName : String),
      KeepsThemes (GetPathToAndFallback.loop env raw category sElement n sClassName) := by
  intro n
  induction n with
  | zero => intro c s r s' h; simp [GetPathToAndFallback.loop] at h
  | succ n ih =>
    intro c s r s' h
    rw [GetPathToAndFallback.loop] at h
    split at h
    · simp at h
    · rename_i sRet s1 hr
      have h1 := GetPathToAndFallback.themes_keeps _ (fun t => hraw t c) _ _ _ _ hr
      split at h
      · simp only [Result.ok.injEq] at h
        rw [← h.2]; exact h1
      · split at h
        · simp only [Result.ok.injEq] at h
          rw [← h.2]; exact h1
        · split at h
          · simp at h
          · split at h
            · simp only [Result.ok.injEq] at h
              rw [← h.2]; exact h1
            · exact ThemeManager.sameThemes_trans h1 (ih _ _ _ _ h)

theorem GetPathToRaw.redirect_keeps (env : Env) (GetPath : GetPathFn)
    (again : ThemeManager → Result String) (category : ElementCategory) (sPath : String)
    (hno : NoRetry env) (hgp : ∀ c cls el o, KeepsThemes (GetPath c cls el o)) :
    KeepsThemes (GetPathToRaw.redirect env GetPath again category sPath) := by
  intro s r s' h
  unfold GetPathToRaw.redirect at h
  simp only at h
  split at h
  · simp only [Result.ok.injEq] at h
    rw [← h.2]; exact ThemeManager.sameThemes_refl s
  · split at h
    · simp at h
    · rename_i sNewPath s1 hr
      have h1 := hgp _ _ _ _ _ _ _ hr
      split at h
      · simp only [Result.ok.injEq] at h
        rw [← h.2]; exact h1
      · split at h
        · rename_i hans
          exact absurd hans (hno.1 _ _)
        · have h2 := hgp _ _ _ _ _ _ _ h
          exact ThemeManager.sameThemes_trans h1 ⟨h2.1, h2.2⟩
        · simp at h

/-- As long as no dialog is answered with Retry, a raw search leaves the chain and
the stores as they were. -/
theorem GetPathToRaw_keeps (env : Env) (GetPath : GetPathFn) (hno : NoRetry env)
    (hgp : ∀ c cls el o, KeepsThemes (GetPath c cls el o)) (fuel : Nat)
    (sThemeName : String) (category : ElementCategory) (sClassName sElement : String) :
    KeepsThemes (GetPathToRaw env GetPath fuel sThemeName category sClassName sElement) := by
  intro s r s' h
  cases fuel with
  | zero => simp [GetPathToRaw] at h
  | succ fuel =>
    rw [GetPathToRaw] at h
    simp only at h
    split at h
    · simp only [Result.ok.injEq] at h
      rw [← h.2]; exact ⟨rfl, rfl⟩
    · split at h
      · split at h
        · simp at h
        · rename_i hans
          exact absurd hans (hno.1 _ _)
        · have h2 := GetPathToRaw.redirect_keeps env GetPath _ category _ hno hgp _ _ _ h
          exact ⟨h2.1, h2.2⟩
      · have h2 := GetPathToRaw.redirect_keeps env GetPath _ category _ hno hgp _ _ _ h
        exact ⟨h2.1, h2.2⟩

theorem GetPath.cached_keeps (search : GetPathFn)
    (hs : ∀ c cls el o, KeepsThemes (search c cls el o)) :
    ∀ c cls el o, KeepsThemes (GetPath.cached search c cls el o) := by
  intro c cls el o s r s' h
  unfold GetPath.cached at h
  split at h
  · simp only [Result.ok.injEq] at h
    rw [← h.2]; exact ThemeManager.sameThemes_refl s
  · exact hs _ _ _ _ _ _ _ h

theorem GetPath.search_keeps (env : Env) (hno : NoRetry env) :
    ∀ (fuel : Nat) c cls el o, KeepsThemes (GetPath.search env fuel c cls el o) := by
  intro fuel
  induction fuel with
  | zero => intro c cls el o s r s' h; simp [GetPath.search] at h
  | succ fuel ih =>
    intro c cls el o s r s' h
    have hgp := GetPath.cached_keeps (GetPath.search env fuel) ih
    rw [GetPath.search] at h
    simp only at h
    split at h
    · simp at h
    · rename_i ret s1 hr
      have h1 : s.sameThemes s1 :=
        GetPathToAndFallback.loop_keeps env _ c el
          (fun t c' => GetPathToRaw_keeps env _ hno hgp (fuel + 1) t c c' el) 100 cls _ _ _ hr
      split at h
      · simp only [Result.ok.injEq] at h
        rw [← h.2]
        exact ThemeManager.sameThemes_trans h1 (cacheStore_sameThemes _ _ _ _)
      · split at h
        · simp only [Result.ok.injEq] at h
          rw [← h.2]
          exact ThemeManager.sameThemes_trans h1 (cacheStore_sameThemes _ _ _ _)
        · split at h
          · rename_i hans
            exfalso
            by_cases hc : c ≠ ElementCategory.EC_OTHER
            · simp only [hc, ne_eq, not_false_eq_true, if_true] at hans
              exact hno.1 _ _ hans
            · simp only [hc, if_false] at hans
              exact hno.2 _ _ hans
          · split at h
            · simp at h
            · split at h
              · simp at h
              · rename_i sMissing s3 hm
                have h2 := hgp _ _ _ _ _ _ _ hm
                simp only [Result.ok.injEq] at h
                rw [← h.2]
                exact ThemeManager.sameThemes_trans h1
                  (ThemeManager.sameThemes_trans ⟨h2.1, h2.2⟩ (cacheStore_sameThemes _ _ _ _))
          · simp at h

/-- As long as no dialog is answered with Retry, `GetPath` leaves the chain and the
stores as they were. -/
theorem GetPath_keeps (env : Env) (hno : NoRetry env) (fuel : Nat) :
    ∀ c cls el o, KeepsThemes (GetPath env fuel c cls el o) :=
  GetPath.cached_keeps _ (GetPath.search_keeps env hno fuel)



theorem firstNonEmpty_append (raw : String → String → ThemeManager → Result String)
    (a b : List (String × String)) (st : ThemeManager) :
    firstNonEmpty raw (a ++ b) st
      = match firstNonEmpty raw a st with
        | .fail e s => .fail e s
        | .ok sRet s => if sRet ≠ "" then .ok sRet s else firstNonEmpty raw b s := by
  induction a generalizing st with
  | nil => simp [firstNonEmpty]
  | cons ct rest ih =>
    obtain ⟨c, t⟩ := ct
    simp only [List.cons_append, firstNonEmpty]
    cases hr : raw t c st with
    | fail e s => rfl
    | ok sRet s =>
      by_cases hne : sRet ≠ ""
      · simp [hne]
      · simp only [hne, if_false]
        exact ih s

theorem firstNonEmpty_themes (raw : String → String → ThemeManager → Result String)
    (sClassName : String) (themes : List Theme) (st : ThemeManager) :
    firstNonEmpty raw (themes.map (fun t => (sClassName, t.sThemeName))) st
      = GetPathToAndFallback.themes (fun sThemeName => raw sThemeName sClassName) themes st := by
  induction themes generalizing st with
  | nil => rfl
  | cons t rest ih =>
    simp only [List.map_cons, firstNonEmpty, GetPathToAndFallback.themes]
    cases hr : raw t.sThemeName sClassName st with
    | fail e s => rfl
    | ok sRet s =>
      by_cases hne : sRet ≠ ""
      · simp [hne]
      · simp only [hne, if_false]
        exact ih s

theorem classSequence_succ_ne_nil (env : Env) (st : ThemeManager) (n : Nat) (c : String) :
    classSequence env st (n + 1) c ≠ [] := by
  simp [classSequence]

theorem classSequence_one (env : Env) (st : ThemeManager) (c : String) :
    classSequence env st 1 c = [c] := by
  unfold classSequence
  by_cases hc : c = ""
  · simp [hc]
  · cases hg : GetClassFallback env st c with
    | error e => simp [hc]
    | ok f => by_cases hf : f = "" <;> simp [hc, hf, classSequence]

/-- The loop of `GetPathToAndFallback` with `n` iterations left is the search in
the flat order over the first `n` classes. -/
theorem GetPathToAndFallback.loop_eq (env : Env)
    (raw : String → ElementCategory → String → String → ThemeManager → Result String)
    (category : ElementCategory) (sElement : String)
    (hraw : ∀ t c, KeepsThemes (raw t category c sElement)) :
    ∀ (n : Nat) (sClassName : String) (st : ThemeManager),
      st.g_pLoadedThemeData.isSome = true →
      GetPathToAndFallback.loop env raw category sElement n sClassName st
        = boundedSearch env st n sClassName sElement
            (firstNonEmpty (fun t c => raw t category c sElement)
              (searchOrder (classSequence env st n sClassName) st.g_vThemes) st) := by
  intro n
  induction n with
  | zero =>
    intro c st _
    have h0 : classSequence env st 0 c = [] := rfl
    have h1 : classSequence env st (0 + 1) c = [c] := classSequence_one env st c
    rw [h0]
    simp only [GetPathToAndFallback.loop, boundedSearch, h1, searchOrder, firstNonEmpty]
    simp [List.getLastD]
  | succ n ih =>
    intro c st hdata
    have hgcf : ∃ f, GetClassFallback env st c = .ok f := by
      rw [GetClassFallback_eq]
      have : st.g_pLoadedThemeData.isNone = false := by
        cases hd : st.g_pLoadedThemeData <;> simp [hd] at hdata ⊢
      simp [this]
    obtain ⟨f, hf⟩ := hgcf
    rw [GetPathToAndFallback.loop]
    have hseq : classSequence env st (n + 1) c
        = c :: (if c = "" then [] else if f = "" then [] else classSequence env st n f) := by
      simp [classSequence, hf]
    have hseq2 : classSequence env st (n + 1 + 1) c
        = c :: (if c = "" then [] else if f = "" then []
            else classSequence env st (n + 1) f) := by
      simp [classSequence, hf]
    rw [hseq, searchOrder, firstNonEmpty_append, firstNonEmpty_themes]
    cases hr : GetPathToAndFallback.themes (fun sThemeName => raw sThemeName category c sElement)
        st.g_vThemes st with
    | fail e s => simp [boundedSearch]
    | ok sRet s =>
      have hkeep : st.sameThemes s :=
        GetPathToAndFallback.themes_keeps _ (fun t => hraw t c) _ _ _ _ hr
      by_cases hne : sRet ≠ ""
      · simp [hne, boundedSearch]
      · simp only [hne, if_false]
        have hempty : sRet = "" := by simpa using hne
        subst hempty
        by_cases hc : c = ""
        · simp [hc, searchOrder, firstNonEmpty, boundedSearch, classSequence]
        · simp only [hc, if_false]
          rw [GetClassFallback_congr env st s hkeep.2, hf]
          by_cases hfe : f = ""
          · simp [hfe, searchOrder, firstNonEmpty, boundedSearch, classSequence, hc, hf]
          · simp only [hfe, if_false]
            have hdata' : s.g_pLoadedThemeData.isSome = true := by rw [hkeep.2]; exact hdata
            rw [ih f s hdata', hkeep.1]
            simp only [boundedSearch, classSequence_congr env st s hkeep.2, hseq2, hc, hfe,
              if_false, List.length_cons, Nat.add_right_cancel_iff]
            have hlast : (c :: classSequence env st (n + 1) f).getLastD ""
                = (classSequence env st (n + 1) f).getLastD "" := by
              cases hcs : classSequence env st (n + 1) f with
              | nil => exact absurd hcs (classSequence_succ_ne_nil env st n f)
              | cons x xs => simp [List.getLastD]
            rw [hlast]

/-- C3 as stated fails: with 101 classes in the fallback sequence and a file for the
101st class only, the first non-empty raw result in the stated order is that file,
but `GetPathToAndFallback` has given up after 100 classes and fails. -/
theorem GetPathToAndFallback_gives_up_after_100_classes :
    (firstNonEmpty
        (fun t c => GetPathToRaw envIcon (GetPath envIcon 1) 1 t .EC_GRAPHICS c "icon")
        (searchOrder (classSequence envIcon (stClassChain 100) 101 (longName 0))
          (stClassChain 100).g_vThemes)
        (stClassChain 100)).value
        = some ("/Themes/T/Graphics/" ++ longName 100 ++ " icon.png")
      ∧ (GetPathToAndFallback envIcon (GetPathToRaw envIcon (GetPath envIcon 1) 1)
          .EC_GRAPHICS (longName 0) "icon" (stClassChain 100)).failure
        = some (.infiniteRecursionElement (longName 100 ++ " icon")) := by
  decide!



/-- C3, amended: with a theme loaded and raw searches that leave the chain and the
stores as they were (as `GetPathToRaw` does while no dialog is answered with
Retry), `GetPathToAndFallback` searches in the order: requested class against
every theme of the chain from most-derived to deepest fallback, then the
fallback class against every theme, and so on, over the first 100 classes of the
class-fallback sequence.  It returns the first non-empty raw result in that
order; when there is none it returns the empty string if the sequence has ended
(the class is empty or has no fallback) and fails with the infinite-recursion
error if a 101st class exists; a failure of a raw search is passed on. -/
theorem GetPathToAndFallback_search_order (env : Env)
    (raw : String → ElementCategory → String → String → ThemeManager → Result String)
    (category : ElementCategory) (sClassName sElement : String) (st : ThemeManager)
    (hdata : st.g_pLoadedThemeData.isSome = true)
    (hraw : ∀ t c, KeepsThemes (raw t category c sElement)) :
    (∀ sPath s, sPath ≠ "" →
        firstNonEmpty (fun t c => raw t category c sElement)
          (searchOrder (classSequence env st 100 sClassName) st.g_vThemes) st = .ok sPath s →
        GetPathToAndFallback env raw category sClassName sElement st = .ok sPath s)
      ∧ (∀ s, firstNonEmpty (fun t c => raw t category c sElement)
          (searchOrder (classSequence env st 100 sClassName) st.g_vThemes) st = .ok "" s →
        (classSequence env st 101 sClassName).length ≤ 100 →
        GetPathToAndFallback env raw category sClassName sElement st = .ok "" s)
      ∧ (∀ s, firstNonEmpty (fun t c => raw t category c sElement)
          (searchOrder (classSequence env st 100 sClassName) st.g_vThemes) st = .ok "" s →
        (classSequence env st 101 sClassName).length = 101 →
        GetPathToAndFallback env raw category sClassName sElement st
          = .fail (.infiniteRecursionElement (ClassAndElementToFileName
              ((classSequence env st 101 sClassName).getLastD "") sElement)) s)
      ∧ (∀ e s, firstNonEmpty (fun t c => raw t category c sElement)
          (searchOrder (classSequence env st 100 sClassName) st.g_vThemes) st = .fail e s →
        GetPathToAndFallback env raw category sClassName sElement st = .fail e s) := by
  have heq := GetPathToAndFallback.loop_eq env raw category sElement hraw 100 sClassName st hdata
  unfold GetPathToAndFallback
  rw [heq]
  refine ⟨?_, ?_, ?_, ?_⟩
  · intro sPath s hne h
    rw [h]; simp [boundedSearch, hne]
  · intro s h hlen
    have hlen' : ¬ (classSequence env st (100 + 1) sClassName).length = 100 + 1 := by
      intro h'
      have h'' : (classSequence env st 101 sClassName).length = 101 := h'
      omega
    rw [h]; simp only [boundedSearch, ne_eq, not_true_eq_false, if_false, hlen']
  · intro s h hlen
    have hlen' : (classSequence env st (100 + 1) sClassName).length = 100 + 1 := hlen
    rw [h]; simp only [boundedSearch, ne_eq, not_true_eq_false, if_false, hlen', if_true]
  · intro e s h
    rw [h]; rfl

theorem NoRetry_tableEnv_abort (inis : List (String × IniFile))
    (listings : List (String × List String)) (contents : List (String × String)) :
    NoRetry (tableEnv inis listings contents .abort) :=
  ⟨fun _ _ h => DialogResult.noConfusion h, fun _ _ h => DialogResult.noConfusion h⟩

theorem GetPathToAndFallback_search_order_witness :
    stOrder.chain = ["D", "F"]
      ∧ classSequence envOrder stOrder 100 "C" = ["C", "B"]
      ∧ elementPaths envOrder "D" .EC_GRAPHICS "B" "icon" = ["/Themes/D/Graphics/B icon.png"]
      ∧ elementPaths envOrder "D" .EC_GRAPHICS "C" "icon" = []
      ∧ elementPaths envOrder "F" .EC_GRAPHICS "C" "icon" = ["/Themes/F/Graphics/C icon.png"]
      ∧ GetPathToAndFallback envOrder (GetPathToRaw envOrder (GetPath envOrder 1) 1)
          .EC_GRAPHICS "C" "icon" stOrder
        = .ok "/Themes/F/Graphics/C icon.png"
            (GetPathToAndFallback envOrder (GetPathToRaw envOrder (GetPath envOrder 1) 1)
              .EC_GRAPHICS "C" "icon" stOrder).state
      ∧ GetPathToAndFallback envOrder (GetPathToRaw envOrder (GetPath envOrder 1) 1)
          .EC_GRAPHICS "" "nothing" stOrder
        = .ok ""
            (GetPathToAndFallback envOrder (GetPathToRaw envOrder (GetPath envOrder 1) 1)
              .EC_GRAPHICS "" "nothing" stOrder).state :=
  ⟨by decide!, by decide!, by decide!, by decide!, by decide!,
    (GetPathToAndFallback_search_order envOrder (GetPathToRaw envOrder (GetPath envOrder 1) 1)
      .EC_GRAPHICS "C" "icon" stOrder (by decide!)
      (fun t c => GetPathToRaw_keeps envOrder _ (NoRetry_tableEnv_abort _ _ _)
        (GetPath_keeps envOrder (NoRetry_tableEnv_abort _ _ _) 1) 1 t .EC_GRAPHICS c "icon")).1
      "/Themes/F/Graphics/C icon.png" _ (by decide) (by decide!),
    (GetPathToAndFallback_search_order envOrder (GetPathToRaw envOrder (GetPath envOrder 1) 1)
      .EC_GRAPHICS "" "nothing" stOrder (by decide!)
      (fun t c => GetPathToRaw_keeps envOrder _ (NoRetry_tableEnv_abort _ _ _)
        (GetPath_keeps envOrder (NoRetry_tableEnv_abort _ _ _) 1) 1 t .EC_GRAPHICS c
          "nothing")).2.1 _ (by decide!) (by decide!)⟩



/-! ## The frame of `MergeIniUnder` -/

/-- C13: for a source whose sections bear distinct names and any destination,
`MergeIniUnder` leaves every (section, key) that the destination held with its old
value, gives every (section, key) that the destination lacked and the source holds
the value of the source, and holds no other key. -/
theorem MergeIniUnder_frame (nf : NameForms) (pFrom pTo : IniFile)
    (hwf : (pFrom.map (fun p => nf.sectionForm p.1)).Nodup) (sSection sKey : String) :
    (∀ v, pTo.GetValue nf sSection sKey = some v →
        (MergeIniUnder nf pFrom pTo).GetValue nf sSection sKey = some v)
      ∧ (∀ v, pTo.GetValue nf sSection sKey = none → pFrom.GetValue nf sSection sKey = some v →
        (MergeIniUnder nf pFrom pTo).GetValue nf sSection sKey = some v)
      ∧ (pTo.GetValue nf sSection sKey = none → pFrom.GetValue nf sSection sKey = none →
        (MergeIniUnder nf pFrom pTo).GetValue nf sSection sKey = none) := by
  rw [MergeIniUnder_GetValue nf pFrom pTo hwf]
  refine ⟨?_, ?_, ?_⟩
  · intro v h; simp [h]
  · intro v h1 h2; simp [h1, h2]
  · intro h1 h2; simp [h1, h2]

theorem MergeIniUnder_frame_witness :
    (MergeIniUnder envPlain.forms (themeMetrics envPlain "default") (themeMetrics envPlain "A")).GetValue
        envPlain.forms "Common" "Width" = some "640"
      ∧ (MergeIniUnder envPlain.forms (themeMetrics envPlain "default")
          (themeMetrics envPlain "A")).GetValue envPlain.forms "Common" "Height" = some "240"
      ∧ (MergeIniUnder envPlain.forms (themeMetrics envPlain "default")
          (themeMetrics envPlain "A")).GetValue envPlain.forms "Common" "Depth" = none :=
  ⟨(MergeIniUnder_frame envPlain.forms (themeMetrics envPlain "default")
      (themeMetrics envPlain "A") (by decide!) "Common" "Width").1 "640" (by decide!),
    (MergeIniUnder_frame envPlain.forms (themeMetrics envPlain "default")
      (themeMetrics envPlain "A") (by decide!) "Common" "Height").2.1 "240" (by decide!)
      (by decide!),
    (MergeIniUnder_frame envPlain.forms (themeMetrics envPlain "default")
      (themeMetrics envPlain "A") (by decide!) "Common" "Depth").2.2 (by decide!) (by decide!)⟩

/-! ## The path caches after a rebuild -/

theorem ThemePathCache.get_empty (category : ElementCategory) :
    ThemePathCache.empty.get category = [] := by
  cases category <;> rfl

/-- C14: after a `SwitchThemeAndLanguage` that returns and was not a no-op (the theme,
only the language or only the pseudo-localize flag changing), and after a
`ReloadMetrics` that returns, the path cache of every category is empty. -/
theorem path_caches_empty_after_rebuild (env : Env) (st st' : ThemeManager) :
    (∀ sThemeName_ sLanguage_ bPseudoLocalize,
        SwitchThemeAndLanguage env sThemeName_ sLanguage_ bPseudoLocalize st = .ok () st' →
        SwitchThemeAndLanguage.bNothingChanging env sThemeName_ sLanguage_ bPseudoLocalize st
          = false →
        ∀ category, st'.g_ThemePathCache.get category = [])
      ∧ (ReloadMetrics env st = .ok () st' → ∀ category, st'.g_ThemePathCache.get category = []) := by
  constructor
  · intro a b c h hno category
    unfold SwitchThemeAndLanguage at h
    simp only [SwitchThemeAndLanguage.bNothingChanging, SwitchThemeAndLanguage.sThemeName,
      SwitchThemeAndLanguage.sLanguage, decide_eq_false_iff_not] at hno
    simp only at h
    generalize (if (!IsThemeSelectable env
        (if (!IsThemeSelectable env a) = true then env.defaultTheme else a)) = true
      then env.BASE_THEME_NAME
      else if (!IsThemeSelectable env a) = true then env.defaultTheme else a) = T at h hno
    generalize (if b = "" then env.GetPreferredLanguage else b) = L at h hno
    split at h
    · simp at h
    · split at h
      · simp at h
      · simp only [Result.ok.injEq, true_and] at h
        rw [← h]
        by_cases hc : T = st.m_sCurThemeName <;>
          simp [hc, ClearThemePathCache, ThemePathCache.get_empty]
  · intro h category
    unfold ReloadMetrics at h
    split at h
    · simp at h
    · simp only [Result.ok.injEq, true_and] at h
      rw [← h]
      simp [ClearThemePathCache, ThemePathCache.get_empty]

theorem path_caches_empty_after_rebuild_witness :
    ((cacheStore stSwitched .EC_GRAPHICS "icon" "/Themes/A/Graphics/icon.png").g_ThemePathCache.get
        .EC_GRAPHICS) = [("icon", "/Themes/A/Graphics/icon.png")]
      ∧ SwitchThemeAndLanguage.bNothingChanging envPlain "A" "english" true
          (cacheStore stSwitched .EC_GRAPHICS "icon" "/Themes/A/Graphics/icon.png") = false
      ∧ (∀ category,
          (SwitchThemeAndLanguage envPlain "A" "english" true
            (cacheStore stSwitched .EC_GRAPHICS "icon"
              "/Themes/A/Graphics/icon.png")).state.g_ThemePathCache.get category = [])
      ∧ (∀ category,
          (ReloadMetrics envPlain
            (cacheStore stSwitched .EC_GRAPHICS "icon"
              "/Themes/A/Graphics/icon.png")).state.g_ThemePathCache.get category = []) :=
  ⟨by decide!, by decide!,
    (path_caches_empty_after_rebuild envPlain
      (cacheStore stSwitched .EC_GRAPHICS "icon" "/Themes/A/Graphics/icon.png")
      (SwitchThemeAndLanguage envPlain "A" "english" true
        (cacheStore stSwitched .EC_GRAPHICS "icon" "/Themes/A/Graphics/icon.png")).state).1
      "A" "english" true (by decide!) (by decide!),
    (path_caches_empty_after_rebuild envPlain
      (cacheStore stSwitched .EC_GRAPHICS "icon" "/Themes/A/Graphics/icon.png")
      (ReloadMetrics envPlain
        (cacheStore stSwitched .EC_GRAPHICS "icon" "/Themes/A/Graphics/icon.png")).state).2
      (by decide!)⟩



/-! ## The whitelist of a category -/

/-- C18: for an element name without a dot, the candidates of a theme are the
listed entries that the whitelist of the category accepts (for BGAnimations and
Graphics the ten extensions and the empty extension of a directory, for Fonts
redir and ini, for Sounds redir, mp3, ogg and wav, for Other every entry), each
as often as it is listed and in listing order. -/
theorem elementPaths_whitelist (env : Env) (sThemeName : String) (category : ElementCategory)
    (sClassName sElement : String) (hdot : sElement.data.contains '.' = false) :
    elementPaths env sThemeName category sClassName sElement
      = (env.GetDirListing
          (GetThemeDirFromName env sThemeName ++ ElementCategoryToString category ++ "/"
            ++ ClassAndElementToFileName sClassName sElement ++ "*") false true).filter
          (accepted env category) := by
  unfold elementPaths
  simp only [hdot, Bool.false_eq_true, if_false]
  congr 1
  funext sPath
  cases category <;>
    by_cases hd : env.IsADirectory sPath = true <;>
    simp [masks, maskAccepts, accepted, hd, List.any_cons] <;>
    simp only [Bool.or_assoc]

theorem elementPaths_whitelist_witness :
    elementPaths envHello "D" .EC_FONTS "" "foo" = ["/Themes/D/Fonts/foo.redir"]
      ∧ elementPaths envHello "D" .EC_FONTS "" "foo"
        = (envHello.GetDirListing
            (GetThemeDirFromName envHello "D" ++ ElementCategoryToString .EC_FONTS ++ "/"
              ++ ClassAndElementToFileName "" "foo" ++ "*") false true).filter
            (accepted envHello .EC_FONTS) :=
  ⟨by decide!, elementPaths_whitelist envHello "D" .EC_FONTS "" "foo" (by decide!)⟩

/-! ## The language filter -/

theorem stablePartition_spec : PartitionSpec stablePartition := by
  intro p l
  refine ⟨?_, rfl, ?_, ?_⟩
  · simp only [stablePartition]
    exact List.filter_append_perm p l
  · intro x hx
    simp only [stablePartition] at hx
    rw [List.take_left' rfl] at hx
    exact (List.mem_filter.mp hx).2
  · intro x hx
    simp only [stablePartition] at hx
    rw [List.drop_left' rfl] at hx
    simpa using (List.mem_filter.mp hx).2

/-- When exactly one element satisfies the predicate, the part before the iterator
that `std::partition` returns is that element. -/
theorem PartitionSpec.take_single
    (partition : (String → Bool) → List String → List String × Nat)
    (hspec : PartitionSpec partition) (p : String → Bool) (l : List String) (x : String)
    (hone : l.filter p = [x]) :
    (partition p l).2 = 1 ∧ (partition p l).1.take (partition p l).2 = [x] := by
  obtain ⟨hperm, hdist, htake, _⟩ := hspec p l
  have h1 : (partition p l).2 = 1 := by rw [hdist, hone]; rfl
  refine ⟨h1, ?_⟩
  rw [h1]
  have hx : x ∈ l := by
    have : x ∈ l.filter p := by rw [hone]; exact List.mem_singleton_self x
    exact (List.mem_filter.mp this).1
  cases hq : (partition p l).1 with
  | nil =>
    rw [hq] at hperm
    have := hperm.symm.subset hx
    simp at this
  | cons h t =>
    have hh : h ∈ (partition p l).1.take (partition p l).2 := by
      rw [h1, hq]; simp
    have hp : p h = true := htake h hh
    have hl : h ∈ l := hperm.subset (by rw [hq]; exact List.mem_cons_self h t)
    have : h ∈ l.filter p := List.mem_filter.mpr ⟨hl, hp⟩
    rw [hone] at this
    simp only [List.mem_singleton] at this
    simp [this]

/-- C11: with a `std::partition` that keeps its contract, `FilterFileLanguages` on two
or more candidates yields exactly the one candidate that carries the marker
"(lang <current language>)" (case ignored) when exactly one does; exactly the one
that carries the base-language marker when none carries the current one and
exactly one carries the base one; and every candidate, in some order, when none
carries either marker, so that more than one remains and the match is ambiguous.
A list of at most one candidate is returned as it is. -/
theorem FilterFileLanguages_spec (env : Env) (hspec : PartitionSpec env.partition)
    (m_sCurLanguage : String) (asPaths : List String) :
    (2 ≤ asPaths.length →
        (∀ x, asPaths.filter (CompareLanguageTag m_sCurLanguage) = [x] →
          FilterFileLanguages env m_sCurLanguage asPaths = [x])
        ∧ (∀ x, asPaths.filter (CompareLanguageTag m_sCurLanguage) = [] →
          asPaths.filter (CompareLanguageTag env.BASE_LANGUAGE) = [x] →
          FilterFileLanguages env m_sCurLanguage asPaths = [x])
        ∧ (asPaths.filter (CompareLanguageTag m_sCurLanguage) = [] →
          asPaths.filter (CompareLanguageTag env.BASE_LANGUAGE) = [] →
          (FilterFileLanguages env m_sCurLanguage asPaths).Perm asPaths
            ∧ 1 < (FilterFileLanguages env m_sCurLanguage asPaths).length))
      ∧ (asPaths.length ≤ 1 → FilterFileLanguages env m_sCurLanguage asPaths = asPaths) := by
  constructor
  · intro hlen
    have hgt : ¬ asPaths.length ≤ 1 := by omega
    refine ⟨?_, ?_, ?_⟩
    · intro x hone
      obtain ⟨h1, h2⟩ := PartitionSpec.take_single env.partition hspec _ asPaths x hone
      unfold FilterFileLanguages
      simp only [hgt, if_false, h1, Nat.one_ne_zero, if_true]
      rw [← h1]; exact h2
    · intro x hnone hone
      obtain ⟨hperm, hdist, _, _⟩ := hspec (CompareLanguageTag m_sCurLanguage) asPaths
      have h0 : (env.partition (CompareLanguageTag m_sCurLanguage) asPaths).2 = 0 := by
        rw [hdist, hnone]; rfl
      have hone' : (env.partition (CompareLanguageTag m_sCurLanguage) asPaths).1.filter
          (CompareLanguageTag env.BASE_LANGUAGE) = [x] := by
        have := List.Perm.filter (CompareLanguageTag env.BASE_LANGUAGE) hperm
        rw [hone] at this
        exact List.perm_singleton.mp this
      obtain ⟨h1, h2⟩ := PartitionSpec.take_single env.partition hspec _ _ x hone'
      unfold FilterFileLanguages
      simp only [hgt, if_false, h0, if_true, h1]
      rw [← h1]; exact h2
    · intro hnone hnone'
      obtain ⟨hperm, hdist, _, _⟩ := hspec (CompareLanguageTag m_sCurLanguage) asPaths
      have h0 : (env.partition (CompareLanguageTag m_sCurLanguage) asPaths).2 = 0 := by
        rw [hdist, hnone]; rfl
      obtain ⟨hperm', hdist', _, _⟩ := hspec (CompareLanguageTag env.BASE_LANGUAGE)
        (env.partition (CompareLanguageTag m_sCurLanguage) asPaths).1
      have h0' : (env.partition (CompareLanguageTag env.BASE_LANGUAGE)
          (env.partition (CompareLanguageTag m_sCurLanguage) asPaths).1).2 = 0 := by
        rw [hdist']
        have := List.Perm.filter (CompareLanguageTag env.BASE_LANGUAGE) hperm
        rw [hnone'] at this
        rw [List.perm_nil.mp this]; rfl
      have hres : FilterFileLanguages env m_sCurLanguage asPaths
          = (env.partition (CompareLanguageTag env.BASE_LANGUAGE)
              (env.partition (CompareLanguageTag m_sCurLanguage) asPaths).1).1 := by
        unfold FilterFileLanguages
        simp [hgt, h0, h0']
      rw [hres]
      have hp := hperm'.trans hperm
      exact ⟨hp, by rw [hp.length_eq]; omega⟩
  · intro hle
    unfold FilterFileLanguages
    simp [hle]

theorem FilterFileLanguages_spec_witness :
    FilterFileLanguages envEmpty "French" twoLanguages
        = ["/Themes/T/Graphics/X (lang French).png"]
      ∧ FilterFileLanguages envEmpty "German" twoLanguages
        = ["/Themes/T/Graphics/X (lang English).png"]
      ∧ (FilterFileLanguages envEmpty "German" ["a.png", "b.png"]).Perm ["a.png", "b.png"] :=
  ⟨((FilterFileLanguages_spec envEmpty stablePartition_spec "French" twoLanguages).1
      (by decide)).1 _ (by decide!),
    ((FilterFileLanguages_spec envEmpty stablePartition_spec "German" twoLanguages).1
      (by decide)).2.1 _ (by decide!) (by decide!),
    (((FilterFileLanguages_spec envEmpty stablePartition_spec "German" ["a.png", "b.png"]).1
      (by decide)).2.2 (by decide!) (by decide!)).1⟩



/-! ## Ignoring a missing element -/

/-- C15: a mandatory `GetPath` request in a category other than Other, whose key is
not cached, whose search yields nothing, whose dialog is answered with Ignore and
whose key is not "_missing", ends as the nested `GetPath( category, "", "_missing" )`
ends: a failure of the nested call is the failure of the request, and a path that
the nested call returns is returned and is what the cache then holds under the
key of the request. -/
theorem GetPath_ignore_substitutes_missing (env : Env) (fuel : Nat)
    (category : ElementCategory) (sClassName sElement : String) (st st1 : ThemeManager)
    (hcat : category ≠ .EC_OTHER)
    (hmiss : (st.g_ThemePathCache.get category).find
      (ClassAndElementToFileName sClassName sElement) = none)
    (hnothing : GetPathToAndFallback env (GetPathToRaw env (GetPath env fuel) (fuel + 1))
      category sClassName sElement st = .ok "" st1)
    (hignore : env.AbortRetryIgnore st1.nDialogs
      (missingMessage (ElementCategoryToString category)
        (ClassAndElementToFileName sClassName sElement)) = .ignore)
    (hkey : ClassAndElementToFileName sClassName sElement ≠ "_missing") :
    (∀ e st3, GetPath env fuel category "" "_missing" false
          { st1 with nDialogs := st1.nDialogs + 1 } = .fail e st3 →
        GetPath env (fuel + 1) category sClassName sElement false st = .fail e st3)
      ∧ (∀ sMissing st3, GetPath env fuel category "" "_missing" false
          { st1 with nDialogs := st1.nDialogs + 1 } = .ok sMissing st3 →
        ∃ st4, GetPath env (fuel + 1) category sClassName sElement false st = .ok sMissing st4
          ∧ (st4.g_ThemePathCache.get category).find
              (ClassAndElementToFileName sClassName sElement) = some sMissing) := by
  have hnothing' : GetPathToAndFallback env
      (GetPathToRaw env (GetPath.cached (GetPath.search env fuel)) (fuel + 1))
      category sClassName sElement st = .ok "" st1 := hnothing
  constructor
  · intro e st3 h
    have h' : GetPath.cached (GetPath.search env fuel) category "" "_missing" false
        { st1 with nDialogs := st1.nDialogs + 1 } = .fail e st3 := h
    simp only [GetPath, GetPath.cached, hmiss]
    rw [GetPath.search]
    simp only [hnothing', hcat, hignore, hkey, h', ne_eq, not_true_eq_false, not_false_eq_true,
      if_true, if_false, Bool.false_eq_true]
  · intro sMissing st3 h
    have h' : GetPath.cached (GetPath.search env fuel) category "" "_missing" false
        { st1 with nDialogs := st1.nDialogs + 1 } = .ok sMissing st3 := h
    refine ⟨cacheStore st3 category (ClassAndElementToFileName sClassName sElement) sMissing,
      ?_, cacheStore_find _ _ _ _⟩
    simp only [GetPath, GetPath.cached, hmiss]
    rw [GetPath.search]
    simp only [hnothing', hcat, hignore, hkey, h', ne_eq, not_true_eq_false, not_false_eq_true,
      if_true, if_false, Bool.false_eq_true]

theorem GetPath_ignore_substitutes_missing_witness :
    ∃ st4, GetPath envMissing 4 .EC_GRAPHICS "" "nothing" false stOneTheme
          = .ok "/Themes/T/Graphics/_missing.png" st4
        ∧ (st4.g_ThemePathCache.get .EC_GRAPHICS).find (ClassAndElementToFileName "" "nothing")
          = some "/Themes/T/Graphics/_missing.png" :=
  (GetPath_ignore_substitutes_missing envMissing 3 .EC_GRAPHICS "" "nothing" stOneTheme
    (GetPathToAndFallback envMissing (GetPathToRaw envMissing (GetPath envMissing 3) 4)
      .EC_GRAPHICS "" "nothing" stOneTheme).state
    (by decide) (by decide!) (by decide!) (by decide!) (by decide!)).2
    "/Themes/T/Graphics/_missing.png"
    (GetPath envMissing 3 .EC_GRAPHICS "" "_missing" false
      { (GetPathToAndFallback envMissing (GetPathToRaw envMissing (GetPath envMissing 3) 4)
          .EC_GRAPHICS "" "nothing" stOneTheme).state with nDialogs := 1 }).state
    (by decide!)

/-- C16: in an installation where no theme holds any file, so no "_missing" either,
and every dialog is answered with Ignore, a mandatory request for a missing
element fails in a fresh session with the failure for the absent placeholder,
but after an optional request for "_missing" in the same category it returns
the empty path and stores it under its key. -/
theorem GetPath_ignore_returns_empty_after_optional :
    Result.failure (GetPath envIgnore 3 .EC_GRAPHICS "" "nothing" false stOneTheme)
        = some (.missingPlaceholder "Graphics")
      ∧ Result.value (GetPath envIgnore 3 .EC_GRAPHICS "" "_missing" true stOneTheme) = some ""
      ∧ Result.value (GetPath envIgnore 3 .EC_GRAPHICS "" "nothing" false
          (GetPath envIgnore 3 .EC_GRAPHICS "" "_missing" true stOneTheme).state) = some ""
      ∧ (((GetPath envIgnore 3 .EC_GRAPHICS "" "nothing" false
          (GetPath envIgnore 3 .EC_GRAPHICS "" "_missing" true stOneTheme).state).state
            ).g_ThemePathCache.get .EC_GRAPHICS).find "nothing" = some "" := by
  decide!



/-! ## Overrides from the command line -/

theorem XAttrs.find_set_same (form : String → String) (a : XAttrs) (k v : String) :
    XAttrs.find (XAttrs.set a form k v) form k = some v := by
  induction a with
  | nil => simp [XAttrs.set, XAttrs.find]
  | cons kv rest ih =>
    obtain ⟨k0, v0⟩ := kv
    by_cases h : form k0 = form k <;> simp [XAttrs.set, XAttrs.find, h, ih]

theorem XAttrs.find_set_of_ne (form : String → String) (a : XAttrs) (k k' v : String)
    (hne : form k' ≠ form k) :
    XAttrs.find (XAttrs.set a form k' v) form k = XAttrs.find a form k := by
  induction a with
  | nil => simp [XAttrs.set, XAttrs.find, hne]
  | cons kv rest ih =>
    obtain ⟨k0, v0⟩ := kv
    by_cases h : form k0 = form k'
    · have h2 : ¬ form k0 = form k := fun e => hne (h.symm.trans e)
      rw [XAttrs.set, if_pos h, XAttrs.find, if_neg h2, XAttrs.find, if_neg h2]
    · rw [XAttrs.set, if_neg h, XAttrs.find, ih, XAttrs.find]

theorem IniFile.GetValue_SetValue_self (nf : NameForms) (ini : IniFile) (s k v : String) :
    (ini.SetValue nf s k v).GetValue nf s k = some v := by
  unfold IniFile.SetValue IniFile.GetValue
  cases h : ini.GetChild nf s with
  | none =>
    simp [IniFile.GetChild_append, h, IniFile.GetChild, XAttrs.find]
  | some a =>
    simp [IniFile.GetChild_setChild, h, XAttrs.find_set_same]

theorem IniFile.GetValue_SetValue_of_ne (nf : NameForms) (ini : IniFile) (s k s' k' v : String)
    (hne : ¬ (nf.sectionForm s' = nf.sectionForm s ∧ nf.keyForm k' = nf.keyForm k)) :
    (ini.SetValue nf s' k' v).GetValue nf s k = ini.GetValue nf s k := by
  unfold IniFile.SetValue IniFile.GetValue
  by_cases hs : nf.sectionForm s' = nf.sectionForm s
  · have hk : nf.keyForm k' ≠ nf.keyForm k := fun e => hne ⟨hs, e⟩
    rw [IniFile.GetChild_congr nf ini s' s hs]
    cases h : ini.GetChild nf s with
    | none =>
      simp [IniFile.GetChild_append, h, IniFile.GetChild, XAttrs.find, hs, hk]
    | some a =>
      simp [IniFile.GetChild_setChild, h, hs, XAttrs.find_set_of_ne, hk]
  · cases h : ini.GetChild nf s' with
    | none =>
      simp [IniFile.GetChild_append, IniFile.GetChild, hs]
    | some a =>
      simp [IniFile.GetChild_setChild, hs]

/-- An override that matches no later override of the loop leaves a lookup as it was. -/
theorem LoadThemeMetrics.overlay_GetValue_of_ne (nf : NameForms) (s k : String) :
    ∀ (l : List String) (st st' : ThemeManager),
      LoadThemeMetrics.overlay nf l st = .ok () st' →
      (∀ m ∈ l, ∀ foo bar baz, matchMetricArgument m = some (foo, bar, baz) →
        ¬ (nf.sectionForm foo = nf.sectionForm s ∧ nf.keyForm bar = nf.keyForm k)) →
      st'.iniMetrics.GetValue nf s k = st.iniMetrics.GetValue nf s k := by
  intro l
  induction l with
  | nil =>
    intro st st' h _
    simp only [LoadThemeMetrics.overlay, Result.ok.injEq, true_and] at h
    rw [h]
  | cons m rest ih =>
    intro st st' h hne
    unfold LoadThemeMetrics.overlay at h
    cases hm : matchMetricArgument m with
    | none => simp [hm] at h
    | some r =>
      obtain ⟨foo, bar, baz⟩ := r
      simp only [hm] at h
      rw [ih _ st' h (fun m' hm' => hne m' (List.mem_cons_of_mem _ hm'))]
      exact IniFile.GetValue_SetValue_of_ne nf _ s k foo bar baz
        (hne m (List.mem_cons_self _ _) foo bar baz hm)

/-- The last override of a metric is what the store holds after the loop. -/
theorem LoadThemeMetrics.overlay_GetValue (nf : NameForms) (sMetric s k v : String)
    (after : List String) (hm : matchMetricArgument sMetric = some (s, k, v))
    (hafter : ∀ m ∈ after, ∀ foo bar baz, matchMetricArgument m = some (foo, bar, baz) →
      ¬ (nf.sectionForm foo = nf.sectionForm s ∧ nf.keyForm bar = nf.keyForm k)) :
    ∀ (before : List String) (st st' : ThemeManager),
      LoadThemeMetrics.overlay nf (before ++ sMetric :: after) st = .ok () st' →
      st'.iniMetrics.GetValue nf s k = some v := by
  intro before
  induction before with
  | nil =>
    intro st st' h
    simp only [List.nil_append] at h
    unfold LoadThemeMetrics.overlay at h
    simp only [hm] at h
    rw [LoadThemeMetrics.overlay_GetValue_of_ne nf s k after _ st' h hafter]
    exact IniFile.GetValue_SetValue_self nf _ s k v
  | cons m rest ih =>
    intro st st' h
    simp only [List.cons_append] at h
    unfold LoadThemeMetrics.overlay at h
    cases hm' : matchMetricArgument m with
    | none => simp [hm'] at h
    | some r =>
      obtain ⟨foo, bar, baz⟩ := r
      simp only [hm'] at h
      exact ih _ st' h

/-- The first override that the pattern does not match ends the loop. -/
theorem LoadThemeMetrics.overlay_invalid (nf : NameForms) (sMetric : String)
    (after : List String) (hm : matchMetricArgument sMetric = none) :
    ∀ (before : List String) (st : ThemeManager),
      (∀ m ∈ before, matchMetricArgument m ≠ none) →
      ∃ s, LoadThemeMetrics.overlay nf (before ++ sMetric :: after) st
        = .fail (.invalidArgument sMetric) s := by
  intro before
  induction before with
  | nil =>
    intro st _
    refine ⟨st, ?_⟩
    simp only [List.nil_append]
    unfold LoadThemeMetrics.overlay
    simp only [hm]
  | cons m rest ih =>
    intro st hb
    simp only [List.cons_append]
    unfold LoadThemeMetrics.overlay
    cases hm' : matchMetricArgument m with
    | none => exact absurd hm' (hb m (List.mem_cons_self _ _))
    | some r =>
      obtain ⟨foo, bar, baz⟩ := r
      simp only
      exact ih _ (fun m' h' => hb m' (List.mem_cons_of_mem _ h'))

theorem LoadThemeMetrics.loop_fail (env : Env) (sLanguage : String) :
    ∀ (fuel : Nat) (v : LoadLoop) (st s : ThemeManager) (e : Failure),
      LoadThemeMetrics.loop env sLanguage fuel v st = .fail e s →
      e = .circularThemeFallback ∨ e = .outOfFuel := by
  intro fuel
  induction fuel with
  | zero =>
    intro v st s e h
    simp only [LoadThemeMetrics.loop, Result.fail.injEq] at h
    exact Or.inr h.1.symm
  | succ fuel ih =>
    intro v st s e h
    unfold LoadThemeMetrics.loop at h
    cases hb : LoadThemeMetrics.body env sLanguage v st with
    | fail e' s' =>
      obtain ⟨_, _, he⟩ := LoadThemeMetrics.body_fail env sLanguage v st s' e' hb
      simp only [hb, Result.fail.injEq] at h
      exact Or.inl (h.1 ▸ he)
    | ok o s' =>
      cases o with
      | none => simp [hb] at h
      | some v' =>
        simp only [hb] at h
        exact ih v' s' s e h

theorem splitAtEquals_append (head rest : List Char) (h : '=' ∉ head) :
    splitAtEquals (head ++ '=' :: rest) = some (head, rest) := by
  induction head with
  | nil => simp [splitAtEquals]
  | cons c t ih =>
    simp only [List.mem_cons, not_or] at h
    have hc : ¬ c = '=' := fun e => h.1 e.symm
    simp [splitAtEquals, hc, ih h.2]

theorem colonSplits_cons (c : Char) (rest : List Char) :
    ∃ here, colonSplits (c :: rest)
      = here ++ (colonSplits rest).map (fun ab => (c :: ab.1, ab.2)) := by
  by_cases h : ∃ b, c = ':' ∧ rest = ':' :: b
  · obtain ⟨b, hc, hr⟩ := h
    subst hc hr
    exact ⟨[([], b)], by rw [colonSplits]⟩
  · refine ⟨[], ?_⟩
    rw [colonSplits]
    intro b h1 h2
    exact h ⟨b, h1, h2⟩

theorem colonSplits_eq_nil (l : List Char) (h : ':' ∉ l) : colonSplits l = [] := by
  induction l with
  | nil => rfl
  | cons c t ih =>
    simp only [List.mem_cons, not_or] at h
    rw [colonSplits]
    · simp [ih h.2]
    · intro b hc _
      exact h.1 hc.symm

/-- The last place of "::" is the one before a key without a colon. -/
theorem colonSplits_append (foo bar : List Char) (h : ':' ∉ bar) :
    ∃ l, colonSplits (foo ++ ':' :: ':' :: bar) = l ++ [(foo, bar)] := by
  induction foo with
  | nil =>
    refine ⟨[], ?_⟩
    have h1 : colonSplits (':' :: bar) = [] := by
      rw [colonSplits]
      · simp [colonSplits_eq_nil bar h]
      · intro b _ hb
        exact h (by rw [hb]; exact List.mem_cons_self _ _)
    simp only [List.nil_append]
    rw [colonSplits]
    simp [h1]
  | cons c t ih =>
    obtain ⟨l, hl⟩ := ih
    obtain ⟨here, hh⟩ := colonSplits_cons c (t ++ ':' :: ':' :: bar)
    simp only [List.cons_append]
    rw [hh, hl]
    exact ⟨here ++ l.map (fun ab => (c :: ab.1, ab.2)), by simp⟩

/-- An override written as Class, "::", Key, "=", Value is read as written when
Class and Key are not empty and hold no "=", and Key holds no colon. -/
theorem matchMetricArgument_form (foo bar baz : String) (hfoo : foo ≠ "") (hbar : bar ≠ "")
    (hfoo_eq : '=' ∉ foo.data) (hbar_eq : '=' ∉ bar.data) (hbar_colon : ':' ∉ bar.data) :
    matchMetricArgument (foo ++ "::" ++ bar ++ "=" ++ baz) = some (foo, bar, baz) := by
  have hdata : (foo ++ "::" ++ bar ++ "=" ++ baz).data
      = (foo.data ++ ':' :: ':' :: bar.data) ++ '=' :: baz.data := by
    simp [String.data_append]
  have hhead : '=' ∉ foo.data ++ ':' :: ':' :: bar.data := by
    simp only [List.mem_append, List.mem_cons, not_or]
    exact ⟨hfoo_eq, by decide, by decide, hbar_eq⟩
  obtain ⟨l, hl⟩ := colonSplits_append foo.data bar.data hbar_colon
  have hf : foo.data ≠ [] := fun e => hfoo (String.ext e)
  have hb : bar.data ≠ [] := fun e => hbar (String.ext e)
  unfold matchMetricArgument
  rw [hdata, splitAtEquals_append _ _ hhead]
  simp only [hl, List.filter_append]
  simp [hf, hb, List.getLast?_append]

theorem splitAtEquals_eq_some :
    ∀ (l head rest : List Char), splitAtEquals l = some (head, rest) →
      l = head ++ '=' :: rest ∧ '=' ∉ head := by
  intro l
  induction l with
  | nil => intro head rest h; simp [splitAtEquals] at h
  | cons c t ih =>
    intro head rest h
    unfold splitAtEquals at h
    by_cases hc : c = '='
    · simp only [hc, if_true, Option.some.injEq, Prod.mk.injEq] at h
      obtain ⟨h1, h2⟩ := h
      subst h1 h2 hc
      simp
    · simp only [hc, if_false] at h
      cases hs : splitAtEquals t with
      | none => simp [hs] at h
      | some ab =>
        obtain ⟨a, b⟩ := ab
        simp only [hs, Option.some.injEq, Prod.mk.injEq] at h
        obtain ⟨h1, h2⟩ := h
        obtain ⟨h3, h4⟩ := ih a b hs
        subst h1 h2
        refine ⟨by rw [h3]; rfl, ?_⟩
        simp only [List.mem_cons, not_or]
        exact ⟨fun e => hc e.symm, h4⟩

theorem colonSplits_mem_of_eq (foo bar : List Char) :
    (foo, bar) ∈ colonSplits (foo ++ ':' :: ':' :: bar) := by
  induction foo with
  | nil =>
    simp only [List.nil_append]
    rw [colonSplits]
    simp
  | cons c t ih =>
    obtain ⟨here, hh⟩ := colonSplits_cons c (t ++ ':' :: ':' :: bar)
    simp only [List.cons_append]
    rw [hh]
    exact List.mem_append_right _ (List.mem_map.mpr ⟨(t, bar), ih, rfl⟩)

theorem colonSplits_eq_of_mem :
    ∀ (l foo bar : List Char), (foo, bar) ∈ colonSplits l → l = foo ++ ':' :: ':' :: bar := by
  intro l
  induction l with
  | nil => intro foo bar h; simp [colonSplits] at h
  | cons c t ih =>
    intro foo bar h
    by_cases hc : ∃ b, c = ':' ∧ t = ':' :: b
    · obtain ⟨b, h1, h2⟩ := hc
      subst h1 h2
      rw [colonSplits] at h
      simp only [List.singleton_append, List.mem_cons, Prod.mk.injEq, List.mem_map] at h
      rcases h with ⟨h1, h2⟩ | ⟨ab, hab, h3, h4⟩
      · subst h1 h2; rfl
      · have := ih ab.1 ab.2 hab
        rw [this, ← h3, ← h4]; rfl
    · rw [colonSplits] at h
      · simp only [List.nil_append, List.mem_map, Prod.mk.injEq] at h
        obtain ⟨ab, hab, h3, h4⟩ := h
        have := ih ab.1 ab.2 hab
        rw [this, ← h3, ← h4]; rfl
      · intro b h1 h2
        exact hc ⟨b, h1, h2⟩

/-- What the pattern captures is a reading of the override in the form of the
specification. -/
theorem matchMetricArgument_sound (sMetric foo bar baz : String)
    (h : matchMetricArgument sMetric = some (foo, bar, baz)) :
    sMetric = foo ++ "::" ++ bar ++ "=" ++ baz
      ∧ foo ≠ "" ∧ bar ≠ "" ∧ '=' ∉ foo.data ∧ '=' ∉ bar.data := by
  unfold matchMetricArgument at h
  cases hs : splitAtEquals sMetric.data with
  | none => simp [hs] at h
  | some hb =>
    obtain ⟨head, bz⟩ := hb
    simp only [hs] at h
    cases hl : ((colonSplits head).filter (fun ab => ab.1 ≠ [] ∧ ab.2 ≠ [])).getLast? with
    | none => rw [hl] at h; simp at h
    | some fb =>
      obtain ⟨f, b⟩ := fb
      rw [hl] at h
      simp only [Option.some.injEq, Prod.mk.injEq] at h
      obtain ⟨h1, h2, h3⟩ := h
      obtain ⟨ys, hys⟩ := List.getLast?_eq_some_iff.mp hl
      have hmem : (f, b) ∈ (colonSplits head).filter (fun ab => ab.1 ≠ [] ∧ ab.2 ≠ []) := by
        rw [hys]; simp
      obtain ⟨hm1, hm2⟩ := List.mem_filter.mp hmem
      simp only [ne_eq, decide_eq_true_eq] at hm2
      have hhead := colonSplits_eq_of_mem head f b hm1
      obtain ⟨hdata, hno⟩ := splitAtEquals_eq_some _ _ _ hs
      subst h1 h2 h3
      rw [hhead] at hno hdata
      simp only [List.mem_append, List.mem_cons, not_or] at hno
      refine ⟨String.ext ?_, ?_, ?_, hno.1, hno.2.2.2⟩
      · simp [String.data_append, hdata]
      · intro e; exact hm2.1 (congrArg String.data e)
      · intro e; exact hm2.2 (congrArg String.data e)

/-- The pattern matches exactly the overrides of the form of the specification. -/
theorem matchMetricArgument_eq_none_iff (sMetric : String) :
    matchMetricArgument sMetric = none ↔ ¬ IsOverride sMetric := by
  constructor
  · intro h hform
    obtain ⟨foo, bar, baz, hm, hfoo, hbar, hfoo_eq, hbar_eq⟩ := hform
    have hdata : sMetric.data = (foo.data ++ ':' :: ':' :: bar.data) ++ '=' :: baz.data := by
      rw [hm]; simp [String.data_append]
    have hhead : '=' ∉ foo.data ++ ':' :: ':' :: bar.data := by
      simp only [List.mem_append, List.mem_cons, not_or]
      exact ⟨hfoo_eq, by decide, by decide, hbar_eq⟩
    have hf : foo.data ≠ [] := fun e => hfoo (String.ext e)
    have hb : bar.data ≠ [] := fun e => hbar (String.ext e)
    have hmem : (foo.data, bar.data) ∈
        (colonSplits (foo.data ++ ':' :: ':' :: bar.data)).filter
          (fun ab => ab.1 ≠ [] ∧ ab.2 ≠ []) :=
      List.mem_filter.mpr ⟨colonSplits_mem_of_eq _ _, by simp [hf, hb]⟩
    unfold matchMetricArgument at h
    rw [hdata, splitAtEquals_append _ _ hhead] at h
    simp only at h
    cases hl : ((colonSplits (foo.data ++ ':' :: ':' :: bar.data)).filter
        (fun ab => ab.1 ≠ [] ∧ ab.2 ≠ [])).getLast? with
    | none =>
      rw [List.getLast?_eq_none_iff] at hl
      rw [hl] at hmem
      simp at hmem
    | some fb => rw [hl] at h; simp at h
  · intro h
    cases hm : matchMetricArgument sMetric with
    | none => rfl
    | some r =>
      obtain ⟨foo, bar, baz⟩ := r
      exact absurd ⟨foo, bar, baz, matchMetricArgument_sound sMetric foo bar baz hm⟩ h



/-- C17 fails as stated: of two overrides of `Common::Width` the store holds the
value of the second, not of the first; the override "a::b::c=v" is read as class
"a::b" and key "c", so that nothing is stored for class "a" and key "b::c"; and
where the chain of themes fails first, an override that is not of the form is
not what the failure names. -/
theorem LoadThemeMetrics_override_not_stored :
    ("Common::Width=1" ∈ envOverrides.metricArguments
        ∧ "Common::Width=1" = "Common" ++ "::" ++ "Width" ++ "=" ++ "1"
        ∧ (LoadThemeMetrics envOverrides "A" "english" ThemeManager.init).isOk = true
        ∧ (LoadThemeMetrics envOverrides "A" "english" ThemeManager.init).state.iniMetrics.GetValue
            envOverrides.forms "Common" "Width" = some "2")
      ∧ ("a::b::c=v" ∈ envGreedy.metricArguments
        ∧ "a::b::c=v" = "a" ++ "::" ++ "b::c" ++ "=" ++ "v"
        ∧ (LoadThemeMetrics envGreedy "A" "english" ThemeManager.init).isOk = true
        ∧ (LoadThemeMetrics envGreedy "A" "english" ThemeManager.init).state.iniMetrics.GetValue
            envGreedy.forms "a" "b::c" = none
        ∧ (LoadThemeMetrics envGreedy "A" "english" ThemeManager.init).state.iniMetrics.GetValue
            envGreedy.forms "a::b" "c" = some "v")
      ∧ ("Width=2" ∈ envLoopMalformed.metricArguments
        ∧ matchMetricArgument "Width=2" = none
        ∧ (LoadThemeMetrics envLoopMalformed "A" "english" ThemeManager.init).failure
            = some .circularThemeFallback) := by
  decide!

/-- C17, amended: let an override stand in the list of overrides.  When it is written
as Class, "::", Key, "=", Value with Class and Key not empty and without "=", Key
without a colon, and no later override is read as the same class and key in the
store's comparison of names, the metrics store after a `LoadThemeMetrics` that
returns maps (Class, Key) to Value, whatever the theme files define.  When it is
not of the form of an override and every override before it is, `LoadThemeMetrics`
fails: with the failure of the fallback guard when the chain of themes is too
long, and otherwise with the invalid-argument failure that names this override. -/
theorem LoadThemeMetrics_overrides (env : Env) (sThemeName sLanguage : String)
    (st : ThemeManager) (before after : List String) (sMetric : String)
    (hargs : env.metricArguments = before ++ sMetric :: after) :
    (∀ (sClass sKey sValue : String) (st' : ThemeManager),
        sMetric = sClass ++ "::" ++ sKey ++ "=" ++ sValue →
        sClass ≠ "" → sKey ≠ "" → '=' ∉ sClass.data → '=' ∉ sKey.data → ':' ∉ sKey.data →
        (∀ m ∈ after, ∀ foo bar baz, matchMetricArgument m = some (foo, bar, baz) →
          ¬ (env.forms.sectionForm foo = env.forms.sectionForm sClass
              ∧ env.forms.keyForm bar = env.forms.keyForm sKey)) →
        LoadThemeMetrics env sThemeName sLanguage st = .ok () st' →
        st'.iniMetrics.GetValue env.forms sClass sKey = some sValue)
      ∧ (¬ IsOverride sMetric → (∀ m ∈ before, IsOverride m) →
        (∃ s, LoadThemeMetrics env sThemeName sLanguage st = .fail .circularThemeFallback s)
          ∨ (∃ s, LoadThemeMetrics env sThemeName sLanguage st
              = .fail (.invalidArgument sMetric) s)) := by
  constructor
  · intro sClass sKey sValue st' hform hC hK hCe hKe hKc hafter h
    have hm : matchMetricArgument sMetric = some (sClass, sKey, sValue) := by
      rw [hform]; exact matchMetricArgument_form sClass sKey sValue hC hK hCe hKe hKc
    unfold LoadThemeMetrics at h
    cases hl : LoadThemeMetrics.loop env sLanguage 21
        { sThemeName := sThemeName, bLoadedBase := false }
        (LoadThemeMetrics.start sThemeName sLanguage st) with
    | fail e s => simp [hl] at h
    | ok u s =>
      cases u
      simp only [hl, hargs] at h
      exact LoadThemeMetrics.overlay_GetValue env.forms sMetric sClass sKey sValue after hm
        hafter before s st' h
  · intro hform hbefore
    have hm : matchMetricArgument sMetric = none :=
      (matchMetricArgument_eq_none_iff sMetric).mpr hform
    have hb : ∀ m ∈ before, matchMetricArgument m ≠ none := fun m hmem hnone =>
      (matchMetricArgument_eq_none_iff m).mp hnone (hbefore m hmem)
    unfold LoadThemeMetrics
    cases hl : LoadThemeMetrics.loop env sLanguage 21
        { sThemeName := sThemeName, bLoadedBase := false }
        (LoadThemeMetrics.start sThemeName sLanguage st) with
    | fail e s =>
      rcases LoadThemeMetrics.loop_fail env sLanguage 21 _ _ s e hl with he | he
      · subst he
        exact Or.inl ⟨s, rfl⟩
      · subst he
        exact absurd hl (LoadThemeMetrics.loop_fuel env sLanguage 21 _ _ s
          (by simp [LoadThemeMetrics.start]) (by simp [LoadThemeMetrics.start]))
    | ok u s =>
      cases u
      simp only [hargs]
      exact Or.inr (LoadThemeMetrics.overlay_invalid env.forms sMetric after hm before s hb)

theorem LoadThemeMetrics_overrides_witness :
    (LoadThemeMetrics envOverrides "A" "english" ThemeManager.init).state.iniMetrics.GetValue
        envOverrides.forms "Common" "Width" = some "2"
      ∧ ((∃ s, LoadThemeMetrics envMalformed "A" "english" ThemeManager.init
            = .fail .circularThemeFallback s)
        ∨ (∃ s, LoadThemeMetrics envMalformed "A" "english" ThemeManager.init
            = .fail (.invalidArgument "Width=2") s)) :=
  ⟨(LoadThemeMetrics_overrides envOverrides "A" "english" ThemeManager.init
      ["Common::Width=1"] [] "Common::Width=2" rfl).1 "Common" "Width" "2"
      (LoadThemeMetrics envOverrides "A" "english" ThemeManager.init).state
      (by decide) (by decide) (by decide) (by decide) (by decide) (by decide)
      (by simp) (by decide!),
    (LoadThemeMetrics_overrides envMalformed "A" "english" ThemeManager.init
      ["Common::Width=1"] [] "Width=2" rfl).2
      (fun h => by
        have := (matchMetricArgument_eq_none_iff "Width=2").mp (by decide!)
        exact this h)
      (fun m hm => by
        simp only [List.mem_singleton] at hm
        subst hm
        exact ⟨"Common", "Width", "1", by decide, by decide, by decide, by decide, by decide⟩)⟩



/-! ## The languages of the themes -/

/-- C19: where theme "A" has "English.ini" and "French.ini" and the base theme has
"english.ini", `GetLanguages` returns "English", "French" and "english": the sort
by character codes places "French" between the two spellings, `unique` compares
neighbours only, and the list holds two entries that are equal when case is
ignored. -/
theorem GetLanguages_keeps_case_duplicate :
    GetLanguages envLanguages stLanguages = some ["English", "French", "english"]
      ∧ EqualsNoCase "English" "english" = true
      ∧ (GetLanguages envLanguages stLanguages).map hasCaseDuplicate = some true := by
  decide!

/-- C20: where the listing of the language directory is "english.ini", "metrics.ini",
"spanish.ini", `GetLanguagesForTheme` appends "english" and "spa": after the erase
of "metrics.ini" the body strips the entry that moved to its index a second
time.  Where "metrics.ini" is listed last, the body indexes the vector at its
size after the erase. -/
theorem GetLanguagesForTheme_strips_twice :
    GetLanguagesForTheme envMetricsListed "T" [] = some ["english", "spa"]
      ∧ GetLanguagesForTheme.body envMetricsLast ["english.ini", "metrics.ini"] 1 = none
      ∧ GetLanguagesForTheme envMetricsLast "T" [] = none := by
  decide!



/-! ## Pseudo-localization -/

theorem isPrefixOf_placeholder (c : Char) (rest : List Char) :
    ['%', '\x7b'].isPrefixOf (c :: rest) = true ↔ c = '%' ∧ ∃ b, rest = '\x7b' :: b := by
  cases rest with
  | nil => simp [List.isPrefixOf]
  | cons d b =>
    simp only [List.isPrefixOf, Bool.and_true, Bool.and_eq_true, beq_iff_eq, List.cons.injEq,
      exists_and_left, exists_eq', and_true]
    constructor
    · rintro ⟨h1, h2⟩; exact ⟨h1.symm, h2.symm⟩
    · rintro ⟨h1, h2⟩; exact ⟨h1.symm, h2.symm⟩

theorem isPrefixOf_brace (c : Char) (rest : List Char) :
    ['\x7d'].isPrefixOf (c :: rest) = true ↔ c = '\x7d' := by
  simp only [List.isPrefixOf, Bool.and_true, beq_iff_eq]
  exact ⟨fun h => h.symm, fun h => h.symm⟩

theorem segments_outside_none :
    ∀ (l acc : List Char), findSubstring ['%', '\x7b'] l = none →
      segments false acc l = [(false, acc ++ l)] := by
  intro l
  induction l with
  | nil => intro acc _; simp [segments]
  | cons c rest ih =>
    intro acc h
    unfold findSubstring at h
    by_cases hp : ['%', '\x7b'].isPrefixOf (c :: rest) = true
    · simp [hp] at h
    · simp only [hp, Bool.false_eq_true, if_false, Option.map_eq_none'] at h
      rw [segments]
      simp only [hp, Bool.false_eq_true, if_false]
      rw [ih _ h]
      simp

theorem segments_outside_some :
    ∀ (l acc : List Char) (pos : Nat), findSubstring ['%', '\x7b'] l = some pos →
      ∃ b, l.drop pos = '%' :: '\x7b' :: b
        ∧ segments false acc l
          = (false, acc ++ l.take pos) :: segments true ['%'] ('\x7b' :: b) := by
  intro l
  induction l with
  | nil => intro acc pos h; simp [findSubstring] at h
  | cons c rest ih =>
    intro acc pos h
    unfold findSubstring at h
    by_cases hp : ['%', '\x7b'].isPrefixOf (c :: rest) = true
    · simp only [hp, if_true, Option.some.injEq] at h
      subst h
      obtain ⟨hc, b, hb⟩ := (isPrefixOf_placeholder c rest).mp hp
      refine ⟨b, by simp [hc, hb], ?_⟩
      rw [segments]
      simp only [hp, if_true]
      simp [hc, hb]
    · simp only [hp, Bool.false_eq_true, if_false, Option.map_eq_some'] at h
      obtain ⟨p, hp', hpos⟩ := h
      subst hpos
      obtain ⟨b, hb, hseg⟩ := ih (acc ++ [c]) p hp'
      refine ⟨b, by simpa using hb, ?_⟩
      rw [segments]
      simp only [hp, Bool.false_eq_true, if_false]
      rw [hseg]
      simp

theorem segments_inside_some :
    ∀ (m acc : List Char) (q : Nat), findSubstring ['\x7d'] m = some q →
      segments true acc m
        = (true, acc ++ m.take (q + 1)) :: segments false [] (m.drop (q + 1)) := by
  intro m
  induction m with
  | nil => intro acc q h; simp [findSubstring] at h
  | cons c rest ih =>
    intro acc q h
    unfold findSubstring at h
    by_cases hp : ['\x7d'].isPrefixOf (c :: rest) = true
    · simp only [hp, if_true, Option.some.injEq] at h
      subst h
      have hc := (isPrefixOf_brace c rest).mp hp
      rw [segments]
      simp [hc]
    · simp only [hp, Bool.false_eq_true, if_false, Option.map_eq_some'] at h
      obtain ⟨p, hp', hq⟩ := h
      subst hq
      have hc : ¬ c = '\x7d' := fun e => hp ((isPrefixOf_brace c rest).mpr e)
      rw [segments]
      simp only [hc, if_false]
      rw [ih (acc ++ [c]) p hp']
      simp

theorem findSubstring_brace_of_mem :
    ∀ (m : List Char), '\x7d' ∈ m → ∃ q, findSubstring ['\x7d'] m = some q := by
  intro m
  induction m with
  | nil => intro h; simp at h
  | cons c rest ih =>
    intro h
    unfold findSubstring
    by_cases hp : ['\x7d'].isPrefixOf (c :: rest) = true
    · exact ⟨0, by simp [hp]⟩
    · have hc : ¬ c = '\x7d' := fun e => hp ((isPrefixOf_brace c rest).mpr e)
      simp only [List.mem_cons] at h
      rcases h with h | h
      · exact absurd h.symm hc
      · obtain ⟨q, hq⟩ := ih h
        exact ⟨q + 1, by simp [hp, hq]⟩

theorem placeholdersClosed_drop :
    ∀ (n : Nat) (l : List Char), placeholdersClosed l = true →
      placeholdersClosed (l.drop n) = true := by
  intro n
  induction n with
  | zero => intro l h; simpa using h
  | succ n ih =>
    intro l h
    cases l with
    | nil => simpa using h
    | cons c rest =>
      simp only [List.drop_succ_cons]
      apply ih
      rw [placeholdersClosed] at h
      simp only [Bool.and_eq_true] at h
      exact h.2

/-- With its placeholders closed and a budget above its length, the loop of
`GetString` yields the text of the segments. -/
theorem GetString.translate_eq :
    ∀ (fuel : Nat) (s sTranslated : List Char), placeholdersClosed s = true →
      s.length < fuel →
      GetString.translate fuel s sTranslated
        = some (sTranslated ++ renderSegments (segments false [] s)) := by
  intro fuel
  induction fuel with
  | zero => intro s out _ h; omega
  | succ fuel ih =>
    intro s out hclosed hlen
    rw [GetString.translate]
    cases hf : findSubstring ['%', '\x7b'] s with
    | none =>
      rw [segments_outside_none s [] hf]
      simp [renderSegments]
    | some pos =>
      obtain ⟨b, hdrop, hseg⟩ := segments_outside_some s [] pos hf
      have hc1 := placeholdersClosed_drop pos s hclosed
      rw [hdrop, placeholdersClosed] at hc1
      simp only [Bool.and_eq_true, Bool.or_eq_true, Bool.not_eq_true', List.contains_iff_exists_mem_beq,
        beq_iff_eq, exists_eq_right'] at hc1
      have hmem : '\x7d' ∈ '\x7b' :: b := by
        rcases hc1.1 with h | h
        · have := (isPrefixOf_placeholder '%' ('\x7b' :: b)).mpr ⟨rfl, b, rfl⟩
          rw [this] at h
          exact absurd h (by decide)
        · exact h
      obtain ⟨q, hq⟩ := findSubstring_brace_of_mem _ hmem
      have hq' : findSubstring ['\x7d'] ('%' :: '\x7b' :: b) = some (q + 1) := by
        rw [findSubstring]
        have : ¬ ['\x7d'].isPrefixOf ('%' :: '\x7b' :: b) = true := fun e =>
          absurd ((isPrefixOf_brace _ _).mp e) (by decide)
        simp [this, hq]
      have hc2 : placeholdersClosed (('\x7b' :: b).drop (q + 1)) = true := by
        have := placeholdersClosed_drop (pos + (q + 2)) s hclosed
        rw [← List.drop_drop, hdrop] at this
        simpa using this
      have hl : (('\x7b' :: b).drop (q + 1)).length < fuel := by
        have h1 : (s.drop pos).length ≤ s.length := by simp
        rw [hdrop] at h1
        simp only [List.length_cons, List.length_drop] at h1 ⊢
        omega
      simp only [hdrop, hq']
      have hstep := ih (('\x7b' :: b).drop (q + 1))
        (out ++ (PseudoLocalize ⟨s.take pos⟩).data ++ ('%' :: ('\x7b' :: b).take (q + 1))) hc2 hl
      simp only [List.drop_succ_cons, List.take_succ_cons] at hstep ⊢
      rw [hstep, hseg, segments_inside_some _ ['%'] q hq]
      simp [renderSegments]

theorem GetMetricRaw_mono (env : Env) (ini : Store) (sClassName sValueName : String) :
    ∀ (fuel k : Nat) (st st1 : ThemeManager) (sRaw : String),
      GetMetricRaw env fuel ini sClassName sValueName st = .ok sRaw st1 →
      GetMetricRaw env (fuel + k) ini sClassName sValueName st = .ok sRaw st1 := by
  intro fuel
  induction fuel with
  | zero => intro k st st1 r h; simp [GetMetricRaw] at h
  | succ fuel ih =>
    intro k st st1 r h
    rw [show fuel + 1 + k = (fuel + k) + 1 by omega]
    rw [GetMetricRaw] at h ⊢
    cases hr : GetMetricRawRecursive env st (st.store ini) sClassName sValueName with
    | error e => simp [hr] at h
    | ok o =>
      cases o with
      | some ret => simpa [hr] using h
      | none =>
        simp only [hr] at h ⊢
        cases hd : env.AbortRetryIgnore st.nDialogs (missingMetricMessage sClassName sValueName) with
        | abort => simp [hd] at h
        | ignore => simpa [hd] using h
        | retry =>
          simp only [hd] at h ⊢
          cases hm : ReloadMetrics env { st with nDialogs := st.nDialogs + 1 } with
          | fail e s2 => simp [hm] at h
          | ok u s2 =>
            cases u
            simp only [hm] at h ⊢
            exact ih k s2 st1 r h

/-- C12: let `GetMetricRaw` return the stored string within some budget, let the
pseudo-localize flag be on, and let each "%{" of the string (after the marker and
newline replacements of `GetString`) be followed later by a "}".  Then with every
budget that is no smaller and exceeds the length of the string, `GetString`
returns the text of the segments of the string: the stretches outside the
placeholder spans pseudo-localized, the spans, each from "%{" to the next "}",
copied, all in their order. -/
theorem GetString_keeps_placeholders (env : Env) (fuel0 fuel : Nat)
    (sClassName sValueName sRaw : String) (st st1 : ThemeManager)
    (hraw : GetMetricRaw env fuel0 .iniStrings sClassName
      (Replace (Replace sValueName "\r\n" "\\n") "\n" "\\n") st = .ok sRaw st1)
    (hflag : st1.m_bPseudoLocalize = true)
    (hclosed : placeholdersClosed (Replace (env.ReplaceMarkers sRaw) "\\n" "\n").data = true)
    (hfuel0 : fuel0 ≤ fuel)
    (hfuel : (Replace (env.ReplaceMarkers sRaw) "\\n" "\n").data.length < fuel) :
    GetString env fuel sClassName sValueName st
      = .ok ⟨renderSegments
          (segments false [] (Replace (env.ReplaceMarkers sRaw) "\\n" "\n").data)⟩ st1 := by
  obtain ⟨k, hk⟩ := Nat.exists_eq_add_of_le hfuel0
  have hraw' := GetMetricRaw_mono env .iniStrings sClassName
    (Replace (Replace sValueName "\r\n" "\\n") "\n" "\\n") fuel0 k st st1 sRaw hraw
  rw [← hk] at hraw'
  unfold GetString
  simp only [hraw', hflag, if_true]
  rw [GetString.translate_eq fuel _ [] hclosed hfuel]
  simp

theorem GetString_keeps_placeholders_witness :
    GetString envEmpty 12 "Screen" "Apples" stApples = .ok "%\x7bn\x7d àáppléés" stApples
      ∧ segments false [] "%\x7bn\x7d apples".data
        = [(false, []), (true, "%\x7bn\x7d".data), (false, " apples".data)]
      ∧ PseudoLocalize " apples" = " àáppléés" :=
  ⟨(GetString_keeps_placeholders envEmpty 1 12 "Screen" "Apples" "%\x7bn\x7d apples"
      stApples stApples (by decide!) (by decide) (by decide!) (by decide) (by decide!)).trans
      (by decide!),
    by decide!, by decide!⟩



/-! ## The implicit fallback on the base theme -/

theorem EqualsNoCase_self (s : String) : EqualsNoCase s s = true := by
  simp [EqualsNoCase]

/-- C21 fails as stated: theme "A" declares no `FallbackTheme`, is not named as the base
theme and stands first in the chain, yet the chain ends at "A", because its
metrics declare `IsBaseTheme`. -/
theorem LoadThemeMetrics_flagged_theme_ends_chain :
    (themeMetrics envFlagged "A").GetValue envFlagged.forms "Global" "FallbackTheme" = none
      ∧ EqualsNoCase "A" envFlagged.BASE_THEME_NAME = false
      ∧ (LoadThemeMetrics envFlagged "A" "english" ThemeManager.init).isOk = true
      ∧ (LoadThemeMetrics envFlagged "A" "english" ThemeManager.init).state.chain = ["A"] := by
  decide!

/-- C21, amended: in a chain that `LoadThemeMetrics` builds, let the theme at a position
declare no `FallbackTheme`.  When it is not named as the base theme and no theme
up to and including it is a base theme (named as the base theme, unless its
`IsBaseTheme` says otherwise, or declaring `IsBaseTheme`), the next theme of the
chain is the base theme; otherwise the chain ends at this theme.  So a start
theme not named as the base theme yields the chain of itself and the base
theme when neither declares `FallbackTheme` or `IsBaseTheme`. -/
theorem LoadThemeMetrics_implicit_base (env : Env) (sThemeName sLanguage : String)
    (st st' : ThemeManager) (h : LoadThemeMetrics env sThemeName sLanguage st = .ok () st')
    (hbase : env.BASE_THEME_NAME ≠ "") :
    (∀ (i : Nat) (t : String), st'.chain[i]? = some t →
        (themeMetrics env t).GetValue env.forms "Global" "FallbackTheme" = none →
        ((EqualsNoCase t env.BASE_THEME_NAME = false
            ∧ (∀ q u, q ≤ i → st'.chain[q]? = some u → isBaseTheme env u = false)) →
          st'.chain[i + 1]? = some env.BASE_THEME_NAME)
        ∧ (¬ (EqualsNoCase t env.BASE_THEME_NAME = false
            ∧ (∀ q u, q ≤ i → st'.chain[q]? = some u → isBaseTheme env u = false)) →
          st'.chain.length = i + 1))
      ∧ (EqualsNoCase sThemeName env.BASE_THEME_NAME = false →
        (∀ u, u = sThemeName ∨ u = env.BASE_THEME_NAME →
          (themeMetrics env u).GetValue env.forms "Global" "FallbackTheme" = none
            ∧ (themeMetrics env u).GetValue env.forms "Global" "IsBaseTheme" = none) →
        st'.chain = [sThemeName, env.BASE_THEME_NAME]) := by
  obtain ⟨k, hk, hch, hne, hend⟩ := LoadThemeMetrics_chain env sThemeName sLanguage st st' h
  have hlen : st'.chain.length = k + 1 := by rw [hch]; simp
  have hget : ∀ n, n ≤ k → st'.chain[n]? = some (followFallbacks env sThemeName n).sThemeName := by
    intro n hn
    rw [hch, List.getElem?_map, List.getElem?_range (by omega)]
    rfl
  constructor
  · intro i t hi hnone
    have hik : i ≤ k := by
      have : i < st'.chain.length := by
        by_contra hc
        rw [List.getElem?_eq_none (by omega)] at hi
        simp at hi
      omega
    have ht : (followFallbacks env sThemeName i).sThemeName = t := by
      rw [hget i hik] at hi
      exact Option.some.inj hi
    have hname : (followFallbacks env sThemeName (i + 1)).sThemeName
        = if (!EqualsNoCase t env.BASE_THEME_NAME
              && !(followFallbacks env sThemeName (i + 1)).bLoadedBase) = true
          then env.BASE_THEME_NAME else "" := by
      rw [followFallbacks_name_succ, ht]
      simp only [fallbackTheme, hnone]
    constructor
    · rintro ⟨hnot, hnobase⟩
      have hflag : (followFallbacks env sThemeName (i + 1)).bLoadedBase = false := by
        cases hb : (followFallbacks env sThemeName (i + 1)).bLoadedBase with
        | false => rfl
        | true =>
          obtain ⟨p, hp, hpb⟩ := followFallbacks_flag_true env sThemeName i hb
          have := hnobase p _ hp (hget p (by omega))
          rw [this] at hpb
          exact absurd hpb (by decide)
      rw [hnot, hflag] at hname
      simp only [Bool.not_false, Bool.and_self, if_true] at hname
      have hlt : i < k := by
        rcases Nat.lt_or_ge i k with h1 | h1
        · exact h1
        · have hik' : i = k := by omega
          subst hik'
          rw [hend] at hname
          exact absurd hname.symm hbase
      rw [hget (i + 1) (by omega), hname]
    · intro hnot
      have hempty : (followFallbacks env sThemeName (i + 1)).sThemeName = "" := by
        cases hb : (followFallbacks env sThemeName (i + 1)).bLoadedBase with
        | true => rw [hname, hb]; simp
        | false =>
          have hall := followFallbacks_flag_false env sThemeName i hb
          have heq : EqualsNoCase t env.BASE_THEME_NAME = true := by
            cases he : EqualsNoCase t env.BASE_THEME_NAME with
            | true => rfl
            | false =>
              exfalso
              apply hnot
              refine ⟨he, ?_⟩
              intro q u hq hu
              rw [hget q (by omega)] at hu
              rw [← Option.some.inj hu]
              exact hall q hq
          rw [hname, heq]; simp
      have hik' : i = k := by
        rcases Nat.lt_or_ge i k with h1 | h1
        · exact absurd hempty (hne i h1)
        · omega
      rw [hlen, hik']
  · intro hnot hdecl
    obtain ⟨hs1, hs2⟩ := hdecl sThemeName (Or.inl rfl)
    obtain ⟨hb1, hb2⟩ := hdecl env.BASE_THEME_NAME (Or.inr rfl)
    have h0 : followFallbacks env sThemeName 0 = ⟨sThemeName, false⟩ := rfl
    have h1 : followFallbacks env sThemeName 1 = ⟨env.BASE_THEME_NAME, false⟩ := by
      rw [followFallbacks, h0]
      simp [LoadThemeMetrics.next, isBaseTheme, fallbackTheme, hs1, hs2, hnot]
    have h2 : (followFallbacks env sThemeName 2).sThemeName = "" := by
      rw [followFallbacks, h1]
      simp [LoadThemeMetrics.next, isBaseTheme, fallbackTheme, hb1, hb2, EqualsNoCase_self]
    have hk1 : k = 1 := by
      rcases Nat.lt_trichotomy k 1 with hlt | heq | hgt
      · have hk0 : k = 0 := by omega
        subst hk0
        rw [h1] at hend
        exact absurd hend hbase
      · exact heq
      · exact absurd h2 (hne 1 hgt)
    rw [hch, hk1]
    simp [List.range_succ, h0, h1]

theorem LoadThemeMetrics_implicit_base_witness :
    (LoadThemeMetrics envPlain "A" "english" ThemeManager.init).state.chain[0 + 1]?
        = some envPlain.BASE_THEME_NAME
      ∧ (LoadThemeMetrics envPlain "A" "english" ThemeManager.init).state.chain.length = 1 + 1
      ∧ (LoadThemeMetrics envPlain "A" "english" ThemeManager.init).state.chain
        = ["A", envPlain.BASE_THEME_NAME] :=
  ⟨((LoadThemeMetrics_implicit_base envPlain "A" "english" ThemeManager.init
      (LoadThemeMetrics envPlain "A" "english" ThemeManager.init).state (by decide!)
      (by decide)).1 0 "A" (by decide!) (by decide!)).1
      ⟨by decide!, fun q u hq hu => by
        have hq0 : q = 0 := by omega
        subst hq0
        have hc : (LoadThemeMetrics envPlain "A" "english" ThemeManager.init).state.chain[0]?
            = some "A" := by decide!
        rw [hc] at hu
        rw [← Option.some.inj hu]
        decide!⟩,
    ((LoadThemeMetrics_implicit_base envPlain "A" "english" ThemeManager.init
      (LoadThemeMetrics envPlain "A" "english" ThemeManager.init).state (by decide!)
      (by decide)).1 1 "default" (by decide!) (by decide!)).2
      (fun hc => absurd hc.1 (by decide!)),
    (LoadThemeMetrics_implicit_base envPlain "A" "english" ThemeManager.init
      (LoadThemeMetrics envPlain "A" "english" ThemeManager.init).state (by decide!)
      (by decide)).2 (by decide!)
      (fun u hu => by rcases hu with rfl | rfl <;> decide!)⟩



/-! ## The store that declares the class fallback -/

/-- C22 fails as stated: the strings store declares "B" as the fallback of class "A"
and holds the title in "B", the metrics store declares nothing; the lookup of the
title of "A" in the strings store finds nothing. -/
theorem GetMetricRawRecursive_ignores_strings_fallback :
    stStringsFallback.iniStrings.GetValue envEmpty.forms "A" "Title" = none
      ∧ stStringsFallback.iniStrings.GetValue envEmpty.forms "A" "Fallback" = some "B"
      ∧ stStringsFallback.iniStrings.GetValue envEmpty.forms "B" "Title" = some "hello"
      ∧ GetMetricRawRecursive envEmpty stStringsFallback stStringsFallback.iniStrings "A" "Title"
        = .ok none := by
  decide!

/-- C22, amended: whichever store is passed to the recursive lookup, when the key (other
than "Fallback") is absent in the class section, the next class is the evaluated
"Fallback" entry of the class section of the metrics store, and the lookup ends
without a value when there is none or it evaluates to the empty name; a strings
lookup follows the fallback declared in the metrics store. -/
theorem GetMetricRawRecursive_fallback_from_metrics (env : Env) (st : ThemeManager)
    (ini : IniFile) (sClassName sValueName : String) (n : Nat)
    (hloaded : st.g_pLoadedThemeData.isNone = false)
    (hkey : sValueName ≠ "Fallback")
    (hmiss : ini.GetValue env.forms sClassName sValueName = none) :
    GetMetricRawRecursive.loop env.forms ini (GetClassFallback env st) sValueName (n + 1)
        sClassName
      = match st.iniMetrics.GetValue env.forms sClassName "Fallback" with
        | none => .ok none
        | some sFallback =>
          if env.RunExpressionS sFallback = "" then .ok none
          else GetMetricRawRecursive.loop env.forms ini (GetClassFallback env st) sValueName n
            (env.RunExpressionS sFallback) := by
  rw [GetMetricRawRecursive.loop]
  simp only [hmiss, hkey, if_false, GetClassFallback_eq, hloaded, Bool.false_eq_true]
  cases st.iniMetrics.GetValue env.forms sClassName "Fallback" <;> simp

theorem GetMetricRawRecursive_fallback_from_metrics_witness :
    GetMetricRawRecursive.loop envEmpty.forms stMetricsFallback.iniStrings
        (GetClassFallback envEmpty stMetricsFallback) "Title" (99 + 1) "A"
      = GetMetricRawRecursive.loop envEmpty.forms stMetricsFallback.iniStrings
          (GetClassFallback envEmpty stMetricsFallback) "Title" 99 "B"
      ∧ GetMetricRawRecursive envEmpty stMetricsFallback stMetricsFallback.iniStrings "A" "Title"
        = .ok (some "hello") :=
  ⟨(GetMetricRawRecursive_fallback_from_metrics envEmpty stMetricsFallback
      stMetricsFallback.iniStrings "A" "Title" 99 (by decide) (by decide) (by decide!)).trans
      (by decide!),
    by decide!⟩



/-! ## Splitting a file name into class and element -/

theorem indexOfChar_eq_none (c : Char) :
    ∀ (l : List Char), c ∉ l → indexOfChar c l = none := by
  intro l
  induction l with
  | nil => intro _; rfl
  | cons x rest ih =>
    intro h
    simp only [List.mem_cons, not_or] at h
    have hx : ¬ x = c := fun e => h.1 e.symm
    simp [indexOfChar, hx, ih h.2]

theorem indexOfChar_append (c : Char) :
    ∀ (a b : List Char), c ∉ a → indexOfChar c (a ++ c :: b) = some a.length := by
  intro a
  induction a with
  | nil => intro b _; simp [indexOfChar]
  | cons x rest ih =>
    intro b h
    simp only [List.mem_cons, not_or] at h
    have hx : ¬ x = c := fun e => h.1 e.symm
    simp [indexOfChar, hx, ih b h.2]

theorem toInt32_small (n : Nat) (h : n < 2147483648) : toInt32 n = (n : Int) := by
  unfold toInt32
  have e : (2 : Nat) ^ 32 = 4294967296 := by norm_num
  have e' : (2 : Nat) ^ 31 = 2147483648 := by norm_num
  rw [e, e']
  have hm : n % 4294967296 = n := by omega
  rw [hm]
  simp [h]

theorem toInt32_high (n : Nat) (h : n < 2147483648) :
    toInt32 (18446744069414584320 + n) = (n : Int) := by
  unfold toInt32
  have e : (2 : Nat) ^ 32 = 4294967296 := by norm_num
  have e' : (2 : Nat) ^ 31 = 2147483648 := by norm_num
  rw [e, e']
  have hm : (18446744069414584320 + n) % 4294967296 = n := by omega
  rw [hm]
  simp [h]

theorem Left_natCast (l : List Char) (i : Nat) (h : i ≤ l.length) :
    Left ⟨l⟩ (i : Int) = ⟨l.take i⟩ := by
  unfold Left
  have : (max (0 : Int) (min (i : Int) (l.length : Int))).toNat = i := by omega
  simp only [this]

theorem Right_natCast (l : List Char) (i : Nat) (h : i ≤ l.length) :
    Right ⟨l⟩ (i : Int) = ⟨l.drop (l.length - i)⟩ := by
  unfold Right
  have : (max (0 : Int) (min (i : Int) (l.length : Int))).toNat = i := by omega
  simp only [this]

theorem Left_negative (l : List Char) : Left ⟨l⟩ (-1) = "" := by
  unfold Left
  have : (max (0 : Int) (min (-1) (l.length : Int))).toNat = 0 := by omega
  simp only [this]
  rfl

/-- C23: on a platform whose `size_t` has 32 or 64 bits and for a file name shorter than
2^31 characters, `FileNameToClassAndElement` returns the empty class name and the
whole file name when the name holds no space, and the text before the first space
and the text after that space when it holds one. -/
theorem FileNameToClassAndElement_spec (sizeBits : Nat) (sFileName : String)
    (hbits : sizeBits = 32 ∨ sizeBits = 64) (hlen : sFileName.data.length < 2 ^ 31) :
    (' ' ∉ sFileName.data → FileNameToClassAndElement sizeBits sFileName = ("", sFileName))
      ∧ (∀ a b : List Char, sFileName.data = a ++ ' ' :: b → ' ' ∉ a →
        FileNameToClassAndElement sizeBits sFileName = (⟨a⟩, ⟨b⟩)) := by
  obtain ⟨l⟩ := sFileName
  have e31 : (2 : Nat) ^ 31 = 2147483648 := by norm_num
  simp only [e31] at hlen
  constructor
  · intro hno
    unfold FileNameToClassAndElement
    simp only [indexOfChar_eq_none ' ' _ hno]
    rcases hbits with hb | hb
    · subst hb
      simp [npos]
    · subst hb
      have h1 : (npos 64) % 2 ^ 32 = 4294967295 := by decide
      have h2 : ¬ (4294967295 = npos 64) := by decide
      have h3 : toInt32 4294967295 = -1 := by decide
      have e64 : (2 : Nat) ^ 64 = 18446744073709551616 := by norm_num
      have h4 : (l.length + 2 * 2 ^ 64 - 4294967295 - 1) % 2 ^ 64
          = 18446744069414584320 + l.length := by
        rw [e64]
        omega
      simp only [h1, h2, if_false, h3, h4, toInt32_high _ hlen, Left_negative,
        Right_natCast l l.length (Nat.le_refl _)]
      simp
  · intro a b hab hno
    simp only at hab
    subst hab
    have hidx := indexOfChar_append ' ' a b hno
    have hlb : (a ++ ' ' :: b).length = a.length + b.length + 1 := by simp; omega
    rw [hlb] at hlen
    unfold FileNameToClassAndElement
    simp only [hidx]
    have e32 : (2 : Nat) ^ 32 = 4294967296 := by norm_num
    have h1 : a.length % 2 ^ 32 = a.length := by
      rw [e32]
      omega
    have h2 : ¬ (a.length = npos sizeBits) := by
      rcases hbits with hb | hb <;> subst hb <;> simp only [npos] <;> norm_num <;> omega
    have h4 : ((a ++ ' ' :: b).length + 2 * 2 ^ sizeBits - a.length - 1) % 2 ^ sizeBits
        = b.length := by
      rw [hlb]
      rcases hbits with hb | hb <;> subst hb <;> norm_num <;> omega
    simp only [h1, h2, if_false, h4, toInt32_small a.length (by omega),
      toInt32_small b.length (by omega),
      Left_natCast (a ++ ' ' :: b) a.length (by omega),
      Right_natCast (a ++ ' ' :: b) b.length (by omega)]
    have h7 : (a ++ ' ' :: b).length - b.length = a.length + 1 := by omega
    rw [h7]
    simp

theorem FileNameToClassAndElement_spec_witness :
    FileNameToClassAndElement 64 "foo" = ("", "foo")
      ∧ FileNameToClassAndElement 64 "Screen title text" = ("Screen", "title text")
      ∧ FileNameToClassAndElement 32 "foo" = ("", "foo") :=
  ⟨(FileNameToClassAndElement_spec 64 "foo" (Or.inr rfl) (by decide)).1 (by decide),
    (FileNameToClassAndElement_spec 64 "Screen title text" (Or.inr rfl) (by decide)).2
      "Screen".data "title text".data (by decide) (by decide),
    (FileNameToClassAndElement_spec 32 "foo" (Or.inl rfl) (by decide)).1 (by decide)⟩



/-! ## The first candidate after the language filter -/

/-- The first element of the rearranged vector satisfies the predicate when some
element of the input does. -/
theorem PartitionSpec.head_of_exists
    (partition : (String → Bool) → List String → List String × Nat)
    (hspec : PartitionSpec partition) (p : String → Bool) (l : List String)
    (hex : ∃ x ∈ l, p x = true) :
    (partition p l).2 ≠ 0 ∧ p ((partition p l).1.headD "") = true := by
  obtain ⟨hperm, hdist, htake, _⟩ := hspec p l
  obtain ⟨x, hx, hpx⟩ := hex
  have hpos : (partition p l).2 ≠ 0 := by
    rw [hdist]
    have : x ∈ l.filter p := List.mem_filter.mpr ⟨hx, hpx⟩
    intro h0
    rw [List.length_eq_zero.mp h0] at this
    simp at this
  refine ⟨hpos, ?_⟩
  cases hq : (partition p l).1 with
  | nil =>
    rw [hq] at hperm
    have := hperm.symm.subset hx
    simp at this
  | cons h t =>
    apply htake h
    rw [hq]
    cases hn : (partition p l).2 with
    | zero => exact absurd hn hpos
    | succ n => simp

/-- C24 fails as stated: both candidates for "X" carry the French marker and the first is
a redirect to "Y"; the match is ambiguous, the dialog is answered with Ignore, and
`GetPathToRaw` (and so `GetPath`) returns "Y.png", the target of the redirect, which
carries no language marker. -/
theorem GetPathToRaw_ignore_follows_redirect :
    (elementPaths envFrenchRedirect "T" .EC_GRAPHICS "" "X").any (CompareLanguageTag "French")
        = true
      ∧ 1 < (FilterFileLanguages envFrenchRedirect "French"
          (elementPaths envFrenchRedirect "T" .EC_GRAPHICS "" "X")).length
      ∧ Result.value (GetPathToRaw envFrenchRedirect (GetPath envFrenchRedirect 3) 4 "T"
          .EC_GRAPHICS "" "X" stFrench) = some "/Themes/T/Graphics/Y.png"
      ∧ (GetPathToRaw envFrenchRedirect (GetPath envFrenchRedirect 3) 4 "T"
          .EC_GRAPHICS "" "X" stFrench).state.nDialogs = 1
      ∧ Result.value (GetPath envFrenchRedirect 4 .EC_GRAPHICS "" "X" false stFrench)
        = some "/Themes/T/Graphics/Y.png"
      ∧ CompareLanguageTag "French" "/Themes/T/Graphics/Y.png" = false
      ∧ CompareLanguageTag envFrenchRedirect.BASE_LANGUAGE "/Themes/T/Graphics/Y.png" = false := by
  decide!

/-- C24, amended: with a `std::partition` that keeps its contract, the result of
`FilterFileLanguages` on two or more candidates is not empty and holds only
candidates of the input; its first entry carries the current-language marker when
some candidate does, and the base-language marker when no candidate carries the
current one and some candidate carries the base one.  When more than one
candidate is left and the dialog is answered with Ignore, `GetPathToRaw` goes on
with that first entry: it returns that entry when it is not a redirect, and
otherwise follows the redirect. -/
theorem FilterFileLanguages_first_preferred (env : Env) (hspec : PartitionSpec env.partition)
    (m_sCurLanguage : String) (asPaths : List String) (hlen : 2 ≤ asPaths.length) :
    FilterFileLanguages env m_sCurLanguage asPaths ≠ []
      ∧ (∀ x ∈ FilterFileLanguages env m_sCurLanguage asPaths, x ∈ asPaths)
      ∧ ((∃ x ∈ asPaths, CompareLanguageTag m_sCurLanguage x = true) →
        CompareLanguageTag m_sCurLanguage
          ((FilterFileLanguages env m_sCurLanguage asPaths).headD "") = true)
      ∧ ((∀ x ∈ asPaths, CompareLanguageTag m_sCurLanguage x = false) →
        (∃ x ∈ asPaths, CompareLanguageTag env.BASE_LANGUAGE x = true) →
        CompareLanguageTag env.BASE_LANGUAGE
          ((FilterFileLanguages env m_sCurLanguage asPaths).headD "") = true)
      ∧ (∀ (GetPath : GetPathFn) (fuel : Nat) (sThemeName : String)
          (category : ElementCategory) (sClassName sElement : String) (st : ThemeManager),
          elementPaths env sThemeName category sClassName sElement = asPaths →
          m_sCurLanguage = st.m_sCurLanguage →
          1 < (FilterFileLanguages env m_sCurLanguage asPaths).length →
          env.AbortRetryIgnore st.nDialogs
            (ambiguousMessage sThemeName (ElementCategoryToString category)
              (ClassAndElementToFileName sClassName sElement)) = .ignore →
          (EqualsNoCase
              (env.GetExtension ((FilterFileLanguages env m_sCurLanguage asPaths).headD ""))
              "redir" = false →
            GetPathToRaw env GetPath (fuel + 1) sThemeName category sClassName sElement st
              = .ok ((FilterFileLanguages env m_sCurLanguage asPaths).headD "")
                  (GetPathToRaw.searched st category true))
          ∧ GetPathToRaw env GetPath (fuel + 1) sThemeName category sClassName sElement st
            = GetPathToRaw.redirect env GetPath
                (GetPathToRaw env GetPath fuel sThemeName category sClassName sElement) category
                ((FilterFileLanguages env m_sCurLanguage asPaths).headD "")
                (GetPathToRaw.searched st category true)) := by
  have hgt : ¬ asPaths.length ≤ 1 := by omega
  obtain ⟨hperm1, hdist1, _, _⟩ := hspec (CompareLanguageTag m_sCurLanguage) asPaths
  obtain ⟨hperm2, hdist2, _, _⟩ := hspec (CompareLanguageTag env.BASE_LANGUAGE)
    (env.partition (CompareLanguageTag m_sCurLanguage) asPaths).1
  -- the vector the last `if` looks at is a rearrangement of the input
  have hr : ∃ r : List String × Nat, r.1.Perm asPaths
      ∧ FilterFileLanguages env m_sCurLanguage asPaths = (if r.2 = 1 then r.1.take r.2 else r.1)
      ∧ r = (if (env.partition (CompareLanguageTag m_sCurLanguage) asPaths).2 = 0
          then env.partition (CompareLanguageTag env.BASE_LANGUAGE)
            (env.partition (CompareLanguageTag m_sCurLanguage) asPaths).1
          else env.partition (CompareLanguageTag m_sCurLanguage) asPaths) := by
    refine ⟨_, ?_, ?_, rfl⟩
    · split
      · exact hperm2.trans hperm1
      · exact hperm1
    · unfold FilterFileLanguages
      simp only [hgt, if_false]
  obtain ⟨r, hrperm, hres, hrdef⟩ := hr
  have hrlen : 2 ≤ r.1.length := by rw [hrperm.length_eq]; exact hlen
  have hhead : (FilterFileLanguages env m_sCurLanguage asPaths).headD "" = r.1.headD "" := by
    rw [hres]
    split
    · rename_i h1
      rw [h1]
      cases hq : r.1 with
      | nil => rfl
      | cons a t => simp
    · rfl
  refine ⟨?_, ?_, ?_, ?_, ?_⟩
  · rw [hres]
    split
    · rename_i h1
      rw [h1]
      intro hnil
      have := congrArg List.length hnil
      simp only [List.length_take, List.length_nil] at this
      omega
    · intro hnil
      rw [hnil] at hrlen
      simp at hrlen
  · intro x hx
    rw [hres] at hx
    apply hrperm.subset
    split at hx
    · exact List.mem_of_mem_take hx
    · exact hx
  · intro hex
    obtain ⟨hpos, hp⟩ := PartitionSpec.head_of_exists env.partition hspec _ asPaths hex
    rw [hhead, hrdef]
    simp only [hpos, if_false]
    exact hp
  · intro hnone hex
    have h0 : (env.partition (CompareLanguageTag m_sCurLanguage) asPaths).2 = 0 := by
      rw [hdist1, List.length_eq_zero, List.filter_eq_nil_iff]
      intro x hx
      rw [hnone x hx]
      decide
    have hex' : ∃ x ∈ (env.partition (CompareLanguageTag m_sCurLanguage) asPaths).1,
        CompareLanguageTag env.BASE_LANGUAGE x = true := by
      obtain ⟨x, hx, hpx⟩ := hex
      exact ⟨x, hperm1.symm.subset hx, hpx⟩
    obtain ⟨_, hp⟩ := PartitionSpec.head_of_exists env.partition hspec _ _ hex'
    rw [hhead, hrdef]
    simp only [h0, if_true]
    exact hp
  · intro GetPath fuel sThemeName category sClassName sElement st hpaths hlang hmany hignore
    have hne : ¬ asPaths.length = 0 := by omega
    have hgo : GetPathToRaw env GetPath (fuel + 1) sThemeName category sClassName sElement st
        = GetPathToRaw.redirect env GetPath
            (GetPathToRaw env GetPath fuel sThemeName category sClassName sElement) category
            ((FilterFileLanguages env m_sCurLanguage asPaths).headD "")
            (GetPathToRaw.searched st category true) := by
      rw [GetPathToRaw]
      simp only [hpaths, hne, if_false, ← hlang, hmany, gt_iff_lt, if_true, hignore,
        GetPathToRaw.searched]
    refine ⟨?_, hgo⟩
    intro hplain
    rw [hgo, GetPathToRaw.redirect]
    simp only [hplain, Bool.not_false, if_true]

theorem FilterFileLanguages_first_preferred_witness :
    CompareLanguageTag envEmpty.BASE_LANGUAGE
        ((FilterFileLanguages envEmpty "German" twoLanguages).headD "") = true
      ∧ GetPathToRaw envTwoFrench (GetPath envTwoFrench 2) (2 + 1) "T" .EC_GRAPHICS "" "X"
          stFrench
        = .ok "/Themes/T/Graphics/X (lang French).png"
            (GetPathToRaw.searched stFrench .EC_GRAPHICS true)
      ∧ CompareLanguageTag "French" "/Themes/T/Graphics/X (lang French).png" = true :=
  ⟨(FilterFileLanguages_first_preferred envEmpty stablePartition_spec "German"
      twoLanguages (by decide)).2.2.2.1
      (fun x hx => by
        simp only [twoLanguages, List.mem_cons, List.mem_singleton, List.not_mem_nil,
          or_false] at hx
        rcases hx with rfl | rfl <;> decide!)
      ⟨"/Themes/T/Graphics/X (lang English).png", by decide, by decide!⟩,
    (((FilterFileLanguages_first_preferred envTwoFrench stablePartition_spec "French"
      ["/Themes/T/Graphics/X (lang French).png", "/Themes/T/Graphics/X (lang French).jpg"]
      (by decide)).2.2.2.2 (GetPath envTwoFrench 2) 2 "T" .EC_GRAPHICS "" "X" stFrench
      (by decide!) rfl (by decide!) (by decide!)).1 (by decide!)).trans (by decide!),
    by decide!⟩



/-! ## A placeholder that is not closed -/

theorem findSubstring_brace_eq_none :
    ∀ (l : List Char), '\x7d' ∉ l → findSubstring ['\x7d'] l = none := by
  intro l
  induction l with
  | nil => intro _; rfl
  | cons c rest ih =>
    intro h
    simp only [List.mem_cons, not_or] at h
    have hp : ¬ ['\x7d'].isPrefixOf (c :: rest) = true := fun e =>
      h.1 ((isPrefixOf_brace c rest).mp e).symm
    rw [findSubstring]
    simp [hp, ih h.2]

/-- On a text that starts with a placeholder that is never closed the loop of
`GetString` makes no progress: every budget runs out. -/
theorem GetString.translate_open (b : List Char) (hopen : '\x7d' ∉ b) :
    ∀ (fuel : Nat) (sTranslated : List Char),
      GetString.translate fuel ('%' :: '\x7b' :: b) sTranslated = none := by
  intro fuel
  induction fuel with
  | zero => intro out; rfl
  | succ fuel ih =>
    intro out
    have hfind : findSubstring ['%', '\x7b'] ('%' :: '\x7b' :: b) = some 0 := by
      rw [findSubstring]
      simp [(isPrefixOf_placeholder '%' ('\x7b' :: b)).mpr ⟨rfl, b, rfl⟩]
    have hbrace : findSubstring ['\x7d'] ('%' :: '\x7b' :: b) = none := by
      apply findSubstring_brace_eq_none
      simp only [List.mem_cons, not_or]
      exact ⟨by decide, by decide, hopen⟩
    rw [GetString.translate]
    simp only [hfind, List.drop_zero, hbrace, List.take_zero, List.append_nil]
    exact ih _

/-- C25: the strings store holds "%{n steps", a placeholder that is never closed, and
pseudo-localization is on.  `GetString` then does not return: whatever the budget
of iterations, the loop is still running when it is used up, and it leaves the
remaining text as long as it was. -/
theorem GetString_open_placeholder_never_returns :
    (∀ fuel, GetString envEmpty fuel "Screen" "Steps" stOpenPlaceholder
        = .fail .outOfFuel stOpenPlaceholder)
      ∧ findSubstring ['\x7d'] "%\x7bn steps".data = none
      ∧ ("%\x7bn steps".data.drop 0).length = "%\x7bn steps".data.length := by
  refine ⟨?_, by decide!, by decide⟩
  intro fuel
  cases fuel with
  | zero => rfl
  | succ fuel =>
    have hraw : GetMetricRaw envEmpty (fuel + 1) .iniStrings "Screen"
        (Replace (Replace "Steps" "\r\n" "\\n") "\n" "\\n") stOpenPlaceholder
        = .ok "%\x7bn steps" stOpenPlaceholder := by
      rw [GetMetricRaw]
      have : GetMetricRawRecursive envEmpty stOpenPlaceholder
          (stOpenPlaceholder.store .iniStrings) "Screen"
          (Replace (Replace "Steps" "\r\n" "\\n") "\n" "\\n") = .ok (some "%\x7bn steps") := by
        decide!
      rw [this]
    have hs : (Replace (envEmpty.ReplaceMarkers "%\x7bn steps") "\\n" "\n").data
        = '%' :: '\x7b' :: "n steps".data := by decide!
    have hflag : stOpenPlaceholder.m_bPseudoLocalize = true := rfl
    unfold GetString
    simp only [hraw, hflag, if_true, hs]
    rw [GetString.translate_open "n steps".data (by decide) (fuel + 1) []]



/-! ## A redirect that names its own element -/

/-- In the installation whose only file is a redirect to its own element, a request
for that element that is not in the cache uses up every budget of nested calls. -/
theorem GetPath.self_redirect :
    ∀ (fuel : Nat) (st : ThemeManager), st.g_vThemes = [⟨"T"⟩] →
      (st.g_ThemePathCache.get .EC_GRAPHICS).find "foo" = none →
      ∃ s, GetPath envSelfRedirect fuel .EC_GRAPHICS "" "foo" true st = .fail .outOfFuel s := by
  intro fuel
  induction fuel with
  | zero =>
    intro st _ hcache
    refine ⟨st, ?_⟩
    have hkey : ClassAndElementToFileName "" "foo" = "foo" := by decide
    simp only [GetPath, GetPath.cached, hkey, hcache, GetPath.search]
  | succ fuel ih =>
    intro st hthemes hcache
    have hkey : ClassAndElementToFileName "" "foo" = "foo" := by decide
    have hpaths : elementPaths envSelfRedirect "T" .EC_GRAPHICS "" "foo"
        = ["/Themes/T/Graphics/foo.redir"] := by decide!
    have hredir : EqualsNoCase (envSelfRedirect.GetExtension "/Themes/T/Graphics/foo.redir")
        "redir" = true := by decide!
    have hcontent : FileNameToClassAndElement envSelfRedirect.sizeBits
        (envSelfRedirect.GetFileContents "/Themes/T/Graphics/foo.redir") = ("", "foo") := by
      decide!
    obtain ⟨s, hs⟩ := ih { st with nDirListings := st.nDirListings + 1 } hthemes hcache
    refine ⟨s, ?_⟩
    have hs' : GetPath.cached (GetPath.search envSelfRedirect fuel) .EC_GRAPHICS "" "foo" true
        { st with nDirListings := st.nDirListings + 1 } = .fail .outOfFuel s := hs
    have hraw : GetPathToRaw envSelfRedirect
        (GetPath.cached (GetPath.search envSelfRedirect fuel)) (fuel + 1) "T" .EC_GRAPHICS ""
        "foo" st = .fail .outOfFuel s := by
      rw [GetPathToRaw]
      simp only [hpaths, FilterFileLanguages, List.length_singleton, Nat.le_refl, if_true,
        Nat.one_ne_zero, if_false, gt_iff_lt, Nat.lt_irrefl, List.headD_cons,
        GetPathToRaw.redirect, hredir, Bool.not_true, Bool.false_eq_true, hcontent, hs']
    simp only [GetPath, GetPath.cached, hkey, hcache]
    rw [GetPath.search]
    simp only [GetPathToAndFallback, GetPathToAndFallback.loop, hthemes,
      GetPathToAndFallback.themes, hraw]

/-- C26: theme "T" holds the one file "foo.redir", whose content is "foo".  The optional
request for the element "foo" does not return: whatever the budget of nested
`GetPath` calls, it is used up, each call finding the redirect and calling
`GetPath` for "foo" again before anything is stored in the cache. -/
theorem GetPath_self_redirect_never_returns :
    ∀ fuel, (GetPath envSelfRedirect fuel .EC_GRAPHICS "" "foo" true stOneTheme).failure
      = some .outOfFuel := by
  intro fuel
  obtain ⟨s, hs⟩ := GetPath.self_redirect fuel stOneTheme rfl (by decide)
  rw [hs]
  rfl



/-! ## Two requests with one cache key -/

/-- C27: theme "T" holds "Base B.png" and the metrics declare "Base" as the fallback of
class "A".  With an empty cache the optional request for class "A", element "B"
returns that file, found through the class fallback.  After the optional request
for the empty class and the element "A B", which finds nothing and has the same
joined name "A B", the same request returns the empty path from the cache. -/
theorem GetPath_cache_key_collision :
    ClassAndElementToFileName "" "A B" = ClassAndElementToFileName "A" "B"
      ∧ (stCollide.g_ThemePathCache.get .EC_GRAPHICS) = []
      ∧ Result.value (GetPath envCollide 3 .EC_GRAPHICS "A" "B" true stCollide)
        = some "/Themes/T/Graphics/Base B.png"
      ∧ Result.value (GetPath envCollide 3 .EC_GRAPHICS "" "A B" true stCollide) = some ""
      ∧ Result.value (GetPath envCollide 3 .EC_GRAPHICS "A" "B" true
          (GetPath envCollide 3 .EC_GRAPHICS "" "A B" true stCollide).state) = some ""
      ∧ (GetPath envCollide 3 .EC_GRAPHICS "" "A B" true stCollide).state.sameThemes stCollide
      ∧ (GetPath envCollide 3 .EC_GRAPHICS "" "A B" true stCollide).state.nDialogs = 0 := by
  refine ⟨by decide!, by decide!, by decide!, by decide!, by decide!, ⟨by decide!, by decide!⟩,
    by decide!⟩



/-! ## The metrics that begin with a prefix -/

end StepMania
